import Mathlib

/-!
# EVM-trackooor: handler registry, realtime listeners and the dedup ledger

A shallow embedding of the ingestion-and-dispatch core of EVM-trackooor
(`actions/base.go`, `trackooor/eventlistener.go`, `trackooor/blocklistener.go`,
`trackooor/historical.go`, `shared/common.go`), of the admission counter of
`actions/init.go` and of the helpers `shared.GetBlockHeader` and `utils.FormatDecimals`.

Modelling conventions

* The package-level variables of `actions`, `shared` and `trackooor` are the fields
  of `State` and every Go function is a function on `State`.
* `common.Hash` and `common.Address` are natural numbers (the value of the
  fixed-width byte string).
* A Go `map` is an association list with unique keys (`GoMap`); a missing key
  reads as the zero value, as in Go.
* A handler is a Go func value.  The registry compares handlers with
  `reflect.ValueOf(f).Pointer()`, the code pointer of the func value, so a
  handler is modelled by that pointer together with the rest of the func value
  (its closure context), which the comparison does not see.
* `log.Fatal`, `log.Fatalf` and runtime panics end the process: a function that
  can reach one returns an `Outcome`, which carries the state at the moment of
  termination.
* `go f(x)` appends a `spawn` entry to the effect trace; RPC requests append an
  entry of their own and read their answer from the environment `Env`.
  Terminal output (`Printf`, `Infof`, `Warnf`, progress bars) is not modelled.
* The entries of the event-signature data file are opaque; `Env.SchemaWellFormed` tells
  the entries on which the unchecked type assertions of the decoder hold.
  `doEventPostProcessingOrPanic` is the dispatch function with the panic on the other
  entries; the listeners and the historical loops are stated for a data file whose
  entries are well formed, where the dispatch is `doEventPostProcessing`.
* Handlers run as goroutines whose bodies the model does not contain.  What the driver
  reads of their progress (the admission counter) comes from `Env`; a goroutine of the
  driver itself (a block task of the batched loop) is run where it is launched.
-/

namespace Trackooor

/-! ## Basic types -/

/-- Value of a `common.Hash`. -/
abbrev Hash := Nat

/-- Value of a `common.Address`. -/
abbrev Address := Nat

/-- An entry of the event-signature data file (`shared.EventSigs`), an opaque JSON value. -/
abbrev Abi := Nat

/-- Go `map[κ]ν` as an association list. -/
abbrev GoMap (κ : Type) (ν : Type) := List (κ × ν)

namespace GoMap

variable {κ ν : Type} [DecidableEq κ]

/-- The comma-ok read `v, ok := m[k]`. -/
def get? : GoMap κ ν → κ → Option ν
  | [], _ => none
  | (k1, v) :: rest, k => if k1 = k then some v else get? rest k

/-- The assignment `m[k] = v`. -/
def set : GoMap κ ν → κ → ν → GoMap κ ν
  | [], k, v => [(k, v)]
  | (k1, v1) :: rest, k, v => if k1 = k then (k, v) :: rest else (k1, v1) :: set rest k v

end GoMap

/-- A Go func value used as a handler: `Pointer` is what
`reflect.ValueOf(f).Pointer()` returns, `closure` stands for the remainder of the
func value. -/
structure ActionFunc where
  Pointer : Nat
  closure : Nat
deriving DecidableEq, Repr

/-- The fields of `types.Log` the core reads. -/
structure Log where
  Address : Address
  Topics : List Hash
  Data : List Nat
  BlockNumber : Nat
  TxHash : Hash
  Index : Nat
  Removed : Bool
deriving DecidableEq, Repr

/-- The fields of `types.Transaction` the core reads. -/
structure Transaction where
  Hash : Hash
  To : Option Address
  Data : List Nat
deriving DecidableEq, Repr

/-- Go `types.Block`. -/
structure Block where
  Number : Nat
  Hash : Hash
  Transactions : List Transaction
deriving DecidableEq, Repr

/-- Go `types.Header`: `Hash` is the value of `header.Hash()`. -/
structure Header where
  Number : Nat
  Hash : Hash
deriving DecidableEq, Repr

/-- Go `shared.EventField`. -/
structure EventField where
  FieldName : String
  FieldType : String
  Indexed : Bool
deriving DecidableEq, Repr

/-- Go `actions.ActionEventData`. -/
structure ActionEventData where
  EventLog : Log
  EventFields : List EventField
  DecodedTopics : GoMap String Nat
  DecodedData : GoMap String Nat
deriving DecidableEq, Repr

/-- Go `actions.ActionTxData`. -/
structure ActionTxData where
  Transaction : Transaction
  From : Address
  To : Option Address
  Block : Block
deriving DecidableEq, Repr

/-- Go `actions.ActionBlockData`. -/
structure ActionBlockData where
  Block : Block
deriving DecidableEq, Repr

/-- Go `ethereum.FilterQuery`. -/
structure FilterQuery where
  FromBlock : Option Int
  ToBlock : Option Int
  Addresses : List Address
  Topics : List (List Hash)
deriving DecidableEq, Repr

/-- Go `shared.ProcessedEntity`; `BlockNumber` is a `*big.Int` and may be nil. -/
structure ProcessedEntity where
  BlockNumber : Option Nat
  TxHash : Hash
  EventIndex : Nat
deriving DecidableEq, Repr

/-- Go `shared.HistoricalOptions`; the block numbers are `*big.Int` and may be nil. -/
structure HistoricalOptions where
  FromBlock : Option Int := none
  ToBlock : Option Int := none
  StepBlocks : Option Int := none
  ContinueToRealtime : Bool := false
  LoopBackwards : Bool := false
  BatchFetchBlocks : Bool := false
deriving DecidableEq, Repr

/-- The fields of `shared.TrackooorOptions` the listeners and the registry use. -/
structure TrackooorOptions where
  FilterAddresses : List Address
  FilterEventTopics : List (List Hash)
  IsL2Chain : Bool
  MaxRequestsPerSecond : Int := 0
  HistoricalOptions : HistoricalOptions := {}
deriving DecidableEq, Repr

/-- Observable actions of the core, in program order. -/
inductive Effect where
  | postProcessEvent (vLog : Log)
  | spawnEvent (f : ActionFunc) (p : ActionEventData)
  | spawnTx (f : ActionFunc) (p : ActionTxData)
  | spawnBlock (f : ActionFunc) (p : ActionBlockData)
  | rpcFilterLogs (query : FilterQuery)
  | rpcBlockByHash (hash : Hash)
  | rpcBlockByNumber (number : Int)
  | rpcL2BlockByHexNumber (number : Nat)
  | rpcSubscribeFilterLogs (query : FilterQuery)
  | blockWaitGroupWait
  | handleBlock (block : Block)
  | sleepSecond
  | rpcWaitGroupWait
  | rpcPendingBlock
  | rpcSubscribeNewHead
  | rpcHeaderByNumber (number : Option Int)
deriving DecidableEq, Repr

/-- The package-level variables of `actions`, `shared` and `trackooor`, and the effect
trace.  `BlockWaitGroup` is the counter of `shared.BlockWaitGroup`; `stepBlocks`,
`MaxRequestsPerSecond` and `processedBlock` are the variables of package `trackooor`
(`processedBlock` is keyed by the block number, whose decimal rendering is the Go key).
`CachedBlocks` is `shared.CachedBlocks`, a `map[*big.Int]*types.Header`: its key is the
address of a `big.Int` object. -/
structure State where
  EventSigs : GoMap Hash Abi
  EventSigToAction : GoMap Hash (List ActionFunc)
  ContractToEventSigToAction : GoMap Address (GoMap Hash (List ActionFunc))
  ContractToEventAction : GoMap Address (List ActionFunc)
  TxAddressToAction : GoMap Address (List ActionFunc)
  BlockActions : List ActionFunc
  Options : TrackooorOptions
  SwitchingToRealtime : Bool
  AlreadyProcessed : GoMap Hash ProcessedEntity
  DupeDetected : Bool
  trace : List Effect
  BlockWaitGroup : Nat := 0
  stepBlocks : Int := 10000
  MaxRequestsPerSecond : Int := 30
  processedBlock : GoMap Nat Bool := []
  CachedBlocks : GoMap Nat Header := []
deriving DecidableEq, Repr

/-- Why the process terminated. -/
inductive Abort where
  | missingEventAbi (sig : String)
  | filterLogsError
  | txSenderError
  | subscriptionError
  | malformedResponse
  | nilDereference
  | divisionByZero
  | unimplemented
  | blockFetchError (number : Int)
  | pendingBlockError
  | waitsForever
  | fromBlockNotSet
  | headerFetchError
  | negativeWaitGroupCounter
  | malformedSchema
deriving DecidableEq, Repr

/-- Result of a function that can end the process: `fatal a s` is termination in state `s`.
`fatal .waitsForever s` is the one outcome that is not a termination: the caller is
parked for good in a `Wait` on a counter that nothing decrements, and performs no further
effect. -/
inductive Outcome (σ : Type) where
  | ok (s : σ)
  | fatal (a : Abort) (s : σ)
deriving DecidableEq, Repr

/-- Sequencing: a terminated process runs nothing further. -/
def Outcome.andThen {σ : Type} : Outcome σ → (σ → Outcome σ) → Outcome σ
  | .ok s, k => k s
  | .fatal a s, _ => .fatal a s

/-- Answer of `shared.GetL2BlockByHexNumber`: a block, a returned error, or a provider
response that does not decode (the function panics). -/
inductive L2Answer where
  | block (b : Block)
  | error
  | malformed
deriving DecidableEq, Repr

/-- The external collaborators: hashing, ABI decoding, sender recovery and the RPC client.
An answer of `none` is a returned error (for `GetTxSender`, the `log.Fatalf` inside it).
`RpcWaitGroupGetCount t` is what `actions.RpcWaitGroup.GetCount()` returns when the driver
calls it after the effects `t`: the counter is moved by the handler goroutines, whose
progress the model does not fix.  `HeaderByNumber none` is the request for the latest
header.  `SchemaWellFormed event` says whether an entry of the event-signature data file
has the shape that `doEventPostProcessing` and `shared.DecodeTopicsAndData` assert without
a check (`event.(map[string]interface{})`, its `abi` a map with a string `name` and a list
`inputs` of maps with string `name` and `type` and boolean `indexed`); an entry of another
shape makes the assertion panic. -/
structure Env where
  Keccak256Hash : String → Hash
  DecodeTopicsAndData : List Hash → List Nat → Abi →
    List EventField × GoMap String Nat × GoMap String Nat
  GetTxSender : Transaction → Option Address
  FilterLogs : FilterQuery → Option (List Log)
  BlockByHash : Hash → Option Block
  BlockByNumber : Int → Option Block
  GetL2BlockByHexNumber : Nat → L2Answer
  RpcWaitGroupGetCount : List Effect → Int := fun _ => 0
  HeaderByNumber : Option Int → Option Header := fun _ => none
  SchemaWellFormed : Abi → Bool := fun _ => true

/-! ## Handler registry (`actions/base.go`) -/

/-- Go `containsActionEventFunc`. -/
def containsActionEventFunc : List ActionFunc → ActionFunc → Bool
  | [], _ => false
  | f :: funcs, target =>
    if f.Pointer = target.Pointer then true else containsActionEventFunc funcs target

/-- Go `containsActionTxFunc`. -/
def containsActionTxFunc : List ActionFunc → ActionFunc → Bool
  | [], _ => false
  | f :: funcs, target =>
    if f.Pointer = target.Pointer then true else containsActionTxFunc funcs target

/-- Go `containsActionBlockFunc`. -/
def containsActionBlockFunc : List ActionFunc → ActionFunc → Bool
  | [], _ => false
  | f :: funcs, target =>
    if f.Pointer = target.Pointer then true else containsActionBlockFunc funcs target

/-- The slice `FilterEventTopics[0]`, empty when there is no slot 0. -/
def topicSlot0 (o : TrackooorOptions) : List Hash :=
  o.FilterEventTopics.headD []

/-- The statement `FilterEventTopics[0] = append(FilterEventTopics[0], sighash)`. -/
def appendTopicSlot0 (sighash : Hash) : List (List Hash) → List (List Hash)
  | [] => []
  | slot :: rest => (slot ++ [sighash]) :: rest

/-- "add event sig to filter topics if not already added"
(`base.go` lines 50-56 and 88-94). -/
def addFilterTopic (sighash : Hash) (o : TrackooorOptions) : TrackooorOptions :=
  let o1 : TrackooorOptions :=
    if o.FilterEventTopics.length = 0 then { o with FilterEventTopics := [[]] } else o
  if sighash ∈ topicSlot0 o1 then o1
  else { o1 with FilterEventTopics := appendTopicSlot0 sighash o1.FilterEventTopics }

/-- "add contract to filter addresses if not already added" (`base.go` lines 83-86). -/
def addFilterAddress (contractAddress : Address) (o : TrackooorOptions) : TrackooorOptions :=
  if contractAddress ∈ o.FilterAddresses then o
  else { o with FilterAddresses := o.FilterAddresses ++ [contractAddress] }

/-- Go `addEventSigAction`. -/
def addEventSigAction (env : Env) (sig : String) (f : ActionFunc) (s : State) :
    Outcome State :=
  let sighash := env.Keccak256Hash sig
  match s.EventSigs.get? sighash with
  | none => .fatal (.missingEventAbi sig) s
  | some _ =>
    let funcs := (s.EventSigToAction.get? sighash).getD []
    let s1 : State :=
      if containsActionEventFunc funcs f then s
      else { s with EventSigToAction := s.EventSigToAction.set sighash (funcs ++ [f]) }
    .ok { s1 with Options := addFilterTopic sighash s1.Options }

/-- Go `addAddressEventSigAction`. -/
def addAddressEventSigAction (env : Env) (contractAddress : Address) (sig : String)
    (f : ActionFunc) (s : State) : Outcome State :=
  let sighash := env.Keccak256Hash sig
  match s.EventSigs.get? sighash with
  | none => .fatal (.missingEventAbi sig) s
  | some _ =>
    let outer : GoMap Address (GoMap Hash (List ActionFunc)) :=
      match s.ContractToEventSigToAction.get? contractAddress with
      | none => s.ContractToEventSigToAction.set contractAddress []
      | some _ => s.ContractToEventSigToAction
    let inner := (outer.get? contractAddress).getD []
    let funcs := (inner.get? sighash).getD []
    let s1 : State :=
      if containsActionEventFunc funcs f then { s with ContractToEventSigToAction := outer }
      else { s with ContractToEventSigToAction :=
                      outer.set contractAddress (inner.set sighash (funcs ++ [f])) }
    .ok { s1 with
      Options := addFilterTopic sighash (addFilterAddress contractAddress s1.Options) }

/-- Go `addAddressEventAction`. -/
def addAddressEventAction (contractAddress : Address) (f : ActionFunc) (s : State) : State :=
  let funcs := (s.ContractToEventAction.get? contractAddress).getD []
  if containsActionEventFunc funcs f then s
  else { s with ContractToEventAction := s.ContractToEventAction.set contractAddress (funcs ++ [f]) }

/-- Go `addTxAddressAction`. -/
def addTxAddressAction (address : Address) (f : ActionFunc) (s : State) : State :=
  let funcs := (s.TxAddressToAction.get? address).getD []
  if containsActionTxFunc funcs f then s
  else { s with TxAddressToAction := s.TxAddressToAction.set address (funcs ++ [f]) }

/-- Go `addBlockAction`. -/
def addBlockAction (f : ActionFunc) (s : State) : State :=
  if containsActionBlockFunc s.BlockActions f then s
  else { s with BlockActions := s.BlockActions ++ [f] }

/-- One call of a registration operation. -/
inductive RegCall where
  | eventSig (sig : String) (f : ActionFunc)
  | addressEventSig (contractAddress : Address) (sig : String) (f : ActionFunc)
  | addressEvent (contractAddress : Address) (f : ActionFunc)
  | txAddress (address : Address) (f : ActionFunc)
  | block (f : ActionFunc)
deriving DecidableEq, Repr

/-- Perform one registration call. -/
def RegCall.run (env : Env) : RegCall → State → Outcome State
  | .eventSig sig f, s => addEventSigAction env sig f s
  | .addressEventSig c sig f, s => addAddressEventSigAction env c sig f s
  | .addressEvent c f, s => .ok (addAddressEventAction c f s)
  | .txAddress a f, s => .ok (addTxAddressAction a f s)
  | .block f, s => .ok (addBlockAction f s)

/-- Perform a sequence of registration calls, in order. -/
def runCalls (env : Env) : List RegCall → State → Outcome State
  | [], s => .ok s
  | c :: cs, s => (c.run env s).andThen (runCalls env cs)

/-! ## Event dispatch (`trackooor/eventlistener.go`) -/

/-- The statements `for _, function := range functions { go function(p) }` after a
comma-ok map read: nothing is launched when the key is absent. -/
def spawnEvents (functions : Option (List ActionFunc)) (p : ActionEventData) : List Effect :=
  (functions.getD []).map (fun function => Effect.spawnEvent function p)

/-- The envelope built by `doEventPostProcessing` (lines 29-50) when the type assertions
on the schema entry hold; the panic on an entry of another shape is in
`doEventPostProcessingOrPanic`. -/
def actionEventDataOf (env : Env) (s : State) (vLog : Log) : ActionEventData :=
  match s.EventSigs.get? (vLog.Topics.headD 0) with
  | some event =>
    let decoded := env.DecodeTopicsAndData vLog.Topics.tail vLog.Data event
    { EventLog := vLog, EventFields := decoded.1,
      DecodedTopics := decoded.2.1, DecodedData := decoded.2.2 }
  | none => { EventLog := vLog, EventFields := [], DecodedTopics := [], DecodedData := [] }

/-- Go `doEventPostProcessing` on a log whose schema entry, if there is one, has the
asserted shape.  The call itself is recorded in the trace. -/
def doEventPostProcessing (env : Env) (vLog : Log) (s : State) : State :=
  let s0 : State := { s with trace := s.trace ++ [Effect.postProcessEvent vLog] }
  match vLog.Topics with
  | [] => s0
  | eventSigHash :: _ =>
    let contract := vLog.Address
    let actionEventData := actionEventDataOf env s vLog
    let bySig := s.EventSigToAction.get? eventSigHash
    let byContractSig :=
      ((s.ContractToEventSigToAction.get? contract).getD []).get? eventSigHash
    let byContract := s.ContractToEventAction.get? contract
    { s0 with trace := s0.trace ++ spawnEvents bySig actionEventData
                ++ spawnEvents byContractSig actionEventData
                ++ spawnEvents byContract actionEventData }

/-- Go `doEventPostProcessing` with its unchecked type assertions.  A log without topics
returns before the schema is read.  When the first topic has a schema entry that is not of
the asserted shape, the call panics while it builds the envelope, before any handler is
launched; in every other case the call is `doEventPostProcessing`. -/
def doEventPostProcessingOrPanic (env : Env) (vLog : Log) (s : State) : Outcome State :=
  match vLog.Topics with
  | [] => .ok (doEventPostProcessing env vLog s)
  | eventSigHash :: _ =>
    match s.EventSigs.get? eventSigHash with
    | some event =>
      if env.SchemaWellFormed event then .ok (doEventPostProcessing env vLog s)
      else .fatal .malformedSchema { s with trace := s.trace ++ [Effect.postProcessEvent vLog] }
    | none => .ok (doEventPostProcessing env vLog s)

/-- The record `ProcessedEntity{EventIndex: vLog.Index}` that `handleEventGeneral` writes. -/
def eventRecord (vLog : Log) : ProcessedEntity :=
  { BlockNumber := none, TxHash := 0, EventIndex := vLog.Index }

/-- The record `ProcessedEntity{BlockNumber: header.Number}` that `HandleHeader` writes. -/
def headerRecord (header : Header) : ProcessedEntity :=
  { BlockNumber := some header.Number, TxHash := 0, EventIndex := 0 }

/-- Go `handleEventGeneral`. -/
def handleEventGeneral (env : Env) (vLog : Log) (s : State) : State :=
  if s.SwitchingToRealtime then
    let recorded : State :=
      { s with AlreadyProcessed := s.AlreadyProcessed.set vLog.TxHash (eventRecord vLog) }
    match s.AlreadyProcessed.get? vLog.TxHash with
    | some entity =>
      if vLog.Index = entity.EventIndex then { s with DupeDetected := true }
      else doEventPostProcessing env vLog recorded
    | none => doEventPostProcessing env vLog recorded
  else doEventPostProcessing env vLog s

/-- The loop `for _, log := range logs { handleEventGeneral(log) }`. -/
def handleEvents (env : Env) (logs : List Log) (s : State) : State :=
  logs.foldl (fun st vLog => handleEventGeneral env vLog st) s

/-- What the subscription of `ListenToEventsSingle` delivers: an error on `sub.Err()`
or a log on the `logs` channel. -/
inductive LogsMsg where
  | err
  | log (vLog : Log)
deriving DecidableEq, Repr

/-- One iteration of the `for { select { ... } }` loop of `ListenToEventsSingle`. -/
def listenToEventsSingleStep (env : Env) (msg : LogsMsg) (s : State) : Outcome State :=
  match msg with
  | .err => .fatal .subscriptionError s
  | .log vLog => if vLog.Removed then .ok s else .ok (handleEventGeneral env vLog s)

/-- The loop of `ListenToEventsSingle` over the messages received so far. -/
def listenToEventsSingleLoop (env : Env) : List LogsMsg → State → Outcome State
  | [], s => .ok s
  | msg :: msgs, s =>
    (listenToEventsSingleStep env msg s).andThen (listenToEventsSingleLoop env msgs)

/-- Go `ListenToEventsSingle`, run on a finite prefix of the subscription stream. -/
def ListenToEventsSingle (env : Env) (msgs : List LogsMsg) (s : State) : Outcome State :=
  let query : FilterQuery :=
    { FromBlock := none, ToBlock := none,
      Addresses := s.Options.FilterAddresses, Topics := s.Options.FilterEventTopics }
  listenToEventsSingleLoop env msgs
    { s with trace := s.trace ++ [Effect.rpcSubscribeFilterLogs query] }

/-! ## Block handling (`trackooor/blocklistener.go`) -/

/-- Go `handleEventsFromBlock`. -/
def handleEventsFromBlock (env : Env) (block : Block) (contracts : List Address) (s : State) :
    Outcome State :=
  let query : FilterQuery :=
    { FromBlock := some (block.Number : Int), ToBlock := some (block.Number : Int),
      Addresses := contracts, Topics := s.Options.FilterEventTopics }
  let s1 : State := { s with trace := s.trace ++ [Effect.rpcFilterLogs query] }
  match env.FilterLogs query with
  | none => .fatal .filterLogsError s1
  | some logs => .ok (handleEvents env logs s1)

/-- The body of the loop of `doTxPostProcessing` for one transaction. -/
def doTxPostProcessingOne (env : Env) (block : Block) (tx : Transaction) (s : State) :
    Outcome State :=
  match env.GetTxSender tx with
  | none => .fatal .txSenderError s
  | some sender =>
    let p : ActionTxData := { Transaction := tx, Block := block, From := sender, To := tx.To }
    match s.TxAddressToAction.get? p.From with
    | some functions =>
      .ok { s with trace := s.trace ++ functions.map (fun function => Effect.spawnTx function p) }
    | none =>
      match p.To with
      | some recipient =>
        match s.TxAddressToAction.get? recipient with
        | some functions =>
          .ok { s with
            trace := s.trace ++ functions.map (fun function => Effect.spawnTx function p) }
        | none => .ok s
      | none => .ok s

/-- Go `doTxPostProcessing`, on the transactions still to be visited. -/
def doTxPostProcessingLoop (env : Env) (block : Block) : List Transaction → State → Outcome State
  | [], s => .ok s
  | tx :: txs, s =>
    (doTxPostProcessingOne env block tx s).andThen (doTxPostProcessingLoop env block txs)

/-- Go `doTxPostProcessing`. -/
def doTxPostProcessing (env : Env) (block : Block) (s : State) : Outcome State :=
  doTxPostProcessingLoop env block block.Transactions s

/-- Go `doBlocksPostProcessing`. -/
def doBlocksPostProcessing (p : ActionBlockData) (s : State) : State :=
  { s with trace := s.trace ++ s.BlockActions.map (fun function => Effect.spawnBlock function p) }

/-- The statement `shared.BlockWaitGroup.Wait()`: it returns only when the counter of the
group is zero.  No handler of this repository touches the group, so a counter that is not
zero when the driver waits stays so. -/
def blockWaitGroupWait (s : State) : Outcome State :=
  if s.BlockWaitGroup = 0 then
    .ok { s with trace := s.trace ++ [Effect.blockWaitGroupWait] }
  else .fatal .waitsForever s

/-- The statements of `handleBlock` before its final wait.  The call is recorded in the
trace (the function starts by logging "Handling block"). -/
def handleBlockBody (env : Env) (block : Block) (s : State) : Outcome State :=
  let s0 : State := { s with trace := s.trace ++ [Effect.handleBlock block] }
  let s1 := doBlocksPostProcessing { Block := block } s0
  let afterEvents : Outcome State :=
    if s1.EventSigToAction.length = 0 ∧ s1.ContractToEventSigToAction.length = 0 then .ok s1
    else handleEventsFromBlock env block s1.Options.FilterAddresses s1
  afterEvents.andThen (fun s2 =>
    if s2.TxAddressToAction.length = 0 then .ok s2 else doTxPostProcessing env block s2)

/-- Go `handleBlock`. -/
def handleBlock (env : Env) (block : Block) (s : State) : Outcome State :=
  (handleBlockBody env block s).andThen blockWaitGroupWait

/-- The second half of `HandleHeader` (lines 110-134): fetch the block of the header and
hand it to `handleBlock`; a block that cannot be fetched is skipped. -/
def fetchAndHandleBlock (env : Env) (header : Header) (s : State) : Outcome State :=
  if s.Options.IsL2Chain then
    let s1 : State :=
      { s with trace := s.trace ++ [Effect.rpcL2BlockByHexNumber header.Number] }
    match env.GetL2BlockByHexNumber header.Number with
    | .block block => handleBlock env block s1
    | .error => .ok s1
    | .malformed => .fatal .malformedResponse s1
  else
    let s1 : State := { s with trace := s.trace ++ [Effect.rpcBlockByHash header.Hash] }
    match env.BlockByHash header.Hash with
    | some block => handleBlock env block s1
    | none =>
      let s2 : State := { s1 with trace := s1.trace ++ [Effect.rpcBlockByNumber header.Number] }
      match env.BlockByNumber header.Number with
      | some block => handleBlock env block s2
      | none => .ok s2

/-- Go `HandleHeader`.  Reading `entity.BlockNumber` of a record that has none is a nil
dereference inside `big.Int.Cmp`. -/
def HandleHeader (env : Env) (header : Header) (s : State) : Outcome State :=
  if s.SwitchingToRealtime then
    let recorded : State :=
      { s with AlreadyProcessed := s.AlreadyProcessed.set header.Hash (headerRecord header) }
    match s.AlreadyProcessed.get? header.Hash with
    | some entity =>
      match entity.BlockNumber with
      | none => .fatal .nilDereference s
      | some blockNumber =>
        if blockNumber = header.Number then .ok { s with DupeDetected := true }
        else fetchAndHandleBlock env header recorded
    | none => fetchAndHandleBlock env header recorded
  else fetchAndHandleBlock env header s

/-- What the subscription of `ListenToBlocks` delivers: an error on `sub.Err()` or a
header on the `headers` channel. -/
inductive HeadMsg where
  | err
  | header (header : Header)
deriving DecidableEq, Repr

/-- The `for { select { ... } }` loop of `ListenToBlocks` over the messages received so
far. -/
def listenToBlocksLoop (env : Env) : List HeadMsg → State → Outcome State
  | [], s => .ok s
  | .err :: _, s => .fatal .subscriptionError s
  | .header header :: msgs, s =>
    (HandleHeader env header s).andThen (listenToBlocksLoop env msgs)

/-- Go `ListenToBlocks`, run on a finite prefix of the subscription stream. -/
def ListenToBlocks (env : Env) (msgs : List HeadMsg) (s : State) : Outcome State :=
  listenToBlocksLoop env msgs { s with trace := s.trace ++ [Effect.rpcSubscribeNewHead] }

/-! ## Pending-block poller (`trackooor/blocklistener.go`) -/

/-- Go `getPendingBlock`, for one answer of the provider to the request for the pending
block.  A returned error is a `panic(err)`. -/
def getPendingBlock (env : Env) (answer : L2Answer) (s : State) : Outcome State :=
  let s1 : State := { s with trace := s.trace ++ [Effect.rpcPendingBlock] }
  match answer with
  | .error => .fatal .pendingBlockError s1
  | .malformed => .fatal .malformedResponse s1
  | .block block =>
    let alreadyProcessed := (s1.processedBlock.get? block.Number).getD false
    if alreadyProcessed then .ok s1
    else handleBlock env block
      { s1 with processedBlock := s1.processedBlock.set block.Number true }

/-- The ticker loop of `ListenToPendingBlocks` over the answers to its polls so far. -/
def listenToPendingBlocksLoop (env : Env) : List L2Answer → State → Outcome State
  | [], s => .ok s
  | answer :: answers, s =>
    (getPendingBlock env answer s).andThen (listenToPendingBlocksLoop env answers)

/-- Go `ListenToPendingBlocks`, run on the answers to a finite number of polls. -/
def ListenToPendingBlocks (env : Env) (answers : List L2Answer) (s : State) : Outcome State :=
  listenToPendingBlocksLoop env answers { s with processedBlock := [] }

/-! ## Historical backfill (`trackooor/historical.go`)

The loops of this file run on `*big.Int` counters and need not terminate, so they take a
bound on the number of iterations: `none` means that the loop is still running after that
many iterations. -/

/-- Go `SetupHistorical`: the step and the request limit of the options replace the
defaults when they are set, a missing `FromBlock` is a `log.Fatalf`, a missing `ToBlock`
becomes the number of the latest header (`panic(err)` when that request fails).  The step
is stored as it is given. -/
def SetupHistorical (env : Env) (s : State) : Outcome State :=
  let s1 : State :=
    match s.Options.HistoricalOptions.StepBlocks with
    | some step => { s with stepBlocks := step }
    | none => s
  let s2 : State :=
    if s1.Options.MaxRequestsPerSecond ≠ 0 then
      { s1 with MaxRequestsPerSecond := s1.Options.MaxRequestsPerSecond }
    else s1
  match s2.Options.HistoricalOptions.FromBlock with
  | none => .fatal .fromBlockNotSet s2
  | some _ =>
    match s2.Options.HistoricalOptions.ToBlock with
    | some _ => .ok s2
    | none =>
      let s3 : State := { s2 with trace := s2.trace ++ [Effect.rpcHeaderByNumber none] }
      match env.HeaderByNumber none with
      | none => .fatal .headerFetchError s3
      | some header =>
        let historical : HistoricalOptions :=
          { s3.Options.HistoricalOptions with ToBlock := some (header.Number : Int) }
        .ok { s3 with Options := { s3.Options with HistoricalOptions := historical } }

/-- "handle request throughput" (`historical.go` lines 83-86): when the admission counter
is at or above the maximum, sleep one second and wait for `RpcWaitGroup`. -/
def throttle (env : Env) (s : State) : State :=
  if s.MaxRequestsPerSecond ≤ env.RpcWaitGroupGetCount s.trace then
    { s with trace := s.trace ++ [Effect.sleepSecond, Effect.rpcWaitGroupWait] }
  else s

/-- The loop `for _, log := range logs` of `ProcessHistoricalEventsSingle`. -/
def handleHistoricalLogs (env : Env) : List Log → State → State
  | [], s => s
  | vLog :: logs, s => handleHistoricalLogs env logs (throttle env (handleEventGeneral env vLog s))

/-- The upper end `stepTo` of the range requested at `currentBlock`. -/
def historicalStepTo (currentBlock stepBlocks toBlock : Int) : Int :=
  let stepTo := currentBlock + (stepBlocks - 1)
  if stepTo > toBlock then toBlock else stepTo

/-- The query `ProcessHistoricalEventsSingle` builds at `currentBlock`. -/
def historicalQuery (eventTopics : List (List Hash)) (toBlock currentBlock : Int) (s : State) :
    FilterQuery :=
  { Addresses := s.Options.FilterAddresses, Topics := eventTopics,
    FromBlock := some currentBlock,
    ToBlock := some (historicalStepTo currentBlock s.stepBlocks toBlock) }

/-- The `for currentBlock := fromBlock; currentBlock <= toBlock; currentBlock += stepBlocks`
loop of `ProcessHistoricalEventsSingle`. -/
def processHistoricalEventsLoop (env : Env) (eventTopics : List (List Hash)) (toBlock : Int) :
    Nat → Int → State → Option (Outcome State)
  | 0, _, _ => none
  | fuel + 1, currentBlock, s =>
    if currentBlock ≤ toBlock then
      let query := historicalQuery eventTopics toBlock currentBlock s
      let s1 : State := { s with trace := s.trace ++ [Effect.rpcFilterLogs query] }
      match env.FilterLogs query with
      | none => some (.fatal .filterLogsError s1)
      | some logs =>
        processHistoricalEventsLoop env eventTopics toBlock fuel (currentBlock + s.stepBlocks)
          (handleHistoricalLogs env logs s1)
    else some (.ok s)

/-- Go `ProcessHistoricalEventsSingle`.  The progress bar is sized with
`(toBlock - fromBlock) / stepBlocks`, a `big.Int.Div` that panics on a zero divisor. -/
def ProcessHistoricalEventsSingle (env : Env) (fuel : Nat) (fromBlock toBlock : Int)
    (eventTopics : List (List Hash)) (s : State) : Option (Outcome State) :=
  if s.stepBlocks = 0 then some (.fatal .divisionByZero s)
  else processHistoricalEventsLoop env eventTopics toBlock fuel fromBlock s

/-- The body of the sequential loops of `ProcessHistoricalBlocks`, also run by each block
task of the batched loop: fetch the block by number and hand it to `handleBlock`. -/
def processBlockByNumber (env : Env) (currentBlock : Int) (s : State) : Outcome State :=
  let s1 : State := { s with trace := s.trace ++ [Effect.rpcBlockByNumber currentBlock] }
  match env.BlockByNumber currentBlock with
  | none => .fatal (.blockFetchError currentBlock) s1
  | some block => handleBlock env block s1

/-- The `LoopBackwards` loop of `ProcessHistoricalBlocks` (lines 141-153). -/
def processBlocksBackwards (env : Env) (toBlock : Int) : Nat → Int → State → Option (Outcome State)
  | 0, _, _ => none
  | fuel + 1, currentBlock, s =>
    if toBlock ≤ currentBlock then
      match processBlockByNumber env currentBlock s with
      | .ok s1 => processBlocksBackwards env toBlock fuel (currentBlock - 1) s1
      | .fatal a s1 => some (.fatal a s1)
    else some (.ok s)

/-- The forward sequential loop of `ProcessHistoricalBlocks` (lines 155-166). -/
def processBlocksForwards (env : Env) (toBlock : Int) : Nat → Int → State → Option (Outcome State)
  | 0, _, _ => none
  | fuel + 1, currentBlock, s =>
    if currentBlock ≤ toBlock then
      match processBlockByNumber env currentBlock s with
      | .ok s1 => processBlocksForwards env toBlock fuel (currentBlock + 1) s1
      | .fatal a s1 => some (.fatal a s1)
    else some (.ok s)

/-- The batch size `batchCount` of the batched loop. -/
def batchCount : Int := 100

/-- The statements of the batched loop that follow the launch of a block task
(lines 128-131): at a multiple of the batch size, wait for `shared.BlockWaitGroup`. -/
def batchWait (currentBlock : Int) (s : State) : Outcome State :=
  if currentBlock % batchCount = 0 then blockWaitGroupWait s else .ok s

/-- One iteration of the batched loop (lines 110-131): `shared.BlockWaitGroup.Add(1)`, the
block task, then the wait at a multiple of the batch size.  The task is a goroutine; it is
run here to its end at the point where it is launched, which is one of the interleavings
the scheduler allows.  A task parked in the final wait of `handleBlock` does not stop the
driver; a `log.Fatalf` in a task ends the process. -/
def batchStep (env : Env) (currentBlock : Int) (s : State) : Outcome State :=
  let s1 : State := { s with BlockWaitGroup := s.BlockWaitGroup + 1 }
  match processBlockByNumber env currentBlock s1 with
  | .ok s2 => batchWait currentBlock s2
  | .fatal a s2 => if a = .waitsForever then batchWait currentBlock s2 else .fatal a s2

/-- The batched loop of `ProcessHistoricalBlocks` (lines 109-134). -/
def processBlocksBatched (env : Env) (toBlock : Int) : Nat → Int → State → Option (Outcome State)
  | 0, _, _ => none
  | fuel + 1, currentBlock, s =>
    if currentBlock ≤ toBlock then
      match batchStep env currentBlock s with
      | .ok s1 => processBlocksBatched env toBlock fuel (currentBlock + 1) s1
      | .fatal a s1 => some (.fatal a s1)
    else some (.ok s)

/-- Go `ProcessHistoricalBlocks`. -/
def ProcessHistoricalBlocks (env : Env) (fuel : Nat) (fromBlock toBlock : Int) (s : State) :
    Option (Outcome State) :=
  if s.Options.HistoricalOptions.BatchFetchBlocks then
    if s.Options.HistoricalOptions.LoopBackwards then some (.fatal .unimplemented s)
    else processBlocksBatched env toBlock fuel fromBlock s
  else
    if s.Options.HistoricalOptions.LoopBackwards then
      processBlocksBackwards env toBlock fuel fromBlock s
    else processBlocksForwards env toBlock fuel fromBlock s

/-! ## Admission counter (`actions/init.go`) -/

/-- The value held by a two's-complement integer of `bits` bits after `x` is stored in it. -/
def wrapSigned (bits : Nat) (x : Int) : Int :=
  (x + 2 ^ (bits - 1)) % 2 ^ bits - 2 ^ (bits - 1)

/-- Go `actions.WaitGroupCount`: `count` is its `int64` field, `waitGroup` the counter of
the embedded `sync.WaitGroup` (an `int32`, the high half of the state word of the group):
the work the group still waits for. -/
structure WaitGroupCount where
  count : Int
  waitGroup : Int
deriving DecidableEq, Repr

/-- Go `sync.WaitGroup.Add` on the embedded group: the delta is added to the 32-bit counter
and a counter that is negative afterwards is a panic ("sync: negative WaitGroup
counter"). -/
def waitGroupAdd (delta : Int) (wg : WaitGroupCount) : Outcome WaitGroupCount :=
  let v := wrapSigned 32 (wg.waitGroup + delta)
  if v < 0 then .fatal .negativeWaitGroupCounter { wg with waitGroup := v }
  else .ok { wg with waitGroup := v }

/-- Go `(*WaitGroupCount).Add`: `atomic.AddInt64(&wg.count, int64(delta))`, then
`wg.WaitGroup.Add(delta)`. -/
def WaitGroupCount.Add (delta : Int) (wg : WaitGroupCount) : Outcome WaitGroupCount :=
  waitGroupAdd delta { wg with count := wrapSigned 64 (wg.count + delta) }

/-- Go `(*WaitGroupCount).Done`: `atomic.AddInt64(&wg.count, -1)`, then
`wg.WaitGroup.Done()`, which is `Add(-1)` on the group. -/
def WaitGroupCount.Done (wg : WaitGroupCount) : Outcome WaitGroupCount :=
  waitGroupAdd (-1) { wg with count := wrapSigned 64 (wg.count + -1) }

/-- Go `(*WaitGroupCount).GetCount`. -/
def WaitGroupCount.GetCount (wg : WaitGroupCount) : Int :=
  wg.count

/-- A call on a `WaitGroupCount`. -/
inductive WaitGroupCall where
  | add (delta : Int)
  | done
deriving DecidableEq, Repr

/-- Run one call. -/
def WaitGroupCall.run : WaitGroupCall → WaitGroupCount → Outcome WaitGroupCount
  | .add delta, wg => wg.Add delta
  | .done, wg => wg.Done

/-- Run a sequence of calls, one after the other. -/
def runWaitGroupCalls : List WaitGroupCall → WaitGroupCount → Outcome WaitGroupCount
  | [], wg => .ok wg
  | call :: calls, wg => (call.run wg).andThen (runWaitGroupCalls calls)

/-- The sum of the deltas passed to `Add` in a sequence of calls. -/
def sumOfDeltas : List WaitGroupCall → Int
  | [] => 0
  | .add delta :: calls => delta + sumOfDeltas calls
  | .done :: calls => sumOfDeltas calls

/-- The number of `Done` calls in a sequence of calls. -/
def doneCalls : List WaitGroupCall → Int
  | [] => 0
  | .add _ :: calls => doneCalls calls
  | .done :: calls => 1 + doneCalls calls

/-! ## Header cache (`shared/helpers.go`) -/

/-- A non-nil `*big.Int`: the address of the object and the number it holds. -/
structure BigIntPtr where
  pointer : Nat
  value : Int
deriving DecidableEq, Repr

/-- Go `shared.GetBlockHeader`: the header and the state after the call.  The cache is
read and written at the key `blockNum`, a pointer; the request carries the number. -/
def GetBlockHeader (env : Env) (blockNum : BigIntPtr) (s : State) :
    Option Header × Outcome State :=
  match s.CachedBlocks.get? blockNum.pointer with
  | some v => (some v, .ok s)
  | none =>
    let s1 : State :=
      { s with trace := s.trace ++ [Effect.rpcHeaderByNumber (some blockNum.value)] }
    match env.HeaderByNumber (some blockNum.value) with
    | none => (none, .fatal .headerFetchError s1)
    | some block =>
      (some block, .ok { s1 with CachedBlocks := s1.CachedBlocks.set blockNum.pointer block })

/-- The header requests in a trace. -/
def headerFetches (s : State) : List (Option Int) :=
  s.trace.filterMap (fun e => match e with
    | .rpcHeaderByNumber number => some number
    | _ => none)

/-! ## Number formatting (`utils/formatting.go`) -/

/-- Go `(*big.Int).String`: the decimal text of the number, `"<nil>"` for a nil pointer. -/
def bigIntString : Option Int → List Char
  | none => "<nil>".toList
  | some (Int.ofNat n) => Nat.toDigits 10 n
  | some (Int.negSucc n) => '-' :: Nat.toDigits 10 (n + 1)

/-- Go `strings.TrimRight(s, "0")`. -/
def trimRightZeros (s : List Char) : List Char :=
  (s.reverse.dropWhile (fun c => c == '0')).reverse

/-- Go `utils.FormatDecimals`; `decimals` is a `uint8`.  Strings are lists of bytes, so
`str[:pos]` is `take` and `str[pos:]` is `drop`. -/
def FormatDecimals (n : Option Int) (decimals : Nat) : String :=
  let str := bigIntString n
  if decimals = 0 ∨ n = none ∨ n = some 0 then String.mk str
  else
    let decs := decimals
    let l := str.length
    if l > decs then
      let pos := l - decs
      if decs > 2 then String.mk (str.take pos ++ ".".toList ++ (str.drop pos).take 2)
      else String.mk (str.take pos ++ ".".toList ++ str.drop pos)
    else
      String.mk (trimRightZeros ("0.".toList ++ List.replicate (decs - l) '0' ++ str))

/-- The `width` low decimal digits of `n`, most significant first, leading zeros
included. -/
def fixedDigits : Nat → Nat → List Char
  | 0, _ => []
  | width + 1, n => fixedDigits width (n / 10) ++ [Nat.digitChar (n % 10)]

/-- The decimal text of `n / 10 ^ decimals` cut after `places` decimal places, without
rounding: the integer part, a point, and the `places` low digits of
`n * 10 ^ places / 10 ^ decimals`. -/
def truncatedDecimal (n decimals places : Nat) : List Char :=
  Nat.toDigits 10 (n / 10 ^ decimals) ++ ".".toList ++
    fixedDigits places (n * 10 ^ places / 10 ^ decimals)

/-! ## Trace projections -/

/-- The logs handed to `doEventPostProcessing`, in order. -/
def dispatched (s : State) : List Log :=
  s.trace.filterMap (fun e => match e with
    | .postProcessEvent vLog => some vLog
    | _ => none)

/-- The state carried by an outcome. -/
def Outcome.state {σ : Type} : Outcome σ → σ
  | .ok s => s
  | .fatal _ s => s

/-! ## Registry invariants -/

/-- No two entries of a handler list have the same identity. -/
def UniqueHandlers (funcs : List ActionFunc) : Prop :=
  (funcs.map ActionFunc.Pointer).Nodup

/-- Every handler list stored in a table is free of repeated identities. -/
def TableUnique {κ : Type} (m : GoMap κ (List ActionFunc)) : Prop :=
  ∀ p ∈ m, UniqueHandlers p.2

/-- Every handler list stored in a two-level table is free of repeated identities. -/
def NestedUnique {κ ι : Type} (m : GoMap κ (GoMap ι (List ActionFunc))) : Prop :=
  ∀ q ∈ m, TableUnique q.2

/-- Every handler list of every key of the five tables is free of repeated identities. -/
def HandlersUnique (s : State) : Prop :=
  TableUnique s.EventSigToAction ∧
  NestedUnique s.ContractToEventSigToAction ∧
  TableUnique s.ContractToEventAction ∧
  TableUnique s.TxAddressToAction ∧
  UniqueHandlers s.BlockActions

/-- The five handler tables are empty. -/
def RegistryEmpty (s : State) : Prop :=
  s.EventSigToAction = [] ∧ s.ContractToEventSigToAction = [] ∧
  s.ContractToEventAction = [] ∧ s.TxAddressToAction = [] ∧ s.BlockActions = []

/-- The handler launches of one `doEventPostProcessing` call: the entries of the three
event tables that match the log, in the order the function visits them. -/
def eventSpawns (env : Env) (vLog : Log) (s : State) : List Effect :=
  match vLog.Topics with
  | [] => []
  | eventSigHash :: _ =>
    spawnEvents (s.EventSigToAction.get? eventSigHash) (actionEventDataOf env s vLog)
      ++ spawnEvents
          (((s.ContractToEventSigToAction.get? vLog.Address).getD []).get? eventSigHash)
          (actionEventDataOf env s vLog)
      ++ spawnEvents (s.ContractToEventAction.get? vLog.Address) (actionEventDataOf env s vLog)

/-- Whether a subscription message is a log marked `removed`. -/
def LogsMsg.isRemovedLog : LogsMsg → Bool
  | .log vLog => vLog.Removed
  | .err => false

/-- The state with its three dispatch-time parts blanked: what is left are the tables, the
options and the driver variables. -/
def State.settings (s : State) : State :=
  { s with trace := [], AlreadyProcessed := [], DupeDetected := false }

/-- The effects of dispatching one log: the call of `doEventPostProcessing` and the handler
launches it makes. -/
def Effect.isEventEffect : Effect → Bool
  | .postProcessEvent _ => true
  | .spawnEvent _ _ => true
  | _ => false

/-- The effects of `handleBlock` after its call and before its final wait: handler launches
and the log query of the block. -/
def Effect.isBlockEffect : Effect → Bool
  | .postProcessEvent _ => true
  | .spawnEvent _ _ => true
  | .spawnTx _ _ => true
  | .spawnBlock _ _ => true
  | .rpcFilterLogs _ => true
  | _ => false

/-- The effects of the historical event loop between two queries: dispatches and the
throttle. -/
def Effect.isLogLoopEffect : Effect → Bool
  | .postProcessEvent _ => true
  | .spawnEvent _ _ => true
  | .sleepSecond => true
  | .rpcWaitGroupWait => true
  | _ => false

/-- The log queries. -/
def Effect.isFilterLogs : Effect → Bool
  | .rpcFilterLogs _ => true
  | _ => false

/-- The steps of block processing: a fetch by number, the call of `handleBlock`, the return
of its final wait. -/
def Effect.isBlockStep : Effect → Bool
  | .rpcBlockByNumber _ => true
  | .handleBlock _ => true
  | .blockWaitGroupWait => true
  | _ => false

/-- The calls of `handleBlock`. -/
def Effect.isHandleBlock : Effect → Bool
  | .handleBlock _ => true
  | _ => false

/-- The handler launches. -/
def Effect.isSpawn : Effect → Bool
  | .spawnEvent _ _ => true
  | .spawnTx _ _ => true
  | .spawnBlock _ _ => true
  | _ => false

/-- `Adds P s s1`: `s1` is `s` with effects that satisfy `P` appended; the tables, options
and driver variables are those of `s`. -/
def Adds (P : Effect → Bool) (s s1 : State) : Prop :=
  s1.settings = s.settings ∧ ∃ t, s1.trace = s.trace ++ t ∧ ∀ e ∈ t, P e = true

/-- The provider answers every log query and the sender of every transaction resolves. -/
def ProviderAnswers (env : Env) : Prop :=
  (∀ query, ∃ logs, env.FilterLogs query = some logs) ∧
    (∀ tx, ∃ sender, env.GetTxSender tx = some sender)

/-- The `n` block numbers `currentBlock, currentBlock - 1, ...`. -/
def downFrom (currentBlock : Int) : Nat → List Int
  | 0 => []
  | n + 1 => currentBlock :: downFrom (currentBlock - 1) n

/-- The `n` block numbers `currentBlock, currentBlock + 1, ...`. -/
def upFrom (currentBlock : Int) : Nat → List Int
  | 0 => []
  | n + 1 => currentBlock :: upFrom (currentBlock + 1) n

/-- The block steps of processing one block number after the other: for each number the
fetch, the call of `handleBlock` on the fetched block and the return of its final wait. -/
def blockSteps (env : Env) (numbers : List Int) : List Effect :=
  numbers.flatMap (fun number =>
    match env.BlockByNumber number with
    | some block =>
      [Effect.rpcBlockByNumber number, Effect.handleBlock block, Effect.blockWaitGroupWait]
    | none => [Effect.rpcBlockByNumber number])

/-- The `n` consecutive ranges of width `stepBlocks` from `currentBlock` on, each cut at
`toBlock`. -/
def rangesFrom (currentBlock stepBlocks toBlock : Int) : Nat → List (Int × Int)
  | 0 => []
  | n + 1 =>
    (currentBlock, min (currentBlock + stepBlocks - 1) toBlock) ::
      rangesFrom (currentBlock + stepBlocks) stepBlocks toBlock n

/-- The ranges `[fromBlock + k*step, min(fromBlock + (k+1)*step - 1, toBlock)]` for
`k = 0, 1, ...` up to the last one that starts at or below `toBlock`. -/
def stepRanges (fromBlock toBlock stepBlocks : Int) : List (Int × Int) :=
  (List.range ((toBlock - fromBlock) / stepBlocks + 1).toNat).map (fun (k : Nat) =>
    (fromBlock + (k : Int) * stepBlocks,
      min (fromBlock + ((k : Int) + 1) * stepBlocks - 1) toBlock))

/-- The log query for a range, with the address filter of the state. -/
def rangeQuery (s : State) (eventTopics : List (List Hash)) (range : Int × Int) : Effect :=
  Effect.rpcFilterLogs
    { Addresses := s.Options.FilterAddresses, Topics := eventTopics,
      FromBlock := some range.1, ToBlock := some range.2 }

/-- The blocks of a sequence of polls whose number was not seen before: `seen` holds the
numbers seen so far. -/
def unseenBlocks : List Nat → List Block → List Block
  | _, [] => []
  | seen, block :: blocks =>
    if block.Number ∈ seen then unseenBlocks seen blocks
    else block :: unseenBlocks (block.Number :: seen) blocks

/-! ## What a sequence of registrations names -/

/-- The loop `for each x: if x is not in the list, append it`. -/
def addAllAbsent {α : Type} [DecidableEq α] (xs : List α) (l : List α) : List α :=
  xs.foldl (fun acc x => if x ∈ acc then acc else acc ++ [x]) l

/-- The contract address a call offers to `FilterAddresses`. -/
def RegCall.filterAddresses : RegCall → List Address
  | .addressEventSig contractAddress _ _ => [contractAddress]
  | _ => []

/-- The topic a call offers to `FilterEventTopics[0]`. -/
def RegCall.filterTopics (env : Env) : RegCall → List Hash
  | .eventSig sig _ => [env.Keccak256Hash sig]
  | .addressEventSig _ sig _ => [env.Keccak256Hash sig]
  | _ => []

/-- A small environment: the hash of a signature is its length, every log query is
answered with no logs and no block can be fetched. -/
def exampleEnv : Env :=
  { Keccak256Hash := fun sig => sig.length
    DecodeTopicsAndData := fun _ _ _ => ([], [], [])
    GetTxSender := fun tx => some tx.Hash
    FilterLogs := fun _ => some []
    BlockByHash := fun _ => none
    BlockByNumber := fun _ => none
    GetL2BlockByHexNumber := fun _ => .error }

/-- A state before setup: schemas for the hashes 3 and 4 are known, the registry, the
filter and the ledger are empty. -/
def exampleState : State :=
  { EventSigs := [(3, 0), (4, 0)], EventSigToAction := [], ContractToEventSigToAction := [],
    ContractToEventAction := [], TxAddressToAction := [], BlockActions := [],
    Options := { FilterAddresses := [], FilterEventTopics := [], IsL2Chain := false },
    SwitchingToRealtime := true, AlreadyProcessed := [], DupeDetected := false, trace := [] }

/-- A handler. -/
def exampleHandler : ActionFunc := { Pointer := 1, closure := 0 }

/-- A log of contract 7 with topic 3, emitted by transaction `txHash` at index `index`. -/
def exampleLog (txHash : Hash) (index : Nat) : Log :=
  { Address := 7, Topics := [3], Data := [], BlockNumber := 1, TxHash := txHash,
    Index := index, Removed := false }

/-- A header with number 5 and hash 50. -/
def exampleHeader : Header := { Number := 5, Hash := 50 }

/-- The example state after `HandleHeader` recorded `exampleHeader`. -/
def exampleStateSeenHeader : State :=
  { exampleState with AlreadyProcessed := [(50, headerRecord exampleHeader)] }

/-- A second handler, with another code pointer. -/
def exampleHandler2 : ActionFunc := { Pointer := 2, closure := 0 }

/-- The example state with a transaction handler for address 1 and another for address 2. -/
def exampleTxState : State :=
  { exampleState with TxAddressToAction := [(1, [exampleHandler]), (2, [exampleHandler2])] }

/-- A transaction sent by address 1 (the example environment resolves the sender of a
transaction to its `Hash` field) to address 2. -/
def exampleTx : Transaction := { Hash := 1, To := some 2, Data := [] }

/-- A block holding the example transaction. -/
def exampleBlock : Block := { Number := 5, Hash := 50, Transactions := [exampleTx] }

/-- The example state with batched fetching and backward iteration both requested. -/
def exampleBatchedBackwards : State :=
  { exampleState with
    Options := { exampleState.Options with
      HistoricalOptions := { LoopBackwards := true, BatchFetchBlocks := true } } }

/-- An empty block with the given number. -/
def exampleEmptyBlock (number : Nat) : Block :=
  { Number := number, Hash := number + 1000, Transactions := [] }

/-- The example environment with a provider that returns the empty block of each number. -/
def exampleBlockEnv : Env :=
  { exampleEnv with BlockByNumber := fun number => some (exampleEmptyBlock number.toNat) }

/-- The example state in historical mode (no handoff to realtime), sequential, backwards. -/
def exampleBackwards : State :=
  { exampleState with
    SwitchingToRealtime := false
    Options := { exampleState.Options with HistoricalOptions := { LoopBackwards := true } } }

/-- The example state in historical mode, sequential, forwards, with a step of 100 blocks. -/
def exampleForwards : State :=
  { exampleState with SwitchingToRealtime := false, stepBlocks := 100 }

/-- The example state in historical mode with batched fetching. -/
def exampleBatched : State :=
  { exampleState with
    SwitchingToRealtime := false
    Options := { exampleState.Options with HistoricalOptions := { BatchFetchBlocks := true } } }

/-- The example environment with a provider that answers each log query with the one log
`exampleLog 1 0` and an admission counter that stands at 30 at every reading. -/
def exampleBusyEnv : Env :=
  { exampleEnv with
    FilterLogs := fun _ => some [exampleLog 1 0]
    RpcWaitGroupGetCount := fun _ => 30 }

/-- Three registrations: contract 7 with two events, contract 8 with one of them. -/
def exampleCalls : List RegCall :=
  [.addressEventSig 7 "abc" exampleHandler, .addressEventSig 7 "abcd" exampleHandler,
   .addressEventSig 8 "abc" exampleHandler]

/-- The example state in block mode: a block handler, one handler for every event of
contract 7, and no other handler. -/
def exampleAnyEventState : State :=
  { exampleState with
    SwitchingToRealtime := false
    BlockActions := [exampleHandler2]
    ContractToEventAction := [(7, [exampleHandler])] }

/-- The example environment with a provider that answers each log query with the one log
`exampleLog 1 0`. -/
def exampleLogEnv : Env :=
  { exampleEnv with FilterLogs := fun _ => some [exampleLog 1 0] }

/-- A log of contract 7 without topics (an anonymous event with no indexed field). -/
def exampleBareLog : Log :=
  { Address := 7, Topics := [], Data := [1], BlockNumber := 1, TxHash := 1, Index := 0,
    Removed := false }

/-- A second header, with number 6 and hash 60. -/
def exampleHeader2 : Header := { Number := 6, Hash := 60 }

/-- The state in which `HandleHeader` goes on to fetch the block of a header it admits:
in handoff mode the header is recorded first. -/
def admitHeader (header : Header) (s : State) : State :=
  if s.SwitchingToRealtime then
    { s with AlreadyProcessed := s.AlreadyProcessed.set header.Hash (headerRecord header) }
  else s

/-- `TraceGrows s s1`: `s1` is `s` with effects appended to the trace and nothing else
changed. -/
def TraceGrows (s s1 : State) : Prop :=
  ∃ t, s1 = { s with trace := s.trace ++ t }

/-- The example state before `SetupHistorical`, with the range 100 to 250 and a step of 0
in its options. -/
def exampleZeroStepOptions : State :=
  { exampleForwards with
    Options := { exampleState.Options with
      HistoricalOptions :=
        { FromBlock := some 100, ToBlock := some 250, StepBlocks := some 0 } } }

/-- The state `SetupHistorical` makes of `exampleZeroStepOptions`: the step is 0. -/
def exampleZeroStep : State :=
  { exampleZeroStepOptions with stepBlocks := 0 }

/-- The example environment with a provider that answers the request for the header of a
number with a header of that number. -/
def exampleHeaderEnv : Env :=
  { exampleEnv with
    HeaderByNumber := fun number =>
      some { Number := (number.getD 0).toNat, Hash := (number.getD 0).toNat + 1000 } }

/-- The example environment with a data file none of whose entries has the shape the
decoder asserts. -/
def exampleMalformedEnv : Env :=
  { exampleEnv with SchemaWellFormed := fun _ => false }

/-- A transaction sent by address 3, which has no handler, to address 2. -/
def exampleTx2 : Transaction := { Hash := 3, To := some 2, Data := [] }

/-- A transaction sent by address 4 that deploys a contract (no recipient). -/
def exampleTx3 : Transaction := { Hash := 4, To := none, Data := [] }

/-- A block holding the three example transactions. -/
def exampleBlock3 : Block :=
  { Number := 6, Hash := 60, Transactions := [exampleTx, exampleTx2, exampleTx3] }

/-- The handlers the table holds for a transaction: those of the sender when the sender has
an entry; otherwise those of the recipient, when there is one; otherwise none. -/
def txHandlers (table : GoMap Address (List ActionFunc)) (sender : Address)
    (recipient : Option Address) : List ActionFunc :=
  match table.get? sender with
  | some functions => functions
  | none =>
    match recipient with
    | some address => (table.get? address).getD []
    | none => []

/-- The launches of the handlers of a transaction, each with the envelope of that
transaction. -/
def txLaunches (table : GoMap Address (List ActionFunc)) (block : Block) (tx : Transaction)
    (sender : Address) : List Effect :=
  (txHandlers table sender tx.To).map (fun f =>
    Effect.spawnTx f { Transaction := tx, From := sender, To := tx.To, Block := block })

/-! ## Basic facts about maps and handler lists -/

theorem GoMap.get?_set_self {κ ν : Type} [DecidableEq κ] (m : GoMap κ ν) (k : κ) (v : ν) :
    (m.set k v).get? k = some v := by
  induction m with
  | nil => simp [GoMap.set, GoMap.get?]
  | cons p rest ih =>
    obtain ⟨k1, v1⟩ := p
    by_cases h : k1 = k
    · simp [GoMap.set, GoMap.get?, h]
    · simp [GoMap.set, GoMap.get?, h, ih]

theorem GoMap.get?_set_of_ne {κ ν : Type} [DecidableEq κ] (m : GoMap κ ν) (k j : κ) (v : ν)
    (hne : k ≠ j) : (m.set k v).get? j = m.get? j := by
  induction m with
  | nil => simp [GoMap.set, GoMap.get?, hne]
  | cons p rest ih =>
    obtain ⟨k1, v1⟩ := p
    by_cases h : k1 = k
    · subst h
      simp [GoMap.set, GoMap.get?, hne]
    · by_cases hj : k1 = j
      · subst hj
        simp [GoMap.set, GoMap.get?, h]
      · simp [GoMap.set, GoMap.get?, h, hj, ih]

theorem GoMap.mem_of_get? {κ ν : Type} [DecidableEq κ] (m : GoMap κ ν) (k : κ) (v : ν)
    (hget : m.get? k = some v) : (k, v) ∈ m := by
  induction m with
  | nil => simp [GoMap.get?] at hget
  | cons p rest ih =>
    obtain ⟨k1, v1⟩ := p
    by_cases h : k1 = k
    · simp [GoMap.get?, h] at hget
      simp [h, hget]
    · simp [GoMap.get?, h] at hget
      simp [ih hget]

theorem GoMap.mem_set {κ ν : Type} [DecidableEq κ] (m : GoMap κ ν) (k : κ) (v : ν)
    (p : κ × ν) (hp : p ∈ m.set k v) : p ∈ m ∨ p = (k, v) := by
  induction m with
  | nil => simpa [GoMap.set] using hp
  | cons q rest ih =>
    obtain ⟨k1, v1⟩ := q
    by_cases h : k1 = k
    · simp [GoMap.set, h] at hp
      rcases hp with hp | hp
      · exact Or.inr hp
      · exact Or.inl (List.mem_cons_of_mem _ hp)
    · simp [GoMap.set, h] at hp
      rcases hp with hp | hp
      · exact Or.inl (by simp [hp])
      · rcases ih hp with h1 | h1
        · exact Or.inl (List.mem_cons_of_mem _ h1)
        · exact Or.inr h1

theorem containsActionEventFunc_iff (funcs : List ActionFunc) (target : ActionFunc) :
    containsActionEventFunc funcs target = true ↔
      target.Pointer ∈ funcs.map ActionFunc.Pointer := by
  induction funcs with
  | nil => simp [containsActionEventFunc]
  | cons f rest ih =>
    by_cases h : f.Pointer = target.Pointer
    · simp [containsActionEventFunc, h]
    · have h2 : ¬ target.Pointer = f.Pointer := fun e => h e.symm
      simp [containsActionEventFunc, h, h2, ih]

theorem containsActionTxFunc_eq (funcs : List ActionFunc) (target : ActionFunc) :
    containsActionTxFunc funcs target = containsActionEventFunc funcs target := by
  induction funcs with
  | nil => rfl
  | cons f rest ih => simp [containsActionTxFunc, containsActionEventFunc, ih]

theorem containsActionBlockFunc_eq (funcs : List ActionFunc) (target : ActionFunc) :
    containsActionBlockFunc funcs target = containsActionEventFunc funcs target := by
  induction funcs with
  | nil => rfl
  | cons f rest ih => simp [containsActionBlockFunc, containsActionEventFunc, ih]

theorem containsActionEventFunc_append_self (funcs : List ActionFunc) (f : ActionFunc) :
    containsActionEventFunc (funcs ++ [f]) f = true := by
  rw [containsActionEventFunc_iff]
  simp

theorem UniqueHandlers_append (funcs : List ActionFunc) (f : ActionFunc)
    (hu : UniqueHandlers funcs) (hf : containsActionEventFunc funcs f = false) :
    UniqueHandlers (funcs ++ [f]) := by
  have hnot : ¬ f.Pointer ∈ funcs.map ActionFunc.Pointer := by
    rw [← containsActionEventFunc_iff]
    simp [hf]
  unfold UniqueHandlers at *
  rw [List.map_append, List.nodup_append]
  refine ⟨hu, by simp, ?_⟩
  intro a ha hb
  simp at hb
  exact hnot (hb ▸ ha)

/-! ## Facts about the filter -/

theorem addFilterTopic_of_mem (sighash : Hash) (o : TrackooorOptions)
    (hmem : sighash ∈ topicSlot0 o) : addFilterTopic sighash o = o := by
  obtain ⟨fa, ft, l2, mrps, ho⟩ := o
  cases ft with
  | nil => simp [topicSlot0] at hmem
  | cons slot rest => simp_all [addFilterTopic, topicSlot0]

theorem topicSlot0_addFilterTopic (sighash : Hash) (o : TrackooorOptions) :
    topicSlot0 (addFilterTopic sighash o) =
      if sighash ∈ topicSlot0 o then topicSlot0 o else topicSlot0 o ++ [sighash] := by
  obtain ⟨fa, ft, l2, mrps, ho⟩ := o
  cases ft with
  | nil => simp [addFilterTopic, topicSlot0, appendTopicSlot0]
  | cons slot rest =>
    by_cases h : sighash ∈ slot
    · simp [addFilterTopic, topicSlot0, h]
    · simp [addFilterTopic, topicSlot0, appendTopicSlot0, h]

theorem mem_topicSlot0_addFilterTopic (sighash : Hash) (o : TrackooorOptions) :
    sighash ∈ topicSlot0 (addFilterTopic sighash o) := by
  rw [topicSlot0_addFilterTopic]
  by_cases h : sighash ∈ topicSlot0 o
  · simp [h]
  · simp [h]

theorem addFilterTopic_FilterAddresses (sighash : Hash) (o : TrackooorOptions) :
    (addFilterTopic sighash o).FilterAddresses = o.FilterAddresses := by
  unfold addFilterTopic
  dsimp only
  split_ifs <;> rfl

theorem addFilterTopic_idem (sighash : Hash) (o : TrackooorOptions) :
    addFilterTopic sighash (addFilterTopic sighash o) = addFilterTopic sighash o :=
  addFilterTopic_of_mem sighash _ (mem_topicSlot0_addFilterTopic sighash o)

theorem addFilterAddress_of_mem (contractAddress : Address) (o : TrackooorOptions)
    (hmem : contractAddress ∈ o.FilterAddresses) : addFilterAddress contractAddress o = o := by
  simp [addFilterAddress, hmem]

theorem FilterAddresses_addFilterAddress (contractAddress : Address) (o : TrackooorOptions) :
    (addFilterAddress contractAddress o).FilterAddresses =
      if contractAddress ∈ o.FilterAddresses then o.FilterAddresses
      else o.FilterAddresses ++ [contractAddress] := by
  unfold addFilterAddress
  split_ifs <;> rfl

theorem topicSlot0_addFilterAddress (contractAddress : Address) (o : TrackooorOptions) :
    topicSlot0 (addFilterAddress contractAddress o) = topicSlot0 o := by
  unfold addFilterAddress
  split_ifs <;> rfl

theorem mem_FilterAddresses_addFilterAddress (contractAddress : Address)
    (o : TrackooorOptions) :
    contractAddress ∈ (addFilterAddress contractAddress o).FilterAddresses := by
  rw [FilterAddresses_addFilterAddress]
  by_cases h : contractAddress ∈ o.FilterAddresses
  · simp [h]
  · simp [h]

theorem addFilter_idem (contractAddress : Address) (sighash : Hash) (o : TrackooorOptions) :
    addFilterTopic sighash
        (addFilterAddress contractAddress
          (addFilterTopic sighash (addFilterAddress contractAddress o))) =
      addFilterTopic sighash (addFilterAddress contractAddress o) := by
  have hmem : contractAddress ∈
      (addFilterTopic sighash (addFilterAddress contractAddress o)).FilterAddresses := by
    rw [addFilterTopic_FilterAddresses]
    exact mem_FilterAddresses_addFilterAddress contractAddress o
  rw [addFilterAddress_of_mem _ _ hmem, addFilterTopic_idem]

/-! ## Registering twice -/

theorem addEventSigAction_twice (env : Env) (sig : String) (f : ActionFunc) (s : State) :
    (addEventSigAction env sig f s).andThen (addEventSigAction env sig f) =
      addEventSigAction env sig f s := by
  unfold addEventSigAction
  cases hsig : s.EventSigs.get? (env.Keccak256Hash sig) with
  | none => simp [Outcome.andThen, hsig]
  | some abi =>
    by_cases hc : containsActionEventFunc
        ((s.EventSigToAction.get? (env.Keccak256Hash sig)).getD []) f = true
    · simp [Outcome.andThen, hsig, hc, addFilterTopic_idem]
    · simp [Outcome.andThen, hsig, hc, addFilterTopic_idem, GoMap.get?_set_self,
        containsActionEventFunc_append_self]

theorem addAddressEventSigAction_twice (env : Env) (contractAddress : Address) (sig : String)
    (f : ActionFunc) (s : State) :
    (addAddressEventSigAction env contractAddress sig f s).andThen
        (addAddressEventSigAction env contractAddress sig f) =
      addAddressEventSigAction env contractAddress sig f s := by
  unfold addAddressEventSigAction
  cases hsig : s.EventSigs.get? (env.Keccak256Hash sig) with
  | none => simp [Outcome.andThen, hsig]
  | some abi =>
    cases houter : s.ContractToEventSigToAction.get? contractAddress with
    | none =>
      simp [Outcome.andThen, hsig, houter, addFilter_idem, GoMap.get?_set_self,
        containsActionEventFunc_append_self, GoMap.get?, containsActionEventFunc]
    | some inner =>
      by_cases hc : containsActionEventFunc
          ((inner.get? (env.Keccak256Hash sig)).getD []) f = true
      · simp [Outcome.andThen, hsig, houter, hc, addFilter_idem]
      · simp [Outcome.andThen, hsig, houter, hc, addFilter_idem, GoMap.get?_set_self,
          containsActionEventFunc_append_self]

theorem addAddressEventAction_twice (contractAddress : Address) (f : ActionFunc) (s : State) :
    addAddressEventAction contractAddress f (addAddressEventAction contractAddress f s) =
      addAddressEventAction contractAddress f s := by
  unfold addAddressEventAction
  by_cases hc : containsActionEventFunc
      ((s.ContractToEventAction.get? contractAddress).getD []) f = true
  · simp [hc]
  · simp [hc, GoMap.get?_set_self, containsActionEventFunc_append_self]

theorem addTxAddressAction_twice (address : Address) (f : ActionFunc) (s : State) :
    addTxAddressAction address f (addTxAddressAction address f s) =
      addTxAddressAction address f s := by
  unfold addTxAddressAction
  by_cases hc : containsActionEventFunc
      ((s.TxAddressToAction.get? address).getD []) f = true
  · simp [hc, containsActionTxFunc_eq]
  · simp [hc, containsActionTxFunc_eq, GoMap.get?_set_self,
      containsActionEventFunc_append_self]

theorem addBlockAction_twice (f : ActionFunc) (s : State) :
    addBlockAction f (addBlockAction f s) = addBlockAction f s := by
  unfold addBlockAction
  by_cases hc : containsActionEventFunc s.BlockActions f = true
  · simp [hc, containsActionBlockFunc_eq]
  · simp [hc, containsActionBlockFunc_eq, containsActionEventFunc_append_self]

/-! ## Handler lists stay free of repeats -/

theorem UniqueHandlers_getD {κ : Type} [DecidableEq κ] (m : GoMap κ (List ActionFunc)) (k : κ)
    (hm : TableUnique m) : UniqueHandlers ((m.get? k).getD []) := by
  cases hget : m.get? k with
  | none => simp [UniqueHandlers]
  | some funcs => exact hm _ (GoMap.mem_of_get? m k funcs hget)

theorem TableUnique_set {κ : Type} [DecidableEq κ] (m : GoMap κ (List ActionFunc)) (k : κ)
    (funcs : List ActionFunc) (hm : TableUnique m) (hf : UniqueHandlers funcs) :
    TableUnique (m.set k funcs) := by
  intro p hp
  rcases GoMap.mem_set m k funcs p hp with h | h
  · exact hm p h
  · rw [h]
    exact hf

theorem TableUnique_register {κ : Type} [DecidableEq κ] (m : GoMap κ (List ActionFunc)) (k : κ)
    (f : ActionFunc) (hm : TableUnique m) :
    TableUnique
      (if containsActionEventFunc ((m.get? k).getD []) f = true then m
       else m.set k ((m.get? k).getD [] ++ [f])) := by
  by_cases hc : containsActionEventFunc ((m.get? k).getD []) f = true
  · simpa [hc] using hm
  · simp only [hc, if_false]
    refine TableUnique_set m k _ hm (UniqueHandlers_append _ f (UniqueHandlers_getD m k hm) ?_)
    simpa using hc

theorem HandlersUnique_addEventSigAction (env : Env) (sig : String) (f : ActionFunc)
    (s : State) (hs : HandlersUnique s) :
    HandlersUnique (addEventSigAction env sig f s).state := by
  obtain ⟨h1, h2, h3, h4, h5⟩ := hs
  have key := TableUnique_register s.EventSigToAction (env.Keccak256Hash sig) f h1
  unfold addEventSigAction
  cases hsig : s.EventSigs.get? (env.Keccak256Hash sig) with
  | none =>
    have hs : HandlersUnique s := ⟨h1, h2, h3, h4, h5⟩
    simpa [Outcome.state, hsig] using hs
  | some abi =>
    by_cases hc : containsActionEventFunc
        ((s.EventSigToAction.get? (env.Keccak256Hash sig)).getD []) f = true
    · simpa [Outcome.state, HandlersUnique, hsig, hc] using ⟨h1, h2, h3, h4, h5⟩
    · simp only [hc, if_false] at key
      simpa [Outcome.state, HandlersUnique, hsig, hc] using ⟨key, h2, h3, h4, h5⟩

theorem HandlersUnique_addAddressEventSigAction (env : Env) (contractAddress : Address)
    (sig : String) (f : ActionFunc) (s : State) (hs : HandlersUnique s) :
    HandlersUnique (addAddressEventSigAction env contractAddress sig f s).state := by
  obtain ⟨h1, h2, h3, h4, h5⟩ := hs
  unfold addAddressEventSigAction
  cases hsig : s.EventSigs.get? (env.Keccak256Hash sig) with
  | none =>
    have hs : HandlersUnique s := ⟨h1, h2, h3, h4, h5⟩
    simpa [Outcome.state, hsig] using hs
  | some abi =>
    cases houter : s.ContractToEventSigToAction.get? contractAddress with
    | none =>
      have hempty : NestedUnique (s.ContractToEventSigToAction.set contractAddress []) := by
        intro q hq
        rcases GoMap.mem_set _ _ _ q hq with h | h
        · exact h2 q h
        · rw [h]
          intro p hp
          simp at hp
      have hnew2 : NestedUnique ((s.ContractToEventSigToAction.set contractAddress []).set
          contractAddress [(env.Keccak256Hash sig, [f])]) := by
        intro q hq
        rcases GoMap.mem_set _ _ _ q hq with h | h
        · exact hempty q h
        · rw [h]
          intro p hp
          simp at hp
          simp [hp, UniqueHandlers]
      simpa [Outcome.state, HandlersUnique, hsig, houter, GoMap.get?_set_self, GoMap.get?,
        GoMap.set, containsActionEventFunc] using ⟨h1, hnew2, h3, h4, h5⟩
    | some inner =>
      have hinner : TableUnique inner :=
        h2 _ (GoMap.mem_of_get? _ _ _ houter)
      have key := TableUnique_register inner (env.Keccak256Hash sig) f hinner
      by_cases hc : containsActionEventFunc
          ((inner.get? (env.Keccak256Hash sig)).getD []) f = true
      · simpa [Outcome.state, HandlersUnique, hsig, houter, hc] using ⟨h1, h2, h3, h4, h5⟩
      · simp only [hc, if_false] at key
        have hnew : NestedUnique (s.ContractToEventSigToAction.set contractAddress
            (inner.set (env.Keccak256Hash sig)
              ((inner.get? (env.Keccak256Hash sig)).getD [] ++ [f]))) := by
          intro q hq
          rcases GoMap.mem_set _ _ _ q hq with h | h
          · exact h2 q h
          · rw [h]
            exact key
        simpa [Outcome.state, HandlersUnique, hsig, houter, hc] using ⟨h1, hnew, h3, h4, h5⟩

theorem HandlersUnique_addAddressEventAction (contractAddress : Address) (f : ActionFunc)
    (s : State) (hs : HandlersUnique s) :
    HandlersUnique (addAddressEventAction contractAddress f s) := by
  obtain ⟨h1, h2, h3, h4, h5⟩ := hs
  have key := TableUnique_register s.ContractToEventAction contractAddress f h3
  unfold addAddressEventAction
  by_cases hc : containsActionEventFunc
      ((s.ContractToEventAction.get? contractAddress).getD []) f = true
  · simpa [HandlersUnique, hc] using ⟨h1, h2, h3, h4, h5⟩
  · simp only [hc, if_false] at key
    simpa [HandlersUnique, hc] using ⟨h1, h2, key, h4, h5⟩

theorem HandlersUnique_addTxAddressAction (address : Address) (f : ActionFunc)
    (s : State) (hs : HandlersUnique s) :
    HandlersUnique (addTxAddressAction address f s) := by
  obtain ⟨h1, h2, h3, h4, h5⟩ := hs
  have key := TableUnique_register s.TxAddressToAction address f h4
  simp only [addTxAddressAction, containsActionTxFunc_eq]
  by_cases hc : containsActionEventFunc
      ((s.TxAddressToAction.get? address).getD []) f = true
  · simpa [HandlersUnique, hc] using ⟨h1, h2, h3, h4, h5⟩
  · simp only [hc, if_false] at key
    simpa [HandlersUnique, hc] using ⟨h1, h2, h3, key, h5⟩

theorem HandlersUnique_addBlockAction (f : ActionFunc) (s : State) (hs : HandlersUnique s) :
    HandlersUnique (addBlockAction f s) := by
  obtain ⟨h1, h2, h3, h4, h5⟩ := hs
  simp only [addBlockAction, containsActionBlockFunc_eq]
  by_cases hc : containsActionEventFunc s.BlockActions f = true
  · simpa [HandlersUnique, hc] using ⟨h1, h2, h3, h4, h5⟩
  · have key := UniqueHandlers_append s.BlockActions f h5 (by simpa using hc)
    simpa [HandlersUnique, hc] using ⟨h1, h2, h3, h4, key⟩

theorem HandlersUnique_run (env : Env) (c : RegCall) (s : State) (hs : HandlersUnique s) :
    HandlersUnique (c.run env s).state := by
  cases c with
  | eventSig sig f => exact HandlersUnique_addEventSigAction env sig f s hs
  | addressEventSig a sig f => exact HandlersUnique_addAddressEventSigAction env a sig f s hs
  | addressEvent a f => exact HandlersUnique_addAddressEventAction a f s hs
  | txAddress a f => exact HandlersUnique_addTxAddressAction a f s hs
  | block f => exact HandlersUnique_addBlockAction f s hs

theorem HandlersUnique_runCalls (env : Env) (calls : List RegCall) (s : State)
    (hs : HandlersUnique s) : HandlersUnique (runCalls env calls s).state := by
  induction calls generalizing s with
  | nil => exact hs
  | cons c cs ih =>
    have hstep := HandlersUnique_run env c s hs
    unfold runCalls
    cases hrun : c.run env s with
    | ok s1 =>
      rw [hrun] at hstep
      exact ih s1 hstep
    | fatal a s1 =>
      rw [hrun] at hstep
      exact hstep

theorem HandlersUnique_of_RegistryEmpty (s : State) (hs : RegistryEmpty s) :
    HandlersUnique s := by
  obtain ⟨h1, h2, h3, h4, h5⟩ := hs
  simp [HandlersUnique, TableUnique, NestedUnique, UniqueHandlers, h1, h2, h3, h4, h5]

/-! ## The filter only grows -/

theorem addAllAbsent_nil {α : Type} [DecidableEq α] (l : List α) : addAllAbsent [] l = l := rfl

theorem addAllAbsent_cons {α : Type} [DecidableEq α] (x : α) (xs l : List α) :
    addAllAbsent (x :: xs) l = addAllAbsent xs (if x ∈ l then l else l ++ [x]) := rfl

theorem addAllAbsent_nodup {α : Type} [DecidableEq α] (xs l : List α) (hl : l.Nodup) :
    (addAllAbsent xs l).Nodup := by
  induction xs generalizing l with
  | nil => exact hl
  | cons x xs ih =>
    rw [addAllAbsent_cons]
    apply ih
    by_cases h : x ∈ l
    · simpa [h] using hl
    · simp only [h, if_false]
      rw [List.nodup_append]
      refine ⟨hl, by simp, ?_⟩
      intro a ha hb
      simp at hb
      exact h (hb ▸ ha)

theorem addAllAbsent_prefix {α : Type} [DecidableEq α] (xs l : List α) :
    l <+: addAllAbsent xs l := by
  induction xs generalizing l with
  | nil => exact List.prefix_refl l
  | cons x xs ih =>
    rw [addAllAbsent_cons]
    by_cases h : x ∈ l
    · simpa [h] using ih l
    · simp only [h, if_false]
      exact List.IsPrefix.trans (List.prefix_append l [x]) (ih (l ++ [x]))

theorem mem_addAllAbsent {α : Type} [DecidableEq α] (xs l : List α) (a : α) :
    a ∈ addAllAbsent xs l ↔ a ∈ l ∨ a ∈ xs := by
  induction xs generalizing l with
  | nil => simp [addAllAbsent_nil]
  | cons x xs ih =>
    rw [addAllAbsent_cons, ih]
    by_cases h : x ∈ l
    · simp only [h, if_true, List.mem_cons]
      constructor
      · rintro (h1 | h1)
        · exact Or.inl h1
        · exact Or.inr (Or.inr h1)
      · rintro (h1 | h1 | h1)
        · exact Or.inl h1
        · exact Or.inl (h1 ▸ h)
        · exact Or.inr h1
    · simp only [h, if_false, List.mem_append, List.mem_singleton, List.mem_cons]
      tauto

theorem run_FilterAddresses (env : Env) (c : RegCall) (s s1 : State)
    (hrun : c.run env s = .ok s1) :
    s1.Options.FilterAddresses = addAllAbsent c.filterAddresses s.Options.FilterAddresses := by
  cases c with
  | eventSig sig f =>
    simp only [RegCall.run, addEventSigAction] at hrun
    cases hsig : s.EventSigs.get? (env.Keccak256Hash sig) with
    | none => simp [hsig] at hrun
    | some abi =>
      simp only [hsig, Outcome.ok.injEq] at hrun
      subst hrun
      simp only [addFilterTopic_FilterAddresses, RegCall.filterAddresses, addAllAbsent_nil]
      split_ifs <;> rfl
  | addressEventSig a sig f =>
    simp only [RegCall.run, addAddressEventSigAction] at hrun
    cases hsig : s.EventSigs.get? (env.Keccak256Hash sig) with
    | none => simp [hsig] at hrun
    | some abi =>
      simp only [hsig, Outcome.ok.injEq] at hrun
      subst hrun
      simp only [addFilterTopic_FilterAddresses, FilterAddresses_addFilterAddress,
        RegCall.filterAddresses, addAllAbsent_cons, addAllAbsent_nil]
      split_ifs <;> rfl
  | addressEvent a f =>
    simp only [RegCall.run, addAddressEventAction, Outcome.ok.injEq] at hrun
    subst hrun
    simp only [RegCall.filterAddresses, addAllAbsent_nil]
    split_ifs <;> rfl
  | txAddress a f =>
    simp only [RegCall.run, addTxAddressAction, Outcome.ok.injEq] at hrun
    subst hrun
    simp only [RegCall.filterAddresses, addAllAbsent_nil]
    split_ifs <;> rfl
  | block f =>
    simp only [RegCall.run, addBlockAction, Outcome.ok.injEq] at hrun
    subst hrun
    simp only [RegCall.filterAddresses, addAllAbsent_nil]
    split_ifs <;> rfl

theorem run_topicSlot0 (env : Env) (c : RegCall) (s s1 : State)
    (hrun : c.run env s = .ok s1) :
    topicSlot0 s1.Options = addAllAbsent (c.filterTopics env) (topicSlot0 s.Options) := by
  cases c with
  | eventSig sig f =>
    simp only [RegCall.run, addEventSigAction] at hrun
    cases hsig : s.EventSigs.get? (env.Keccak256Hash sig) with
    | none => simp [hsig] at hrun
    | some abi =>
      simp only [hsig, Outcome.ok.injEq] at hrun
      subst hrun
      simp only [topicSlot0_addFilterTopic, RegCall.filterTopics, addAllAbsent_cons,
        addAllAbsent_nil]
      split_ifs <;> rfl
  | addressEventSig a sig f =>
    simp only [RegCall.run, addAddressEventSigAction] at hrun
    cases hsig : s.EventSigs.get? (env.Keccak256Hash sig) with
    | none => simp [hsig] at hrun
    | some abi =>
      simp only [hsig, Outcome.ok.injEq] at hrun
      subst hrun
      simp only [topicSlot0_addFilterTopic, topicSlot0_addFilterAddress,
        RegCall.filterTopics, addAllAbsent_cons, addAllAbsent_nil]
      split_ifs <;> rfl
  | addressEvent a f =>
    simp only [RegCall.run, addAddressEventAction, Outcome.ok.injEq] at hrun
    subst hrun
    simp only [RegCall.filterTopics, addAllAbsent_nil]
    split_ifs <;> rfl
  | txAddress a f =>
    simp only [RegCall.run, addTxAddressAction, Outcome.ok.injEq] at hrun
    subst hrun
    simp only [RegCall.filterTopics, addAllAbsent_nil]
    split_ifs <;> rfl
  | block f =>
    simp only [RegCall.run, addBlockAction, Outcome.ok.injEq] at hrun
    subst hrun
    simp only [RegCall.filterTopics, addAllAbsent_nil]
    split_ifs <;> rfl

theorem run_fatal_state (env : Env) (c : RegCall) (s s1 : State) (a : Abort)
    (hrun : c.run env s = .fatal a s1) : s1 = s := by
  cases c with
  | eventSig sig f =>
    simp only [RegCall.run, addEventSigAction] at hrun
    cases hsig : s.EventSigs.get? (env.Keccak256Hash sig) with
    | none =>
      simp only [hsig, Outcome.fatal.injEq] at hrun
      exact hrun.2.symm
    | some abi => simp [hsig] at hrun
  | addressEventSig c sig f =>
    simp only [RegCall.run, addAddressEventSigAction] at hrun
    cases hsig : s.EventSigs.get? (env.Keccak256Hash sig) with
    | none =>
      simp only [hsig, Outcome.fatal.injEq] at hrun
      exact hrun.2.symm
    | some abi => simp [hsig] at hrun
  | addressEvent c f => simp [RegCall.run] at hrun
  | txAddress c f => simp [RegCall.run] at hrun
  | block f => simp [RegCall.run] at hrun

theorem doEventPostProcessing_eq (env : Env) (vLog : Log) (s : State) :
    doEventPostProcessing env vLog s =
      { s with trace := s.trace ++ Effect.postProcessEvent vLog :: eventSpawns env vLog s } := by
  unfold doEventPostProcessing eventSpawns
  cases vLog.Topics with
  | nil => simp
  | cons eventSigHash rest => simp

theorem dispatched_spawnEvents (functions : Option (List ActionFunc)) (p : ActionEventData) :
    (spawnEvents functions p).filterMap (fun e => match e with
      | .postProcessEvent vLog => some vLog
      | _ => none) = [] := by
  unfold spawnEvents
  induction functions.getD [] with
  | nil => rfl
  | cons f rest ih => simp

theorem dispatched_eventSpawns (env : Env) (vLog : Log) (s : State) :
    (eventSpawns env vLog s).filterMap (fun e => match e with
      | .postProcessEvent vLog => some vLog
      | _ => none) = [] := by
  unfold eventSpawns
  cases vLog.Topics with
  | nil => rfl
  | cons eventSigHash rest =>
    simp only [List.filterMap_append, dispatched_spawnEvents, List.append_nil]

theorem dispatched_doEventPostProcessing (env : Env) (vLog : Log) (s : State) :
    dispatched (doEventPostProcessing env vLog s) = dispatched s ++ [vLog] := by
  rw [doEventPostProcessing_eq]
  simp only [dispatched, List.filterMap_append, List.filterMap_cons, dispatched_eventSpawns]

theorem handleEventGeneral_duplicate (env : Env) (vLog : Log) (s : State)
    (entity : ProcessedEntity) (hswitch : s.SwitchingToRealtime = true)
    (hget : s.AlreadyProcessed.get? vLog.TxHash = some entity)
    (hindex : vLog.Index = entity.EventIndex) :
    handleEventGeneral env vLog s = { s with DupeDetected := true } := by
  simp [handleEventGeneral, hswitch, hget, hindex]

theorem handleEventGeneral_fresh (env : Env) (vLog : Log) (s : State)
    (hswitch : s.SwitchingToRealtime = true)
    (hfresh : ∀ entity, s.AlreadyProcessed.get? vLog.TxHash = some entity →
      vLog.Index ≠ entity.EventIndex) :
    handleEventGeneral env vLog s =
      doEventPostProcessing env vLog
        { s with AlreadyProcessed := s.AlreadyProcessed.set vLog.TxHash (eventRecord vLog) } := by
  cases hget : s.AlreadyProcessed.get? vLog.TxHash with
  | none => simp [handleEventGeneral, hswitch, hget]
  | some entity =>
    have hne := hfresh entity hget
    simp [handleEventGeneral, hswitch, hget, hne]

theorem doEventPostProcessing_SwitchingToRealtime (env : Env) (vLog : Log) (s : State) :
    (doEventPostProcessing env vLog s).SwitchingToRealtime = s.SwitchingToRealtime := by
  rw [doEventPostProcessing_eq]

theorem doEventPostProcessing_AlreadyProcessed (env : Env) (vLog : Log) (s : State) :
    (doEventPostProcessing env vLog s).AlreadyProcessed = s.AlreadyProcessed := by
  rw [doEventPostProcessing_eq]

theorem doEventPostProcessing_DupeDetected (env : Env) (vLog : Log) (s : State) :
    (doEventPostProcessing env vLog s).DupeDetected = s.DupeDetected := by
  rw [doEventPostProcessing_eq]

theorem handleEventGeneral_trace (env : Env) (vLog : Log) (s : State) :
    s.trace <+: (handleEventGeneral env vLog s).trace := by
  unfold handleEventGeneral
  simp only [doEventPostProcessing_eq]
  split_ifs
  · split
    · split_ifs
      · exact List.prefix_refl _
      · exact List.prefix_append _ _
    · exact List.prefix_append _ _
  · exact List.prefix_append _ _

theorem handleEvents_trace (env : Env) (logs : List Log) (s : State) :
    s.trace <+: (handleEvents env logs s).trace := by
  induction logs generalizing s with
  | nil => exact List.prefix_refl _
  | cons vLog rest ih =>
    exact List.IsPrefix.trans (handleEventGeneral_trace env vLog s)
      (ih (handleEventGeneral env vLog s))

theorem andThen_trace (o : Outcome State) (k : State → Outcome State) (t : List Effect)
    (ho : t <+: o.state.trace) (hk : ∀ s, s.trace <+: (k s).state.trace) :
    t <+: (o.andThen k).state.trace := by
  cases o with
  | ok s1 => exact List.IsPrefix.trans ho (hk s1)
  | fatal a s1 => exact ho

theorem prefix_of_append_prefix (t e u : List Effect) (h : t ++ e <+: u) : t <+: u :=
  List.IsPrefix.trans (List.prefix_append t e) h

theorem handleEventsFromBlock_trace (env : Env) (block : Block) (contracts : List Address)
    (s : State) : s.trace <+: (handleEventsFromBlock env block contracts s).state.trace := by
  unfold handleEventsFromBlock
  dsimp only
  split
  · exact List.prefix_append _ _
  · exact prefix_of_append_prefix _ _ _
      (handleEvents_trace env _ { s with trace := s.trace ++ [_] })

theorem doTxPostProcessingOne_trace (env : Env) (block : Block) (tx : Transaction)
    (s : State) : s.trace <+: (doTxPostProcessingOne env block tx s).state.trace := by
  unfold doTxPostProcessingOne
  dsimp only
  split
  · exact List.prefix_refl _
  · split
    · exact List.prefix_append _ _
    · split
      · split
        · exact List.prefix_append _ _
        · exact List.prefix_refl _
      · exact List.prefix_refl _

theorem doTxPostProcessingLoop_trace (env : Env) (block : Block) (txs : List Transaction)
    (s : State) : s.trace <+: (doTxPostProcessingLoop env block txs s).state.trace := by
  induction txs generalizing s with
  | nil => exact List.prefix_refl _
  | cons tx rest ih =>
    exact andThen_trace _ _ _ (doTxPostProcessingOne_trace env block tx s) ih

theorem doBlocksPostProcessing_trace (p : ActionBlockData) (s : State) :
    s.trace <+: (doBlocksPostProcessing p s).trace :=
  List.prefix_append _ _

theorem handleBlockBody_trace (env : Env) (block : Block) (s : State) :
    s.trace <+: (handleBlockBody env block s).state.trace := by
  unfold handleBlockBody
  dsimp only
  refine andThen_trace _ _ _ ?_ ?_
  · refine prefix_of_append_prefix _ [Effect.handleBlock block] _ ?_
    split_ifs
    · exact doBlocksPostProcessing_trace _ { s with trace := s.trace ++ [Effect.handleBlock block] }
    · exact List.IsPrefix.trans
        (doBlocksPostProcessing_trace _
          { s with trace := s.trace ++ [Effect.handleBlock block] })
        (handleEventsFromBlock_trace env block _ _)
  · intro s2
    split_ifs
    · exact List.prefix_refl _
    · exact doTxPostProcessingLoop_trace env block _ s2

theorem blockWaitGroupWait_trace (s : State) :
    s.trace <+: (blockWaitGroupWait s).state.trace := by
  unfold blockWaitGroupWait
  split_ifs
  · exact List.prefix_append _ _
  · exact List.prefix_refl _

theorem handleBlock_trace (env : Env) (block : Block) (s : State) :
    s.trace <+: (handleBlock env block s).state.trace :=
  andThen_trace _ _ _ (handleBlockBody_trace env block s) blockWaitGroupWait_trace

theorem handleBlock_trace_after (env : Env) (block : Block) (s : State) (t : List Effect) :
    s.trace ++ t <+: (handleBlock env block { s with trace := s.trace ++ t }).state.trace :=
  handleBlock_trace env block { s with trace := s.trace ++ t }

/-- The block fetch `HandleHeader` issues first for a header. -/
theorem fetchAndHandleBlock_trace (env : Env) (header : Header) (s : State) :
    ∃ rest, (fetchAndHandleBlock env header s).state.trace =
      s.trace ++ (if s.Options.IsL2Chain = true
        then Effect.rpcL2BlockByHexNumber header.Number
        else Effect.rpcBlockByHash header.Hash) :: rest := by
  have hcons : ∀ (t u : List Effect) (e : Effect), t ++ [e] <+: u → ∃ rest, u = t ++ e :: rest := by
    intro t u e h
    obtain ⟨r, hr⟩ := h
    exact ⟨r, by simp [← hr]⟩
  unfold fetchAndHandleBlock
  by_cases hl2 : s.Options.IsL2Chain = true
  · simp only [hl2, if_true]
    apply hcons
    cases env.GetL2BlockByHexNumber header.Number with
    | block b => exact handleBlock_trace_after env b s _
    | error => exact List.prefix_refl _
    | malformed => exact List.prefix_refl _
  · simp only [hl2, if_false]
    apply hcons
    cases env.BlockByHash header.Hash with
    | some b => exact handleBlock_trace_after env b s _
    | none =>
      cases env.BlockByNumber header.Number with
      | some b =>
        refine prefix_of_append_prefix _ [Effect.rpcBlockByNumber header.Number] _ ?_
        exact handleBlock_trace_after env b
          { s with trace := s.trace ++ [Effect.rpcBlockByHash header.Hash] } _
      | none => exact List.prefix_append _ _

/-- A ledger record without a block number (one written by `handleEventGeneral`) under the
hash of the header makes `HandleHeader` dereference nil.  Such a record needs a
transaction hash equal to a block hash. -/
theorem HandleHeader_event_record (env : Env) (header : Header) (s : State)
    (entity : ProcessedEntity) (hswitch : s.SwitchingToRealtime = true)
    (hget : s.AlreadyProcessed.get? header.Hash = some entity)
    (hnil : entity.BlockNumber = none) :
    HandleHeader env header s = .fatal .nilDereference s := by
  simp [HandleHeader, hswitch, hget, hnil]

/-! ## What dispatching adds to the state -/

theorem Adds.refl (P : Effect → Bool) (s : State) : Adds P s s :=
  ⟨rfl, [], by simp, by simp⟩

theorem Adds.trans {P : Effect → Bool} {s s1 s2 : State} (h1 : Adds P s s1)
    (h2 : Adds P s1 s2) : Adds P s s2 := by
  obtain ⟨hs1, t1, ht1, hp1⟩ := h1
  obtain ⟨hs2, t2, ht2, hp2⟩ := h2
  refine ⟨hs2.trans hs1, t1 ++ t2, by rw [ht2, ht1, List.append_assoc], ?_⟩
  intro e he
  rcases List.mem_append.mp he with h | h
  · exact hp1 e h
  · exact hp2 e h

theorem Adds.mono {P Q : Effect → Bool} {s s1 : State} (h : Adds P s s1)
    (hPQ : ∀ e, P e = true → Q e = true) : Adds Q s s1 := by
  obtain ⟨hs, t, ht, hp⟩ := h
  exact ⟨hs, t, ht, fun e he => hPQ e (hp e he)⟩

theorem Adds.append (P : Effect → Bool) (s : State) (t : List Effect)
    (ht : ∀ e ∈ t, P e = true) : Adds P s { s with trace := s.trace ++ t } :=
  ⟨rfl, t, rfl, ht⟩

theorem Adds.filter_eq {P : Effect → Bool} {s s1 : State} (h : Adds P s s1)
    (Q : Effect → Bool) (hQ : ∀ e, P e = true → Q e = false) :
    s1.trace.filter Q = s.trace.filter Q := by
  obtain ⟨_, t, ht, hp⟩ := h
  rw [ht, List.filter_append]
  have hnil : t.filter Q = [] := by
    rw [List.filter_eq_nil_iff]
    intro e he
    simp [hQ e (hp e he)]
  rw [hnil, List.append_nil]

theorem Adds.settings_eq {P : Effect → Bool} {s s1 : State} (h : Adds P s s1) :
    s1.settings = s.settings := h.1

theorem Adds.BlockWaitGroup {P : Effect → Bool} {s s1 : State} (h : Adds P s s1) :
    s1.BlockWaitGroup = s.BlockWaitGroup := by
  have hfield := congrArg State.BlockWaitGroup h.1
  exact hfield

theorem Adds.processedBlock {P : Effect → Bool} {s s1 : State} (h : Adds P s s1) :
    s1.processedBlock = s.processedBlock := by
  have hfield := congrArg State.processedBlock h.1
  exact hfield

theorem Adds.Options {P : Effect → Bool} {s s1 : State} (h : Adds P s s1) :
    s1.Options = s.Options := by
  have hfield := congrArg State.Options h.1
  exact hfield

theorem Adds.stepBlocks {P : Effect → Bool} {s s1 : State} (h : Adds P s s1) :
    s1.stepBlocks = s.stepBlocks := by
  have hfield := congrArg State.stepBlocks h.1
  exact hfield

theorem Adds.andThen {P : Effect → Bool} {s : State} {o : Outcome State}
    {k : State → Outcome State} (ho : Adds P s o.state)
    (hk : ∀ s1, Adds P s1 (k s1).state) : Adds P s (o.andThen k).state := by
  cases o with
  | ok s1 => exact Adds.trans ho (hk s1)
  | fatal a s1 => exact ho

theorem isEventEffect_spawnEvents (functions : Option (List ActionFunc)) (p : ActionEventData) :
    ∀ e ∈ spawnEvents functions p, e.isEventEffect = true := by
  intro e he
  simp only [spawnEvents, List.mem_map] at he
  obtain ⟨f, _, hf⟩ := he
  rw [← hf]
  rfl

theorem isEventEffect_eventSpawns (env : Env) (vLog : Log) (s : State) :
    ∀ e ∈ eventSpawns env vLog s, e.isEventEffect = true := by
  intro e he
  unfold eventSpawns at he
  split at he
  · simp at he
  · rcases List.mem_append.mp he with h | h
    · rcases List.mem_append.mp h with h1 | h1
      · exact isEventEffect_spawnEvents _ _ e h1
      · exact isEventEffect_spawnEvents _ _ e h1
    · exact isEventEffect_spawnEvents _ _ e h

theorem Adds_doEventPostProcessing (env : Env) (vLog : Log) (s : State) :
    Adds Effect.isEventEffect s (doEventPostProcessing env vLog s) := by
  rw [doEventPostProcessing_eq]
  refine Adds.append _ s _ ?_
  intro e he
  rcases List.mem_cons.mp he with h | h
  · rw [h]
    rfl
  · exact isEventEffect_eventSpawns env vLog s e h

theorem Adds_handleEventGeneral (env : Env) (vLog : Log) (s : State) :
    Adds Effect.isEventEffect s (handleEventGeneral env vLog s) := by
  have hrec : ∀ led, Adds Effect.isEventEffect s
      (doEventPostProcessing env vLog { s with AlreadyProcessed := led }) := by
    intro led
    obtain ⟨hs, t, ht, hp⟩ := Adds_doEventPostProcessing env vLog { s with AlreadyProcessed := led }
    exact ⟨hs, t, ht, hp⟩
  unfold handleEventGeneral
  split_ifs
  · dsimp only
    split
    · split_ifs
      · exact ⟨rfl, [], by simp, by simp⟩
      · exact hrec _
    · exact hrec _
  · exact Adds_doEventPostProcessing env vLog s

theorem Adds_handleEvents (env : Env) (logs : List Log) (s : State) :
    Adds Effect.isEventEffect s (handleEvents env logs s) := by
  induction logs generalizing s with
  | nil => exact Adds.refl _ s
  | cons vLog rest ih =>
    exact Adds.trans (Adds_handleEventGeneral env vLog s) (ih (handleEventGeneral env vLog s))

theorem isBlockEffect_of_isEventEffect (e : Effect) (h : e.isEventEffect = true) :
    e.isBlockEffect = true := by
  cases e <;> simp_all [Effect.isEventEffect, Effect.isBlockEffect]

theorem Adds_handleEventsFromBlock (env : Env) (block : Block) (contracts : List Address)
    (s : State) :
    Adds Effect.isBlockEffect s (handleEventsFromBlock env block contracts s).state := by
  unfold handleEventsFromBlock
  dsimp only
  have hq : ∀ q, Adds Effect.isBlockEffect s
      { s with trace := s.trace ++ [Effect.rpcFilterLogs q] } := by
    intro q
    refine Adds.append _ s _ ?_
    intro e he
    simp only [List.mem_singleton] at he
    rw [he]
    rfl
  split
  · exact hq _
  · exact Adds.trans (hq _)
      (Adds.mono (Adds_handleEvents env _ _) isBlockEffect_of_isEventEffect)

theorem Adds_doTxPostProcessingOne (env : Env) (block : Block) (tx : Transaction) (s : State) :
    Adds Effect.isBlockEffect s (doTxPostProcessingOne env block tx s).state := by
  have hspawn : ∀ (functions : List ActionFunc) (p : ActionTxData),
      Adds Effect.isBlockEffect s
        { s with trace := s.trace ++ functions.map (fun function => Effect.spawnTx function p) } := by
    intro functions p
    refine Adds.append _ s _ ?_
    intro e he
    simp only [List.mem_map] at he
    obtain ⟨f, _, hf⟩ := he
    rw [← hf]
    rfl
  unfold doTxPostProcessingOne
  dsimp only
  split
  · exact Adds.refl _ s
  · split
    · exact hspawn _ _
    · split
      · split
        · exact hspawn _ _
        · exact Adds.refl _ s
      · exact Adds.refl _ s

theorem Adds_doTxPostProcessingLoop (env : Env) (block : Block) (txs : List Transaction)
    (s : State) : Adds Effect.isBlockEffect s (doTxPostProcessingLoop env block txs s).state := by
  induction txs generalizing s with
  | nil => exact Adds.refl _ s
  | cons tx rest ih => exact Adds.andThen (Adds_doTxPostProcessingOne env block tx s) ih

theorem Adds_doBlocksPostProcessing (p : ActionBlockData) (s : State) :
    Adds Effect.isBlockEffect s (doBlocksPostProcessing p s) := by
  refine Adds.append _ s _ ?_
  intro e he
  simp only [List.mem_map] at he
  obtain ⟨f, _, hf⟩ := he
  rw [← hf]
  rfl

/-- The body of `handleBlock` adds the record of its call and then only handler launches
and the log query. -/
theorem Adds_handleBlockBody (env : Env) (block : Block) (s : State) :
    Adds Effect.isBlockEffect { s with trace := s.trace ++ [Effect.handleBlock block] }
      (handleBlockBody env block s).state := by
  unfold handleBlockBody
  dsimp only
  refine Adds.andThen ?_ ?_
  · split_ifs
    · exact Adds_doBlocksPostProcessing _ _
    · exact Adds.trans (Adds_doBlocksPostProcessing _ _)
        (Adds_handleEventsFromBlock env block _ _)
  · intro s2
    split_ifs
    · exact Adds.refl _ s2
    · exact Adds_doTxPostProcessingLoop env block _ s2

theorem doEventPostProcessing_trace_eq (env : Env) (vLog : Log) (s : State) (topic0 : Hash)
    (rest : List Hash) (htopics : vLog.Topics = topic0 :: rest) :
    (doEventPostProcessing env vLog s).trace =
      s.trace ++ Effect.postProcessEvent vLog ::
        (((s.EventSigToAction.get? topic0).getD []
          ++ (((s.ContractToEventSigToAction.get? vLog.Address).getD []).get? topic0).getD []
          ++ (s.ContractToEventAction.get? vLog.Address).getD []).map
            (fun f => Effect.spawnEvent f (actionEventDataOf env s vLog))) := by
  rw [doEventPostProcessing_eq]
  simp [eventSpawns, spawnEvents, htopics]

/-! ## Block handling when the provider answers -/

theorem handleEventsFromBlock_ok (env : Env) (henv : ProviderAnswers env) (block : Block)
    (contracts : List Address) (s : State) :
    ∃ s1, handleEventsFromBlock env block contracts s = .ok s1 := by
  unfold handleEventsFromBlock
  dsimp only
  obtain ⟨logs, hlogs⟩ := henv.1
    { FromBlock := some (block.Number : Int), ToBlock := some (block.Number : Int),
      Addresses := contracts, Topics := s.Options.FilterEventTopics }
  rw [hlogs]
  exact ⟨_, rfl⟩

theorem doTxPostProcessingOne_ok (env : Env) (henv : ProviderAnswers env) (block : Block)
    (tx : Transaction) (s : State) : ∃ s1, doTxPostProcessingOne env block tx s = .ok s1 := by
  obtain ⟨sender, hsender⟩ := henv.2 tx
  unfold doTxPostProcessingOne
  rw [hsender]
  dsimp only
  split
  · exact ⟨_, rfl⟩
  · split
    · split
      · exact ⟨_, rfl⟩
      · exact ⟨_, rfl⟩
    · exact ⟨_, rfl⟩

theorem doTxPostProcessingLoop_ok (env : Env) (henv : ProviderAnswers env) (block : Block)
    (txs : List Transaction) (s : State) :
    ∃ s1, doTxPostProcessingLoop env block txs s = .ok s1 := by
  induction txs generalizing s with
  | nil => exact ⟨s, rfl⟩
  | cons tx rest ih =>
    obtain ⟨s1, h1⟩ := doTxPostProcessingOne_ok env henv block tx s
    obtain ⟨s2, h2⟩ := ih s1
    exact ⟨s2, by simp [doTxPostProcessingLoop, h1, Outcome.andThen, h2]⟩

theorem handleBlockBody_ok (env : Env) (henv : ProviderAnswers env) (block : Block)
    (s : State) : ∃ s1, handleBlockBody env block s = .ok s1 := by
  unfold handleBlockBody
  dsimp only
  have hev : ∃ s2, (if (doBlocksPostProcessing { Block := block }
        { s with trace := s.trace ++ [Effect.handleBlock block] }).EventSigToAction.length = 0 ∧
        (doBlocksPostProcessing { Block := block }
          { s with trace := s.trace ++ [Effect.handleBlock block] }).ContractToEventSigToAction.length
          = 0
      then Outcome.ok (doBlocksPostProcessing { Block := block }
        { s with trace := s.trace ++ [Effect.handleBlock block] })
      else handleEventsFromBlock env block
        (doBlocksPostProcessing { Block := block }
          { s with trace := s.trace ++ [Effect.handleBlock block] }).Options.FilterAddresses
        (doBlocksPostProcessing { Block := block }
          { s with trace := s.trace ++ [Effect.handleBlock block] })) = .ok s2 := by
    split_ifs
    · exact ⟨_, rfl⟩
    · exact handleEventsFromBlock_ok env henv block _ _
  obtain ⟨s2, h2⟩ := hev
  rw [h2]
  simp only [Outcome.andThen]
  split_ifs
  · exact ⟨_, rfl⟩
  · exact doTxPostProcessingLoop_ok env henv block _ s2

/-- With an answering provider and an idle completion group, `handleBlock` returns, having
added the record of its call, handler launches and the log query, and last the wait. -/
theorem handleBlock_ok (env : Env) (henv : ProviderAnswers env) (block : Block) (s : State)
    (hidle : s.BlockWaitGroup = 0) :
    ∃ s1, handleBlock env block s =
        .ok { s1 with trace := s1.trace ++ [Effect.blockWaitGroupWait] } ∧
      Adds Effect.isBlockEffect { s with trace := s.trace ++ [Effect.handleBlock block] } s1 := by
  obtain ⟨s1, h1⟩ := handleBlockBody_ok env henv block s
  have hadds : Adds Effect.isBlockEffect
      { s with trace := s.trace ++ [Effect.handleBlock block] } s1 := by
    have h := Adds_handleBlockBody env block s
    rw [h1] at h
    exact h
  have hzero : s1.BlockWaitGroup = 0 := hadds.BlockWaitGroup.trans hidle
  refine ⟨s1, ?_, hadds⟩
  simp [handleBlock, h1, Outcome.andThen, blockWaitGroupWait, hzero]

/-! ## The pending-block poller -/

theorem unseenBlocks_not_seen (seen : List Nat) (blocks : List Block) :
    ∀ block ∈ unseenBlocks seen blocks, block.Number ∉ seen := by
  induction blocks generalizing seen with
  | nil => simp [unseenBlocks]
  | cons b rest ih =>
    intro block hmem
    unfold unseenBlocks at hmem
    split_ifs at hmem with hseen
    · exact ih seen block hmem
    · rcases List.mem_cons.mp hmem with h | h
      · rw [h]
        exact hseen
      · intro hin
        exact ih (b.Number :: seen) block h (List.mem_cons_of_mem _ hin)

theorem unseenBlocks_nodup (seen : List Nat) (blocks : List Block) :
    ((unseenBlocks seen blocks).map Block.Number).Nodup := by
  induction blocks generalizing seen with
  | nil => simp [unseenBlocks]
  | cons b rest ih =>
    unfold unseenBlocks
    split_ifs with hseen
    · exact ih seen
    · rw [List.map_cons, List.nodup_cons]
      refine ⟨?_, ih (b.Number :: seen)⟩
      intro hmem
      obtain ⟨block, hblock, hnum⟩ := List.mem_map.mp hmem
      exact unseenBlocks_not_seen (b.Number :: seen) rest block hblock
        (by rw [hnum]; exact List.mem_cons_self _ _)

theorem listenToPendingBlocksLoop_handled (env : Env) (henv : ProviderAnswers env)
    (blocks : List Block) (seen : List Nat) (s : State) (hidle : s.BlockWaitGroup = 0)
    (hseen : ∀ n, (s.processedBlock.get? n).getD false = true ↔ n ∈ seen) :
    ∃ r, listenToPendingBlocksLoop env (blocks.map L2Answer.block) s = .ok r ∧
      r.trace.filter Effect.isHandleBlock =
        s.trace.filter Effect.isHandleBlock ++
          (unseenBlocks seen blocks).map Effect.handleBlock := by
  induction blocks generalizing seen s with
  | nil => exact ⟨s, rfl, by simp [unseenBlocks]⟩
  | cons b rest ih =>
    by_cases hb : b.Number ∈ seen
    · have hget : (s.processedBlock.get? b.Number).getD false = true := (hseen b.Number).mpr hb
      obtain ⟨r, hr, hfilter⟩ := ih seen
        { s with trace := s.trace ++ [Effect.rpcPendingBlock] } hidle hseen
      refine ⟨r, ?_, ?_⟩
      · simp only [List.map_cons, listenToPendingBlocksLoop, getPendingBlock, hget, if_true,
          Outcome.andThen]
        exact hr
      · rw [hfilter]
        simp [unseenBlocks, hb, Effect.isHandleBlock]
    · have hget : (s.processedBlock.get? b.Number).getD false = false := by
        cases hval : (s.processedBlock.get? b.Number).getD false with
        | false => rfl
        | true => exact absurd ((hseen b.Number).mp hval) hb
      obtain ⟨s2, hok, hadds⟩ := handleBlock_ok env henv b
        { s with trace := s.trace ++ [Effect.rpcPendingBlock],
                 processedBlock := s.processedBlock.set b.Number true } hidle
      have hproc : s2.processedBlock = s.processedBlock.set b.Number true := hadds.processedBlock
      have hseen2 : ∀ n, (({ s2 with trace := s2.trace ++ [Effect.blockWaitGroupWait] } :
          State).processedBlock.get? n).getD false = true ↔ n ∈ b.Number :: seen := by
        intro n
        show (s2.processedBlock.get? n).getD false = true ↔ n ∈ b.Number :: seen
        rw [hproc]
        by_cases hn : b.Number = n
        · subst hn
          simp [GoMap.get?_set_self]
        · rw [GoMap.get?_set_of_ne _ _ _ _ hn, hseen n]
          constructor
          · intro h
            exact List.mem_cons_of_mem _ h
          · intro h
            rcases List.mem_cons.mp h with h1 | h1
            · exact absurd h1.symm hn
            · exact h1
      obtain ⟨r, hr, hfilter⟩ := ih (b.Number :: seen)
        { s2 with trace := s2.trace ++ [Effect.blockWaitGroupWait] }
        (hadds.BlockWaitGroup.trans hidle) hseen2
      refine ⟨r, ?_, ?_⟩
      · simp only [List.map_cons, listenToPendingBlocksLoop, getPendingBlock, hget,
          Bool.false_eq_true, if_false, hok, Outcome.andThen]
        exact hr
      · rw [hfilter]
        have hf := hadds.filter_eq Effect.isHandleBlock
          (by intro e he; cases e <;> simp_all [Effect.isBlockEffect, Effect.isHandleBlock])
        simp only [List.filter_append] at hf ⊢
        rw [hf]
        simp [unseenBlocks, hb, Effect.isHandleBlock]

/-! ## Sequential historical block processing -/

theorem downFrom_length (currentBlock : Int) (n : Nat) : (downFrom currentBlock n).length = n := by
  induction n generalizing currentBlock with
  | zero => rfl
  | succ n ih => simp [downFrom, ih]

theorem downFrom_get (currentBlock : Int) (n k : Nat) (hk : k < n) :
    (downFrom currentBlock n)[k]? = some (currentBlock - k) := by
  induction n generalizing currentBlock k with
  | zero => omega
  | succ n ih =>
    cases k with
    | zero => simp [downFrom]
    | succ k =>
      simp only [downFrom, List.getElem?_cons_succ]
      rw [ih (currentBlock - 1) k (by omega)]
      congr 1
      push_cast
      ring

theorem downFrom_lt (currentBlock : Int) (n : Nat) :
    ∀ b ∈ downFrom currentBlock n, b ≤ currentBlock := by
  induction n generalizing currentBlock with
  | zero => simp [downFrom]
  | succ n ih =>
    intro b hb
    rcases List.mem_cons.mp hb with h | h
    · omega
    · have := ih (currentBlock - 1) b h
      omega

theorem downFrom_decreasing (currentBlock : Int) (n : Nat) :
    (downFrom currentBlock n).Pairwise (fun a b => b < a) := by
  induction n generalizing currentBlock with
  | zero => simp [downFrom]
  | succ n ih =>
    simp only [downFrom, List.pairwise_cons]
    refine ⟨?_, ih (currentBlock - 1)⟩
    intro b hb
    have := downFrom_lt (currentBlock - 1) n b hb
    omega

theorem upFrom_length (currentBlock : Int) (n : Nat) : (upFrom currentBlock n).length = n := by
  induction n generalizing currentBlock with
  | zero => rfl
  | succ n ih => simp [upFrom, ih]

theorem upFrom_get (currentBlock : Int) (n k : Nat) (hk : k < n) :
    (upFrom currentBlock n)[k]? = some (currentBlock + k) := by
  induction n generalizing currentBlock k with
  | zero => omega
  | succ n ih =>
    cases k with
    | zero => simp [upFrom]
    | succ k =>
      simp only [upFrom, List.getElem?_cons_succ]
      rw [ih (currentBlock + 1) k (by omega)]
      congr 1
      push_cast
      ring

theorem upFrom_gt (currentBlock : Int) (n : Nat) :
    ∀ b ∈ upFrom currentBlock n, currentBlock ≤ b := by
  induction n generalizing currentBlock with
  | zero => simp [upFrom]
  | succ n ih =>
    intro b hb
    rcases List.mem_cons.mp hb with h | h
    · omega
    · have := ih (currentBlock + 1) b h
      omega

theorem upFrom_increasing (currentBlock : Int) (n : Nat) :
    (upFrom currentBlock n).Pairwise (fun a b => a < b) := by
  induction n generalizing currentBlock with
  | zero => simp [upFrom]
  | succ n ih =>
    simp only [upFrom, List.pairwise_cons]
    refine ⟨?_, ih (currentBlock + 1)⟩
    intro b hb
    have := upFrom_gt (currentBlock + 1) n b hb
    omega

theorem blockSteps_cons (env : Env) (number : Int) (numbers : List Int) (block : Block)
    (hblock : env.BlockByNumber number = some block) :
    blockSteps env (number :: numbers) =
      [Effect.rpcBlockByNumber number, Effect.handleBlock block, Effect.blockWaitGroupWait]
        ++ blockSteps env numbers := by
  simp [blockSteps, hblock]

/-- One block of a sequential loop, with an answering provider and an idle completion
group: the fetch, then `handleBlock` on the fetched block, then the return of its wait. -/
theorem processBlockByNumber_ok (env : Env) (henv : ProviderAnswers env) (number : Int)
    (block : Block) (hblock : env.BlockByNumber number = some block) (s : State)
    (hidle : s.BlockWaitGroup = 0) :
    ∃ r, processBlockByNumber env number s = .ok r ∧ r.BlockWaitGroup = 0 ∧
      r.trace.filter Effect.isBlockStep =
        s.trace.filter Effect.isBlockStep ++
          [Effect.rpcBlockByNumber number, Effect.handleBlock block,
            Effect.blockWaitGroupWait] := by
  obtain ⟨s2, hok, hadds⟩ := handleBlock_ok env henv block
    { s with trace := s.trace ++ [Effect.rpcBlockByNumber number] } hidle
  refine ⟨{ s2 with trace := s2.trace ++ [Effect.blockWaitGroupWait] }, ?_, ?_, ?_⟩
  · simp only [processBlockByNumber, hblock]
    exact hok
  · exact hadds.BlockWaitGroup.trans hidle
  · have hf := hadds.filter_eq Effect.isBlockStep
      (by intro e he; cases e <;> simp_all [Effect.isBlockEffect, Effect.isBlockStep])
    simp only [List.filter_append] at hf ⊢
    rw [hf]
    simp [Effect.isBlockStep]

theorem processBlocksBackwards_ok (env : Env) (henv : ProviderAnswers env)
    (hblocks : ∀ number, ∃ block, env.BlockByNumber number = some block) (toBlock : Int)
    (n : Nat) (currentBlock : Int) (s : State) (fuel : Nat)
    (hn : (currentBlock - toBlock + 1).toNat = n) (hfuel : n < fuel)
    (hidle : s.BlockWaitGroup = 0) :
    ∃ r, processBlocksBackwards env toBlock fuel currentBlock s = some (.ok r) ∧
      r.trace.filter Effect.isBlockStep =
        s.trace.filter Effect.isBlockStep ++ blockSteps env (downFrom currentBlock n) := by
  induction n generalizing currentBlock s fuel with
  | zero =>
    obtain ⟨f, rfl⟩ : ∃ f, fuel = f + 1 := ⟨fuel - 1, by omega⟩
    have hlt : ¬ toBlock ≤ currentBlock := by omega
    exact ⟨s, by simp [processBlocksBackwards, hlt], by simp [downFrom, blockSteps]⟩
  | succ n ih =>
    obtain ⟨f, rfl⟩ : ∃ f, fuel = f + 1 := ⟨fuel - 1, by omega⟩
    have hle : toBlock ≤ currentBlock := by omega
    obtain ⟨block, hblock⟩ := hblocks currentBlock
    obtain ⟨r1, hr1, hidle1, hf1⟩ :=
      processBlockByNumber_ok env henv currentBlock block hblock s hidle
    obtain ⟨r, hr, hf⟩ := ih (currentBlock - 1) r1 f (by omega) (by omega) hidle1
    refine ⟨r, ?_, ?_⟩
    · simp only [processBlocksBackwards, hle, if_true, hr1]
      exact hr
    · rw [hf, hf1, downFrom, blockSteps_cons env currentBlock _ block hblock]
      simp

theorem processBlocksForwards_ok (env : Env) (henv : ProviderAnswers env)
    (hblocks : ∀ number, ∃ block, env.BlockByNumber number = some block) (toBlock : Int)
    (n : Nat) (currentBlock : Int) (s : State) (fuel : Nat)
    (hn : (toBlock - currentBlock + 1).toNat = n) (hfuel : n < fuel)
    (hidle : s.BlockWaitGroup = 0) :
    ∃ r, processBlocksForwards env toBlock fuel currentBlock s = some (.ok r) ∧
      r.trace.filter Effect.isBlockStep =
        s.trace.filter Effect.isBlockStep ++ blockSteps env (upFrom currentBlock n) := by
  induction n generalizing currentBlock s fuel with
  | zero =>
    obtain ⟨f, rfl⟩ : ∃ f, fuel = f + 1 := ⟨fuel - 1, by omega⟩
    have hlt : ¬ currentBlock ≤ toBlock := by omega
    exact ⟨s, by simp [processBlocksForwards, hlt], by simp [upFrom, blockSteps]⟩
  | succ n ih =>
    obtain ⟨f, rfl⟩ : ∃ f, fuel = f + 1 := ⟨fuel - 1, by omega⟩
    have hle : currentBlock ≤ toBlock := by omega
    obtain ⟨block, hblock⟩ := hblocks currentBlock
    obtain ⟨r1, hr1, hidle1, hf1⟩ :=
      processBlockByNumber_ok env henv currentBlock block hblock s hidle
    obtain ⟨r, hr, hf⟩ := ih (currentBlock + 1) r1 f (by omega) (by omega) hidle1
    refine ⟨r, ?_, ?_⟩
    · simp only [processBlocksForwards, hle, if_true, hr1]
      exact hr
    · rw [hf, hf1, upFrom, blockSteps_cons env currentBlock _ block hblock]
      simp

/-! ## Historical event ranges -/

theorem rangesFrom_eq_map (currentBlock stepBlocks toBlock : Int) (n : Nat) :
    rangesFrom currentBlock stepBlocks toBlock n =
      (List.range n).map (fun (k : Nat) =>
        (currentBlock + (k : Int) * stepBlocks,
          min (currentBlock + ((k : Int) + 1) * stepBlocks - 1) toBlock)) := by
  induction n generalizing currentBlock with
  | zero => rfl
  | succ n ih =>
    rw [rangesFrom, ih, List.range_succ_eq_map, List.map_cons, List.map_map]
    congr 1
    · simp
    · apply List.map_congr_left
      intro k _
      simp only [Function.comp, Nat.cast_succ]
      congr 1
      · ring
      · congr 1
        ring

theorem rangesFrom_lower (currentBlock stepBlocks toBlock : Int) (n : Nat)
    (hstep : 1 ≤ stepBlocks) :
    ∀ range ∈ rangesFrom currentBlock stepBlocks toBlock n, currentBlock ≤ range.1 := by
  induction n generalizing currentBlock with
  | zero => simp [rangesFrom]
  | succ n ih =>
    intro range hmem
    rcases List.mem_cons.mp hmem with h | h
    · rw [h]
    · have := ih (currentBlock + stepBlocks) range h
      omega

theorem rangesFrom_pairwise (currentBlock stepBlocks toBlock : Int) (n : Nat)
    (hstep : 1 ≤ stepBlocks) :
    (rangesFrom currentBlock stepBlocks toBlock n).Pairwise (fun a b => a.2 < b.1) := by
  induction n generalizing currentBlock with
  | zero => simp [rangesFrom]
  | succ n ih =>
    simp only [rangesFrom, List.pairwise_cons]
    refine ⟨?_, ih (currentBlock + stepBlocks)⟩
    intro range hmem
    have h1 := rangesFrom_lower (currentBlock + stepBlocks) stepBlocks toBlock n hstep range hmem
    have h2 : min (currentBlock + stepBlocks - 1) toBlock ≤ currentBlock + stepBlocks - 1 :=
      min_le_left _ _
    omega

theorem rangesFrom_cover (currentBlock stepBlocks toBlock : Int) (n : Nat)
    (hstep : 1 ≤ stepBlocks) (hhi : toBlock < currentBlock + n * stepBlocks)
    (hlo : ∀ k : Nat, k < n → currentBlock + k * stepBlocks ≤ toBlock) (b : Int) :
    (currentBlock ≤ b ∧ b ≤ toBlock) ↔
      ∃ range ∈ rangesFrom currentBlock stepBlocks toBlock n, range.1 ≤ b ∧ b ≤ range.2 := by
  induction n generalizing currentBlock with
  | zero =>
    simp only [rangesFrom, List.not_mem_nil, false_and, exists_false, iff_false]
    simp only [Nat.cast_zero, zero_mul, add_zero] at hhi
    omega
  | succ n ih =>
    have hhi2 : toBlock < currentBlock + stepBlocks + n * stepBlocks := by
      have : ((n + 1 : Nat) : Int) * stepBlocks = n * stepBlocks + stepBlocks := by
        push_cast
        ring
      omega
    have hlo2 : ∀ k : Nat, k < n → currentBlock + stepBlocks + k * stepBlocks ≤ toBlock := by
      intro k hk
      have h := hlo (k + 1) (by omega)
      have : ((k + 1 : Nat) : Int) * stepBlocks = k * stepBlocks + stepBlocks := by
        push_cast
        ring
      omega
    have hrec := ih (currentBlock + stepBlocks) hhi2 hlo2
    simp only [rangesFrom, List.mem_cons, exists_eq_or_imp, le_min_iff]
    rw [← hrec]
    constructor
    · rintro ⟨h1, h2⟩
      by_cases hb : b ≤ currentBlock + stepBlocks - 1
      · exact Or.inl ⟨h1, hb, h2⟩
      · exact Or.inr ⟨by omega, h2⟩
    · rintro (⟨h1, _, h3⟩ | ⟨h1, h2⟩)
      · exact ⟨h1, h3⟩
      · exact ⟨by omega, h2⟩

/-- The number of ranges: the last range starts at or below `toBlock`, the next would start
above it. -/
theorem stepRanges_count (fromBlock toBlock stepBlocks : Int) (hle : fromBlock ≤ toBlock)
    (hstep : 1 ≤ stepBlocks) :
    toBlock < fromBlock + (((toBlock - fromBlock) / stepBlocks + 1).toNat : Nat) * stepBlocks ∧
      ∀ k : Nat, k < ((toBlock - fromBlock) / stepBlocks + 1).toNat →
        fromBlock + k * stepBlocks ≤ toBlock := by
  have hpos : 0 < stepBlocks := by omega
  have hq : 0 ≤ (toBlock - fromBlock) / stepBlocks :=
    Int.ediv_nonneg (by omega) (by omega)
  have hcast : ((((toBlock - fromBlock) / stepBlocks + 1).toNat : Nat) : Int) =
      (toBlock - fromBlock) / stepBlocks + 1 := Int.toNat_of_nonneg (by omega)
  have h1 := Int.lt_ediv_add_one_mul_self (toBlock - fromBlock) hpos
  have h2 := Int.ediv_mul_le (toBlock - fromBlock) (ne_of_gt hpos)
  constructor
  · rw [hcast]
    omega
  · intro k hk
    have hk2 : (k : Int) ≤ (toBlock - fromBlock) / stepBlocks := by omega
    have h3 : (k : Int) * stepBlocks ≤ (toBlock - fromBlock) / stepBlocks * stepBlocks :=
      mul_le_mul_of_nonneg_right hk2 (by omega)
    omega

theorem historicalStepTo_eq (currentBlock stepBlocks toBlock : Int) :
    historicalStepTo currentBlock stepBlocks toBlock =
      min (currentBlock + stepBlocks - 1) toBlock := by
  unfold historicalStepTo
  dsimp only
  split_ifs with h
  · rw [min_eq_right (by omega)]
  · rw [min_eq_left (by omega)]
    omega

theorem Adds_throttle (env : Env) (s : State) :
    Adds Effect.isLogLoopEffect s (throttle env s) := by
  unfold throttle
  split_ifs
  · refine Adds.append _ s _ ?_
    intro e he
    simp only [List.mem_cons, List.mem_singleton, List.not_mem_nil, or_false] at he
    rcases he with h | h <;> rw [h] <;> rfl
  · exact Adds.refl _ s

theorem Adds_handleHistoricalLogs (env : Env) (logs : List Log) (s : State) :
    Adds Effect.isLogLoopEffect s (handleHistoricalLogs env logs s) := by
  induction logs generalizing s with
  | nil => exact Adds.refl _ s
  | cons vLog rest ih =>
    have h1 : Adds Effect.isLogLoopEffect s (handleEventGeneral env vLog s) :=
      Adds.mono (Adds_handleEventGeneral env vLog s)
        (by intro e he; cases e <;> simp_all [Effect.isEventEffect, Effect.isLogLoopEffect])
    exact Adds.trans (Adds.trans h1 (Adds_throttle env _)) (ih _)

theorem processHistoricalEventsLoop_ok (env : Env)
    (hlogs : ∀ query, ∃ logs, env.FilterLogs query = some logs)
    (eventTopics : List (List Hash)) (toBlock : Int) (n : Nat) (currentBlock : Int) (s : State)
    (fuel : Nat) (hstep : 1 ≤ s.stepBlocks)
    (hhi : toBlock < currentBlock + n * s.stepBlocks)
    (hlo : ∀ k : Nat, k < n → currentBlock + k * s.stepBlocks ≤ toBlock) (hfuel : n < fuel) :
    ∃ r, processHistoricalEventsLoop env eventTopics toBlock fuel currentBlock s = some (.ok r) ∧
      r.trace.filter Effect.isFilterLogs =
        s.trace.filter Effect.isFilterLogs ++
          (rangesFrom currentBlock s.stepBlocks toBlock n).map (rangeQuery s eventTopics) := by
  induction n generalizing currentBlock s fuel with
  | zero =>
    obtain ⟨f, rfl⟩ : ∃ f, fuel = f + 1 := ⟨fuel - 1, by omega⟩
    simp only [Nat.cast_zero, zero_mul, add_zero] at hhi
    have hlt : ¬ currentBlock ≤ toBlock := by omega
    exact ⟨s, by simp [processHistoricalEventsLoop, hlt], by simp [rangesFrom]⟩
  | succ n ih =>
    obtain ⟨f, rfl⟩ : ∃ f, fuel = f + 1 := ⟨fuel - 1, by omega⟩
    have hle : currentBlock ≤ toBlock := by
      have := hlo 0 (by omega)
      simpa using this
    obtain ⟨logs, hq⟩ := hlogs (historicalQuery eventTopics toBlock currentBlock s)
    have hadds := Adds_handleHistoricalLogs env logs
      { s with trace := s.trace ++
          [Effect.rpcFilterLogs (historicalQuery eventTopics toBlock currentBlock s)] }
    have hstepEq := hadds.stepBlocks
    have hoptEq := hadds.Options
    have hhi2 : toBlock < currentBlock + s.stepBlocks + n * s.stepBlocks := by
      have : ((n + 1 : Nat) : Int) * s.stepBlocks = n * s.stepBlocks + s.stepBlocks := by
        push_cast
        ring
      omega
    have hlo2 : ∀ k : Nat, k < n → currentBlock + s.stepBlocks + k * s.stepBlocks ≤ toBlock := by
      intro k hk
      have h := hlo (k + 1) (by omega)
      have : ((k + 1 : Nat) : Int) * s.stepBlocks = k * s.stepBlocks + s.stepBlocks := by
        push_cast
        ring
      omega
    obtain ⟨r, hr, hf⟩ := ih (currentBlock + s.stepBlocks) _ f
      (by rw [hstepEq]; exact hstep) (by rw [hstepEq]; exact hhi2)
      (by rw [hstepEq]; exact hlo2) (by omega)
    refine ⟨r, ?_, ?_⟩
    · simp only [processHistoricalEventsLoop, hle, if_true, hq]
      exact hr
    · rw [hf, hadds.filter_eq Effect.isFilterLogs
        (by intro e he; cases e <;> simp_all [Effect.isLogLoopEffect, Effect.isFilterLogs])]
      rw [hstepEq]
      simp only [List.filter_append, rangesFrom, List.map_cons, List.append_assoc]
      congr 1
      have hquery : rangeQuery s eventTopics
          (currentBlock, min (currentBlock + s.stepBlocks - 1) toBlock) =
          Effect.rpcFilterLogs (historicalQuery eventTopics toBlock currentBlock s) := by
        simp [rangeQuery, historicalQuery, historicalStepTo_eq]
      have hmap : ∀ l : List (Int × Int),
          l.map (rangeQuery (handleHistoricalLogs env logs
            { s with trace := s.trace ++
              [Effect.rpcFilterLogs (historicalQuery eventTopics toBlock currentBlock s)] })
            eventTopics) = l.map (rangeQuery s eventTopics) := by
        intro l
        apply List.map_congr_left
        intro range _
        simp only [rangeQuery, hoptEq]
      rw [hmap, hquery]
      simp [Effect.isFilterLogs]

/-! ## The throttle of the historical event loop -/

theorem handleHistoricalLogs_append (env : Env) (pre post : List Log) (s : State) :
    handleHistoricalLogs env (pre ++ post) s =
      handleHistoricalLogs env post (handleHistoricalLogs env pre s) := by
  induction pre generalizing s with
  | nil => rfl
  | cons vLog rest ih => simp [handleHistoricalLogs, ih]

theorem handleHistoricalLogs_trace (env : Env) (logs : List Log) (s : State) :
    ∃ t, (handleHistoricalLogs env logs s).trace = s.trace ++ t := by
  obtain ⟨_, t, ht, _⟩ := Adds_handleHistoricalLogs env logs s
  exact ⟨t, ht⟩

theorem processHistoricalEventsLoop_trace (env : Env) (eventTopics : List (List Hash))
    (toBlock : Int) (fuel : Nat) (currentBlock : Int) (s : State) (o : Outcome State)
    (hrun : processHistoricalEventsLoop env eventTopics toBlock fuel currentBlock s = some o) :
    ∃ t, o.state.trace = s.trace ++ t := by
  induction fuel generalizing currentBlock s with
  | zero => simp [processHistoricalEventsLoop] at hrun
  | succ f ih =>
    unfold processHistoricalEventsLoop at hrun
    split_ifs at hrun with hle
    · dsimp only at hrun
      split at hrun
      · simp only [Option.some.injEq] at hrun
        rw [← hrun]
        exact ⟨_, rfl⟩
      · obtain ⟨t, ht⟩ := ih _ _ hrun
        obtain ⟨t2, ht2⟩ := handleHistoricalLogs_trace env _
          { s with trace := s.trace ++
            [Effect.rpcFilterLogs (historicalQuery eventTopics toBlock currentBlock s)] }
        rw [ht2] at ht
        exact ⟨[Effect.rpcFilterLogs (historicalQuery eventTopics toBlock currentBlock s)]
          ++ (t2 ++ t), by rw [ht]; simp only [List.append_assoc]⟩
    · simp only [Option.some.injEq] at hrun
      rw [← hrun]
      exact ⟨[], by simp [Outcome.state]⟩

/-! ## The batched loop -/

theorem blockWaitGroupWait_BlockWaitGroup (s : State) :
    (blockWaitGroupWait s).state.BlockWaitGroup = s.BlockWaitGroup := by
  unfold blockWaitGroupWait
  split_ifs <;> rfl

theorem handleBlock_BlockWaitGroup (env : Env) (block : Block) (s : State) :
    (handleBlock env block s).state.BlockWaitGroup = s.BlockWaitGroup := by
  have hbody := (Adds_handleBlockBody env block s).BlockWaitGroup
  unfold handleBlock
  cases hb : handleBlockBody env block s with
  | ok s1 =>
    rw [hb] at hbody
    simp only [Outcome.andThen]
    rw [blockWaitGroupWait_BlockWaitGroup]
    exact hbody
  | fatal a s1 =>
    rw [hb] at hbody
    exact hbody

theorem processBlockByNumber_BlockWaitGroup (env : Env) (currentBlock : Int) (s : State) :
    (processBlockByNumber env currentBlock s).state.BlockWaitGroup = s.BlockWaitGroup := by
  unfold processBlockByNumber
  dsimp only
  split
  · rfl
  · exact handleBlock_BlockWaitGroup env _ _

theorem batchWait_BlockWaitGroup (currentBlock : Int) (s : State) :
    (batchWait currentBlock s).state.BlockWaitGroup = s.BlockWaitGroup := by
  unfold batchWait
  split_ifs
  · exact blockWaitGroupWait_BlockWaitGroup s
  · rfl

/-- Each iteration of the batched loop leaves the counter of `shared.BlockWaitGroup` one
higher than it found it, whatever the block task does, and at a multiple of the batch size
it does not get past the wait. -/
theorem batchStep_counter (env : Env) (currentBlock : Int) (s : State) :
    (batchStep env currentBlock s).state.BlockWaitGroup = s.BlockWaitGroup + 1 ∧
      (currentBlock % batchCount = 0 → ∀ r, batchStep env currentBlock s ≠ .ok r) := by
  have hproc := processBlockByNumber_BlockWaitGroup env currentBlock
    { s with BlockWaitGroup := s.BlockWaitGroup + 1 }
  have hwait : ∀ s2 : State, s2.BlockWaitGroup = s.BlockWaitGroup + 1 →
      (batchWait currentBlock s2).state.BlockWaitGroup = s.BlockWaitGroup + 1 ∧
        (currentBlock % batchCount = 0 → ∀ r, batchWait currentBlock s2 ≠ .ok r) := by
    intro s2 h2
    refine ⟨(batchWait_BlockWaitGroup currentBlock s2).trans h2, ?_⟩
    intro hmul r
    have hne : ¬ s2.BlockWaitGroup = 0 := by omega
    simp [batchWait, hmul, blockWaitGroupWait, hne]
  unfold batchStep
  dsimp only
  cases hp : processBlockByNumber env currentBlock
      { s with BlockWaitGroup := s.BlockWaitGroup + 1 } with
  | ok s2 =>
    rw [hp] at hproc
    exact hwait s2 hproc
  | fatal a s2 =>
    rw [hp] at hproc
    dsimp only
    split_ifs
    · exact hwait s2 hproc
    · exact ⟨hproc, fun _ r => by simp⟩

/-! ## Outside the handoff only the trace moves -/

theorem TraceGrows.same (s : State) : TraceGrows s s :=
  ⟨[], by simp⟩

theorem TraceGrows.chain {s s1 s2 : State} (h1 : TraceGrows s s1) (h2 : TraceGrows s1 s2) :
    TraceGrows s s2 := by
  obtain ⟨t1, rfl⟩ := h1
  obtain ⟨t2, rfl⟩ := h2
  exact ⟨t1 ++ t2, by simp⟩

theorem TraceGrows.extend (s : State) (t : List Effect) :
    TraceGrows s { s with trace := s.trace ++ t } :=
  ⟨t, rfl⟩

theorem TraceGrows.SwitchingToRealtime {s s1 : State} (h : TraceGrows s s1) :
    s1.SwitchingToRealtime = s.SwitchingToRealtime := by
  obtain ⟨t, rfl⟩ := h
  rfl

theorem TraceGrows.AlreadyProcessed {s s1 : State} (h : TraceGrows s s1) :
    s1.AlreadyProcessed = s.AlreadyProcessed := by
  obtain ⟨t, rfl⟩ := h
  rfl

theorem TraceGrows.DupeDetected {s s1 : State} (h : TraceGrows s s1) :
    s1.DupeDetected = s.DupeDetected := by
  obtain ⟨t, rfl⟩ := h
  rfl

theorem TraceGrows.bind {s : State} {o : Outcome State} {k : State → Outcome State}
    (ho : TraceGrows s o.state) (hk : ∀ s1, TraceGrows s s1 → TraceGrows s1 (k s1).state) :
    TraceGrows s (o.andThen k).state := by
  cases o with
  | ok s1 => exact ho.chain (hk s1 ho)
  | fatal a s1 => exact ho

theorem TraceGrows_doEventPostProcessing (env : Env) (vLog : Log) (s : State) :
    TraceGrows s (doEventPostProcessing env vLog s) :=
  ⟨_, doEventPostProcessing_eq env vLog s⟩

theorem handleEventGeneral_of_not_switching (env : Env) (vLog : Log) (s : State)
    (hswitch : s.SwitchingToRealtime = false) :
    handleEventGeneral env vLog s = doEventPostProcessing env vLog s := by
  simp [handleEventGeneral, hswitch]

theorem TraceGrows_handleEvents (env : Env) (logs : List Log) (s : State)
    (hswitch : s.SwitchingToRealtime = false) :
    TraceGrows s (handleEvents env logs s) ∧
      dispatched (handleEvents env logs s) = dispatched s ++ logs := by
  induction logs generalizing s with
  | nil => exact ⟨TraceGrows.same s, by simp [handleEvents]⟩
  | cons vLog logs ih =>
    have hstep : handleEvents env (vLog :: logs) s =
        handleEvents env logs (doEventPostProcessing env vLog s) := by
      simp [handleEvents, handleEventGeneral_of_not_switching env vLog s hswitch]
    have h1 := TraceGrows_doEventPostProcessing env vLog s
    have h2 := ih (doEventPostProcessing env vLog s) (by rw [h1.SwitchingToRealtime, hswitch])
    rw [hstep]
    exact ⟨h1.chain h2.1, by rw [h2.2, dispatched_doEventPostProcessing]; simp⟩

theorem TraceGrows_handleEventsFromBlock (env : Env) (block : Block) (contracts : List Address)
    (s : State) (hswitch : s.SwitchingToRealtime = false) :
    TraceGrows s (handleEventsFromBlock env block contracts s).state := by
  unfold handleEventsFromBlock
  dsimp only
  split
  · exact TraceGrows.extend s _
  · rename_i logs _
    exact (TraceGrows.extend s _).chain
      (TraceGrows_handleEvents env logs { s with trace := s.trace ++ _ } hswitch).1

theorem TraceGrows_doTxPostProcessingOne (env : Env) (block : Block) (tx : Transaction)
    (s : State) : TraceGrows s (doTxPostProcessingOne env block tx s).state := by
  unfold doTxPostProcessingOne
  dsimp only
  split
  · exact TraceGrows.same s
  · split
    · exact TraceGrows.extend s _
    · split
      · split
        · exact TraceGrows.extend s _
        · exact TraceGrows.same s
      · exact TraceGrows.same s

theorem TraceGrows_doTxPostProcessingLoop (env : Env) (block : Block) (txs : List Transaction)
    (s : State) : TraceGrows s (doTxPostProcessingLoop env block txs s).state := by
  induction txs generalizing s with
  | nil => exact TraceGrows.same s
  | cons tx txs ih =>
    exact TraceGrows.bind (TraceGrows_doTxPostProcessingOne env block tx s)
      (fun s1 _ => ih s1)

theorem TraceGrows_handleBlock (env : Env) (block : Block) (s : State)
    (hswitch : s.SwitchingToRealtime = false) :
    TraceGrows s (handleBlock env block s).state := by
  unfold handleBlock
  refine TraceGrows.bind ?_ ?_
  · unfold handleBlockBody
    dsimp only
    have h0 : TraceGrows s
        (doBlocksPostProcessing { Block := block }
          { s with trace := s.trace ++ [Effect.handleBlock block] }) :=
      (TraceGrows.extend s _).chain (TraceGrows.extend _ _)
    refine TraceGrows.bind ?_ ?_
    · split_ifs
      · exact h0
      · exact h0.chain (TraceGrows_handleEventsFromBlock env block _ _
          (by rw [h0.SwitchingToRealtime, hswitch]))
    · intro s2 _
      split_ifs
      · exact TraceGrows.same s2
      · exact TraceGrows_doTxPostProcessingLoop env block _ s2
  · intro s1 _
    unfold blockWaitGroupWait
    split_ifs
    · exact TraceGrows.extend s1 _
    · exact TraceGrows.same s1

theorem TraceGrows_fetchAndHandleBlock (env : Env) (header : Header) (s : State)
    (hswitch : s.SwitchingToRealtime = false) :
    TraceGrows s (fetchAndHandleBlock env header s).state := by
  have hafter : ∀ (t : List Effect) (block : Block),
      TraceGrows s (handleBlock env block { s with trace := s.trace ++ t }).state :=
    fun t block => (TraceGrows.extend s t).chain
      (TraceGrows_handleBlock env block { s with trace := s.trace ++ t } hswitch)
  unfold fetchAndHandleBlock
  dsimp only
  split_ifs
  · split
    · exact hafter _ _
    · exact TraceGrows.extend s _
    · exact TraceGrows.extend s _
  · split
    · exact hafter _ _
    · split
      · have h := hafter [Effect.rpcBlockByHash header.Hash,
          Effect.rpcBlockByNumber header.Number]
        simpa using h _
      · exact ⟨[Effect.rpcBlockByHash header.Hash, Effect.rpcBlockByNumber header.Number],
          by simp [Outcome.state]⟩

/-! ## The range loop with a step that does not advance -/

theorem processHistoricalEventsLoop_still_running (env : Env)
    (hlogs : ∀ query, ∃ logs, env.FilterLogs query = some logs)
    (eventTopics : List (List Hash)) (toBlock : Int) (fuel : Nat) (currentBlock : Int)
    (s : State) (hstep : s.stepBlocks ≤ 0) (hle : currentBlock ≤ toBlock) :
    processHistoricalEventsLoop env eventTopics toBlock fuel currentBlock s = none := by
  induction fuel generalizing currentBlock s with
  | zero => rfl
  | succ fuel ih =>
    obtain ⟨logs, hq⟩ := hlogs (historicalQuery eventTopics toBlock currentBlock s)
    have hadds := Adds_handleHistoricalLogs env logs
      { s with trace := s.trace ++
          [Effect.rpcFilterLogs (historicalQuery eventTopics toBlock currentBlock s)] }
    have hstepEq := hadds.stepBlocks
    simp only [processHistoricalEventsLoop, hle, if_true, hq]
    exact ih (currentBlock + s.stepBlocks) _ (by rw [hstepEq]; exact hstep) (by omega)

theorem processHistoricalEventsLoop_needs_fuel (env : Env)
    (hlogs : ∀ query, ∃ logs, env.FilterLogs query = some logs)
    (eventTopics : List (List Hash)) (toBlock : Int) (n : Nat) (currentBlock : Int) (s : State)
    (fuel : Nat) (hstep : 1 ≤ s.stepBlocks)
    (hlo : ∀ k : Nat, k < n → currentBlock + k * s.stepBlocks ≤ toBlock) (hfuel : fuel ≤ n) :
    processHistoricalEventsLoop env eventTopics toBlock fuel currentBlock s = none := by
  induction fuel generalizing currentBlock s n with
  | zero => rfl
  | succ fuel ih =>
    obtain ⟨m, rfl⟩ : ∃ m, n = m + 1 := ⟨n - 1, by omega⟩
    have hle : currentBlock ≤ toBlock := by
      have := hlo 0 (by omega)
      simpa using this
    obtain ⟨logs, hq⟩ := hlogs (historicalQuery eventTopics toBlock currentBlock s)
    have hadds := Adds_handleHistoricalLogs env logs
      { s with trace := s.trace ++
          [Effect.rpcFilterLogs (historicalQuery eventTopics toBlock currentBlock s)] }
    have hstepEq := hadds.stepBlocks
    have hlo2 : ∀ k : Nat, k < m → currentBlock + s.stepBlocks + k * s.stepBlocks ≤ toBlock := by
      intro k hk
      have h := hlo (k + 1) (by omega)
      have : ((k + 1 : Nat) : Int) * s.stepBlocks = k * s.stepBlocks + s.stepBlocks := by
        push_cast
        ring
      omega
    simp only [processHistoricalEventsLoop, hle, if_true, hq]
    exact ih m (currentBlock + s.stepBlocks) _ (by rw [hstepEq]; exact hstep)
      (by rw [hstepEq]; exact hlo2) (by omega)

theorem ceil_div_eq (d step : Int) (hstep : 1 ≤ step) :
    ⌈((d + 1 : Int) : ℚ) / (step : ℚ)⌉ = d / step + 1 := by
  have hpos : (0 : ℚ) < (step : ℚ) := by exact_mod_cast (by omega : (0 : Int) < step)
  rw [Int.ceil_eq_iff]
  have h1 : d / step * step ≤ d := Int.ediv_mul_le d (by omega)
  have h2 : d < (d / step + 1) * step := Int.lt_ediv_add_one_mul_self d (by omega)
  constructor
  · rw [lt_div_iff₀ hpos]
    have : (d / step + 1 - 1) * step < d + 1 := by
      have : (d / step + 1 - 1) * step = d / step * step := by ring
      omega
    exact_mod_cast this
  · rw [div_le_iff₀ hpos]
    have : d + 1 ≤ (d / step + 1) * step := by omega
    exact_mod_cast this

theorem processHistoricalEventsLoop_more_fuel (env : Env) (eventTopics : List (List Hash))
    (toBlock : Int) (fuel extra : Nat) (currentBlock : Int) (s : State) (o : Outcome State)
    (hrun : processHistoricalEventsLoop env eventTopics toBlock fuel currentBlock s = some o) :
    processHistoricalEventsLoop env eventTopics toBlock (fuel + extra) currentBlock s =
      some o := by
  induction fuel generalizing currentBlock s with
  | zero => simp [processHistoricalEventsLoop] at hrun
  | succ fuel ih =>
    have hfuel : fuel + 1 + extra = (fuel + extra) + 1 := by omega
    rw [hfuel]
    simp only [processHistoricalEventsLoop] at hrun ⊢
    split_ifs at hrun ⊢ with hle
    · cases hq : env.FilterLogs (historicalQuery eventTopics toBlock currentBlock s) with
      | none =>
        rw [hq] at hrun
        simpa using hrun
      | some logs =>
        rw [hq] at hrun
        exact ih _ _ hrun
    · exact hrun

theorem rangesFrom_length (currentBlock stepBlocks toBlock : Int) (n : Nat) :
    (rangesFrom currentBlock stepBlocks toBlock n).length = n := by
  rw [rangesFrom_eq_map]
  simp

/-! ## The admission counter -/

theorem wrapSigned_of_range (bits : Nat) (x : Int) (hbits : 0 < bits)
    (hlo : -(2 : Int) ^ (bits - 1) ≤ x) (hhi : x < (2 : Int) ^ (bits - 1)) :
    wrapSigned bits x = x := by
  unfold wrapSigned
  have hpow : (2 : Int) ^ bits = 2 * 2 ^ (bits - 1) := by
    obtain ⟨b, rfl⟩ : ∃ b, bits = b + 1 := ⟨bits - 1, by omega⟩
    simp [pow_succ, mul_comm]
  rw [hpow, Int.emod_eq_of_lt (by omega) (by omega)]
  omega

theorem sumOfDeltas_append (pre post : List WaitGroupCall) :
    sumOfDeltas (pre ++ post) = sumOfDeltas pre + sumOfDeltas post := by
  induction pre with
  | nil => simp [sumOfDeltas]
  | cons call pre ih =>
    cases call with
    | add delta => simp [sumOfDeltas, ih, add_assoc]
    | done => simp [sumOfDeltas, ih]

theorem doneCalls_append (pre post : List WaitGroupCall) :
    doneCalls (pre ++ post) = doneCalls pre + doneCalls post := by
  induction pre with
  | nil => simp [doneCalls]
  | cons call pre ih =>
    cases call with
    | add delta => simp [doneCalls, ih]
    | done => simp [doneCalls, ih, add_assoc]

theorem runWaitGroupCalls_in_range (calls : List WaitGroupCall) (wg : WaitGroupCount)
    (hsame : wg.waitGroup = wg.count)
    (hrange : ∀ k, k ≤ calls.length →
      0 ≤ wg.count + (sumOfDeltas (calls.take k) - doneCalls (calls.take k)) ∧
        wg.count + (sumOfDeltas (calls.take k) - doneCalls (calls.take k)) < 2 ^ 31) :
    runWaitGroupCalls calls wg =
      .ok { count := wg.count + (sumOfDeltas calls - doneCalls calls),
            waitGroup := wg.count + (sumOfDeltas calls - doneCalls calls) } := by
  induction calls generalizing wg with
  | nil =>
    simp [runWaitGroupCalls, sumOfDeltas, doneCalls]
    cases wg
    simp_all
  | cons call calls ih =>
    have hone := hrange 1 (by simp)
    have hnext : ∀ d : Int, sumOfDeltas [call] - doneCalls [call] = d →
        call.run wg = .ok { count := wg.count + d, waitGroup := wg.count + d } := by
      intro d hd
      rw [List.take_succ_cons, List.take_zero, hd] at hone
      have h64 : wrapSigned 64 (wg.count + d) = wg.count + d :=
        wrapSigned_of_range 64 _ (by decide) (by norm_num; omega) (by norm_num; omega)
      have h32 : wrapSigned 32 (wg.count + d) = wg.count + d :=
        wrapSigned_of_range 32 _ (by decide) (by norm_num; omega) (by norm_num; omega)
      cases call with
      | add delta =>
        have hdelta : d = delta := by simpa [sumOfDeltas, doneCalls] using hd.symm
        subst hdelta
        simp [WaitGroupCall.run, WaitGroupCount.Add, waitGroupAdd, hsame, h64, h32]
        omega
      | done =>
        have hdelta : d = -1 := by simpa [sumOfDeltas, doneCalls] using hd.symm
        subst hdelta
        simp [WaitGroupCall.run, WaitGroupCount.Done, waitGroupAdd, hsame, h64, h32]
        omega
    have hsplit : ∀ l : List WaitGroupCall,
        sumOfDeltas (call :: l) - doneCalls (call :: l) =
          (sumOfDeltas [call] - doneCalls [call]) + (sumOfDeltas l - doneCalls l) := by
      intro l
      have h1 := sumOfDeltas_append [call] l
      have h2 := doneCalls_append [call] l
      simp only [List.singleton_append] at h1 h2
      omega
    rw [List.take_succ_cons, List.take_zero] at hone
    have hrun := hnext _ rfl
    have hih := ih
      { count := wg.count + (sumOfDeltas [call] - doneCalls [call]),
        waitGroup := wg.count + (sumOfDeltas [call] - doneCalls [call]) } rfl
      (by
        intro k hk
        have h := hrange (k + 1) (by simp; omega)
        rw [List.take_succ_cons, hsplit] at h
        dsimp only
        omega)
    simp only [runWaitGroupCalls, hrun, Outcome.andThen]
    rw [hih]
    have h := hsplit calls
    dsimp only
    simp only [Outcome.ok.injEq, WaitGroupCount.mk.injEq]
    omega

/-- Below the range of `runWaitGroupCalls_in_range`: a `Done` that nothing preceded
drives the counter of the wait group to -1, which is a panic. -/
theorem done_on_idle_group_panics :
    runWaitGroupCalls [.done] { count := 0, waitGroup := 0 } =
      .fatal .negativeWaitGroupCounter { count := -1, waitGroup := -1 } := by
  decide

/-! ## Decimal digits -/

theorem toDigitsCore_append (fuel n : Nat) (ds : List Char) :
    Nat.toDigitsCore 10 fuel n ds = Nat.toDigitsCore 10 fuel n [] ++ ds := by
  induction fuel generalizing n ds with
  | zero => simp [Nat.toDigitsCore]
  | succ fuel ih =>
    simp only [Nat.toDigitsCore]
    split_ifs
    · simp
    · rw [ih (n / 10) (Nat.digitChar (n % 10) :: ds), ih (n / 10) [Nat.digitChar (n % 10)]]
      simp

theorem toDigitsCore_fuel (fuel fuel2 n : Nat) (h : n < fuel) (h2 : n < fuel2) :
    Nat.toDigitsCore 10 fuel n [] = Nat.toDigitsCore 10 fuel2 n [] := by
  induction fuel generalizing n fuel2 with
  | zero => omega
  | succ fuel ih =>
    obtain ⟨f2, rfl⟩ : ∃ f2, fuel2 = f2 + 1 := ⟨fuel2 - 1, by omega⟩
    simp only [Nat.toDigitsCore]
    split_ifs with hz
    · rfl
    · rw [toDigitsCore_append fuel, toDigitsCore_append f2]
      congr 1
      exact ih f2 (n / 10) (by omega) (by omega)

theorem toDigits_of_lt (n : Nat) (h : n < 10) : Nat.toDigits 10 n = [Nat.digitChar n] := by
  have hz : n / 10 = 0 := by omega
  have hm : n % 10 = n := by omega
  simp [Nat.toDigits, Nat.toDigitsCore, hz, hm]

theorem toDigits_of_ge (n : Nat) (h : 10 ≤ n) :
    Nat.toDigits 10 n = Nat.toDigits 10 (n / 10) ++ [Nat.digitChar (n % 10)] := by
  have hz : ¬ n / 10 = 0 := by omega
  simp only [Nat.toDigits, Nat.toDigitsCore, hz, if_false]
  rw [toDigitsCore_append]
  congr 1
  exact toDigitsCore_fuel n (n / 10 + 1) (n / 10) (by omega) (by omega)

theorem toDigits_length_pos (n : Nat) : 0 < (Nat.toDigits 10 n).length := by
  by_cases h : n < 10
  · simp [toDigits_of_lt n h]
  · simp [toDigits_of_ge n (by omega)]

theorem fixedDigits_length (width n : Nat) : (fixedDigits width n).length = width := by
  induction width generalizing n with
  | zero => rfl
  | succ width ih => simp [fixedDigits, ih]

theorem fixedDigits_zero (width : Nat) : fixedDigits width 0 = List.replicate width '0' := by
  induction width with
  | zero => rfl
  | succ width ih =>
    simp only [fixedDigits, Nat.zero_div, Nat.zero_mod, ih]
    rw [List.replicate_succ']
    rfl

theorem fixedDigits_split (high low n : Nat) :
    fixedDigits (high + low) n = fixedDigits high (n / 10 ^ low) ++ fixedDigits low n := by
  induction low generalizing n with
  | zero => simp [fixedDigits]
  | succ low ih =>
    have hdiv : n / 10 / 10 ^ low = n / 10 ^ (low + 1) := by
      rw [Nat.div_div_eq_div_mul, pow_succ, mul_comm]
    rw [← Nat.add_assoc]
    simp only [fixedDigits]
    rw [ih (n / 10), hdiv, List.append_assoc]

theorem toDigits_split (k n : Nat) (h : 10 ^ k ≤ n) :
    Nat.toDigits 10 n = Nat.toDigits 10 (n / 10 ^ k) ++ fixedDigits k n := by
  induction k generalizing n with
  | zero => simp [fixedDigits]
  | succ k ih =>
    have hpow : 10 ^ (k + 1) = 10 * 10 ^ k := by rw [pow_succ, mul_comm]
    have hk : 1 ≤ 10 ^ k := Nat.one_le_pow _ _ (by decide)
    have hten : 10 ≤ n := by omega
    have hle : 10 ^ k ≤ n / 10 := by
      rw [Nat.le_div_iff_mul_le (by decide)]
      omega
    have hdiv : n / 10 / 10 ^ k = n / 10 ^ (k + 1) := by
      rw [Nat.div_div_eq_div_mul, hpow]
    rw [toDigits_of_ge n hten, ih (n / 10) hle, hdiv]
    simp [fixedDigits]

theorem toDigits_length_le (k n : Nat) (hk : 0 < k) (h : n < 10 ^ k) :
    (Nat.toDigits 10 n).length ≤ k := by
  induction k generalizing n with
  | zero => omega
  | succ k ih =>
    by_cases hten : n < 10
    · simp [toDigits_of_lt n hten]
    · have hpow : 10 ^ (k + 1) = 10 * 10 ^ k := by rw [pow_succ, mul_comm]
      have hlt : n / 10 < 10 ^ k := by
        rw [Nat.div_lt_iff_lt_mul (by decide)]
        omega
      have hkpos : 0 < k := by
        rcases Nat.eq_zero_or_pos k with hz | hp
        · subst hz
          simp at hlt
          omega
        · exact hp
      have := ih (n / 10) hkpos hlt
      rw [toDigits_of_ge n (by omega)]
      simp
      omega

theorem fixedDigits_eq_padded (k n : Nat) (hn : 0 < n) (h : n < 10 ^ k) :
    fixedDigits k n =
      List.replicate (k - (Nat.toDigits 10 n).length) '0' ++ Nat.toDigits 10 n := by
  induction k generalizing n with
  | zero =>
    simp at h
    omega
  | succ k ih =>
    by_cases hten : n < 10
    · have hz : n / 10 = 0 := by omega
      have hm : n % 10 = n := by omega
      simp [fixedDigits, hz, hm, fixedDigits_zero, toDigits_of_lt n hten]
    · have hpow : 10 ^ (k + 1) = 10 * 10 ^ k := by rw [pow_succ, mul_comm]
      have hlt : n / 10 < 10 ^ k := by
        rw [Nat.div_lt_iff_lt_mul (by decide)]
        omega
      have hih := ih (n / 10) (by omega) hlt
      rw [toDigits_of_ge n (by omega)]
      simp only [fixedDigits, hih, List.length_append, List.length_singleton,
        Nat.add_sub_add_right, List.append_assoc]

/-! ## The ledger holds the latest log of each transaction -/

theorem handleEventGeneral_records (env : Env) (vLog : Log) (s : State)
    (hswitch : s.SwitchingToRealtime = true) :
    (handleEventGeneral env vLog s).SwitchingToRealtime = true ∧
      ∃ entity, (handleEventGeneral env vLog s).AlreadyProcessed.get? vLog.TxHash =
          some entity ∧ entity.EventIndex = vLog.Index := by
  have hfresh : (doEventPostProcessing env vLog
        { s with AlreadyProcessed :=
            s.AlreadyProcessed.set vLog.TxHash (eventRecord vLog) }).SwitchingToRealtime = true ∧
      ∃ entity, (doEventPostProcessing env vLog
        { s with AlreadyProcessed :=
            s.AlreadyProcessed.set vLog.TxHash (eventRecord vLog) }).AlreadyProcessed.get?
          vLog.TxHash = some entity ∧ entity.EventIndex = vLog.Index := by
    rw [doEventPostProcessing_SwitchingToRealtime, doEventPostProcessing_AlreadyProcessed]
    exact ⟨hswitch, eventRecord vLog, GoMap.get?_set_self _ _ _, rfl⟩
  cases hget : s.AlreadyProcessed.get? vLog.TxHash with
  | none =>
    rw [handleEventGeneral_fresh env vLog s hswitch (by intro entity h; rw [hget] at h; cases h)]
    exact hfresh
  | some entity =>
    by_cases hindex : vLog.Index = entity.EventIndex
    · rw [handleEventGeneral_duplicate env vLog s entity hswitch hget hindex]
      exact ⟨hswitch, entity, hget, hindex.symm⟩
    · rw [handleEventGeneral_fresh env vLog s hswitch
        (by intro e h; rw [hget] at h; cases h; exact hindex)]
      exact hfresh

theorem handleEventGeneral_keeps_record (env : Env) (vLog : Log) (s : State) (txHash : Hash)
    (index : Nat) (hswitch : s.SwitchingToRealtime = true)
    (hother : vLog.TxHash = txHash → vLog.Index = index)
    (hrecord : ∃ entity, s.AlreadyProcessed.get? txHash = some entity ∧
      entity.EventIndex = index) :
    (handleEventGeneral env vLog s).SwitchingToRealtime = true ∧
      ∃ entity, (handleEventGeneral env vLog s).AlreadyProcessed.get? txHash = some entity ∧
        entity.EventIndex = index := by
  by_cases hsame : vLog.TxHash = txHash
  · have h := handleEventGeneral_records env vLog s hswitch
    rw [hsame, hother hsame] at h
    exact h
  · have hfresh : (doEventPostProcessing env vLog
          { s with AlreadyProcessed :=
              s.AlreadyProcessed.set vLog.TxHash (eventRecord vLog) }).SwitchingToRealtime =
            true ∧
        ∃ entity, (doEventPostProcessing env vLog
          { s with AlreadyProcessed :=
              s.AlreadyProcessed.set vLog.TxHash (eventRecord vLog) }).AlreadyProcessed.get?
            txHash = some entity ∧ entity.EventIndex = index := by
      rw [doEventPostProcessing_SwitchingToRealtime, doEventPostProcessing_AlreadyProcessed]
      refine ⟨hswitch, ?_⟩
      show ∃ entity, (s.AlreadyProcessed.set vLog.TxHash (eventRecord vLog)).get? txHash =
        some entity ∧ entity.EventIndex = index
      rw [GoMap.get?_set_of_ne _ _ _ _ hsame]
      exact hrecord
    cases hget : s.AlreadyProcessed.get? vLog.TxHash with
    | none =>
      rw [handleEventGeneral_fresh env vLog s hswitch
        (by intro entity h; rw [hget] at h; cases h)]
      exact hfresh
    | some entity =>
      by_cases hindex : vLog.Index = entity.EventIndex
      · rw [handleEventGeneral_duplicate env vLog s entity hswitch hget hindex]
        exact ⟨hswitch, hrecord⟩
      · rw [handleEventGeneral_fresh env vLog s hswitch
          (by intro e h; rw [hget] at h; cases h; exact hindex)]
        exact hfresh

theorem handleEvents_keeps_record (env : Env) (logs : List Log) (s : State) (txHash : Hash)
    (index : Nat) (hswitch : s.SwitchingToRealtime = true)
    (hother : ∀ vLog ∈ logs, vLog.TxHash = txHash → vLog.Index = index)
    (hrecord : ∃ entity, s.AlreadyProcessed.get? txHash = some entity ∧
      entity.EventIndex = index) :
    (handleEvents env logs s).SwitchingToRealtime = true ∧
      ∃ entity, (handleEvents env logs s).AlreadyProcessed.get? txHash = some entity ∧
        entity.EventIndex = index := by
  induction logs generalizing s with
  | nil => exact ⟨hswitch, hrecord⟩
  | cons vLog logs ih =>
    have hstep := handleEventGeneral_keeps_record env vLog s txHash index hswitch
      (hother vLog (by simp)) hrecord
    exact ih (handleEventGeneral env vLog s) hstep.1
      (fun l hl => hother l (by simp [hl])) hstep.2

theorem handleEvents_append (env : Env) (pre post : List Log) (s : State) :
    handleEvents env (pre ++ post) s = handleEvents env post (handleEvents env pre s) := by
  simp [handleEvents, List.foldl_append]

/-! ## Transactions of a block -/

theorem doTxPostProcessingOne_eq (env : Env) (block : Block) (tx : Transaction)
    (sender : Address) (s : State) (hsender : env.GetTxSender tx = some sender) :
    doTxPostProcessingOne env block tx s =
      .ok { s with trace := s.trace ++ txLaunches s.TxAddressToAction block tx sender } := by
  cases hget : s.TxAddressToAction.get? sender with
  | some functions => simp [doTxPostProcessingOne, txLaunches, txHandlers, hsender, hget]
  | none =>
    cases hto : tx.To with
    | none => simp [doTxPostProcessingOne, txLaunches, txHandlers, hsender, hget, hto]
    | some recipient =>
      cases hrec : s.TxAddressToAction.get? recipient with
      | none => simp [doTxPostProcessingOne, txLaunches, txHandlers, hsender, hget, hto, hrec]
      | some functions =>
        simp [doTxPostProcessingOne, txLaunches, txHandlers, hsender, hget, hto, hrec]

theorem doTxPostProcessingLoop_eq (env : Env) (block : Block) (senderOf : Transaction → Address)
    (txs : List Transaction) (s : State)
    (hsenders : ∀ tx ∈ txs, env.GetTxSender tx = some (senderOf tx)) :
    doTxPostProcessingLoop env block txs s =
      .ok { s with trace := s.trace ++
        txs.flatMap (fun tx => txLaunches s.TxAddressToAction block tx (senderOf tx)) } := by
  induction txs generalizing s with
  | nil => simp [doTxPostProcessingLoop]
  | cons tx txs ih =>
    have hone := doTxPostProcessingOne_eq env block tx (senderOf tx) s (hsenders tx (by simp))
    simp only [doTxPostProcessingLoop, hone, Outcome.andThen]
    rw [ih _ (fun t ht => hsenders t (by simp [ht]))]
    simp [List.flatMap_cons]

/-! ## The batched loop never passes a multiple of the batch size -/

theorem processBlocksBatched_ok_of_no_multiple (env : Env) (toBlock : Int) (fuel : Nat)
    (currentBlock : Int) (s r : State)
    (hrun : processBlocksBatched env toBlock fuel currentBlock s = some (.ok r)) :
    ∀ m, currentBlock ≤ m → m ≤ toBlock → m % batchCount ≠ 0 := by
  induction fuel generalizing currentBlock s with
  | zero => simp [processBlocksBatched] at hrun
  | succ fuel ih =>
    intro m hlo hhi
    have hle : currentBlock ≤ toBlock := by omega
    simp only [processBlocksBatched, hle, if_true] at hrun
    cases hstep : batchStep env currentBlock s with
    | fatal a s1 =>
      rw [hstep] at hrun
      simp at hrun
    | ok s1 =>
      rw [hstep] at hrun
      have hcur : currentBlock % batchCount ≠ 0 := by
        intro hzero
        exact (batchStep_counter env currentBlock s).2 hzero s1 hstep
      by_cases hm : m = currentBlock
      · rw [hm]
        exact hcur
      · exact ih (currentBlock + 1) s1 hrun m (by omega) hhi

/-! ## Dispatch on a well-formed schema entry -/

theorem doEventPostProcessingOrPanic_of_wellFormed (env : Env) (vLog : Log) (s : State)
    (hshape : ∀ event, s.EventSigs.get? (vLog.Topics.headD 0) = some event →
      env.SchemaWellFormed event = true) :
    doEventPostProcessingOrPanic env vLog s = .ok (doEventPostProcessing env vLog s) := by
  cases htopics : vLog.Topics with
  | nil => simp [doEventPostProcessingOrPanic, htopics]
  | cons topic0 rest =>
    rw [htopics] at hshape
    cases hget : s.EventSigs.get? topic0 with
    | none => simp [doEventPostProcessingOrPanic, htopics, hget]
    | some event =>
      have h := hshape event (by simpa using hget)
      simp [doEventPostProcessingOrPanic, htopics, hget, h]

theorem FormatDecimals_of_zero (decimals : Nat) : FormatDecimals (some 0) decimals = "0" := by
  simp [FormatDecimals]
  rfl

/-! ## Handler registry: results -/

/-- C1: for each of the five registration operations, registering the same handler a
second time against the same key yields the same state (tables and filter, hence the
handler list of that key in length and content) as registering it once. -/
theorem registration_idempotent (env : Env) (s : State) :
    (∀ sig f, (addEventSigAction env sig f s).andThen (addEventSigAction env sig f) =
        addEventSigAction env sig f s) ∧
    (∀ contractAddress sig f,
      (addAddressEventSigAction env contractAddress sig f s).andThen
          (addAddressEventSigAction env contractAddress sig f) =
        addAddressEventSigAction env contractAddress sig f s) ∧
    (∀ contractAddress f,
      addAddressEventAction contractAddress f (addAddressEventAction contractAddress f s) =
        addAddressEventAction contractAddress f s) ∧
    (∀ address f,
      addTxAddressAction address f (addTxAddressAction address f s) =
        addTxAddressAction address f s) ∧
    (∀ f, addBlockAction f (addBlockAction f s) = addBlockAction f s) :=
  ⟨fun sig f => addEventSigAction_twice env sig f s,
   fun contractAddress sig f => addAddressEventSigAction_twice env contractAddress sig f s,
   fun contractAddress f => addAddressEventAction_twice contractAddress f s,
   fun address f => addTxAddressAction_twice address f s,
   fun f => addBlockAction_twice f s⟩

/-- C2: in every state reached from an empty registry by a sequence of registration
calls (including the state in which a failed call ended the process), no handler
identity occurs twice in the handler list of any key of any of the five tables. -/
theorem reachable_handlers_unique (env : Env) (calls : List RegCall) (s0 : State)
    (hempty : RegistryEmpty s0) : HandlersUnique (runCalls env calls s0).state :=
  HandlersUnique_runCalls env calls s0 (HandlersUnique_of_RegistryEmpty s0 hempty)

/-- Witness for C2 on the three example registrations. -/
theorem reachable_handlers_unique_witness :
    RegistryEmpty exampleState ∧
      HandlersUnique (runCalls exampleEnv exampleCalls exampleState).state :=
  ⟨⟨rfl, rfl, rfl, rfl, rfl⟩,
   reachable_handlers_unique exampleEnv exampleCalls exampleState ⟨rfl, rfl, rfl, rfl, rfl⟩⟩

/-- C3: when the hash of the signature is not a key of the event-schema table,
`addEventSigAction` and `addAddressEventSigAction` end the process, and the state at
that moment is the state they were called in: no table and no filter entry was written. -/
theorem unknown_schema_is_fatal (env : Env) (contractAddress : Address) (sig : String)
    (f : ActionFunc) (s : State)
    (hmissing : s.EventSigs.get? (env.Keccak256Hash sig) = none) :
    addEventSigAction env sig f s = .fatal (.missingEventAbi sig) s ∧
      addAddressEventSigAction env contractAddress sig f s =
        .fatal (.missingEventAbi sig) s := by
  constructor
  · simp [addEventSigAction, hmissing]
  · simp [addAddressEventSigAction, hmissing]

/-- Witness for C3: the signature "ab" hashes to 2, for which no schema is known. -/
theorem unknown_schema_is_fatal_witness :
    exampleState.EventSigs.get? (exampleEnv.Keccak256Hash "ab") = none ∧
      addEventSigAction exampleEnv "ab" exampleHandler exampleState =
        .fatal (.missingEventAbi "ab") exampleState ∧
      addAddressEventSigAction exampleEnv 7 "ab" exampleHandler exampleState =
        .fatal (.missingEventAbi "ab") exampleState :=
  ⟨by decide, unknown_schema_is_fatal exampleEnv 7 "ab" exampleHandler exampleState (by decide)⟩

/-- C5, counterexample: `addAddressEventAction` for contract 7 on a state with an empty
address filter leaves 7 out of `FilterAddresses`. -/
theorem addAddressEventAction_leaves_filter :
    7 ∉ (addAddressEventAction 7 exampleHandler exampleState).Options.FilterAddresses := by
  decide

/-- C5, amended: `addAddressEventSigAction`, when it returns, leaves its contract address
in `FilterAddresses` and the hash of its signature in `FilterEventTopics[0]`;
`addEventSigAction`, when it returns, leaves the hash of its signature in
`FilterEventTopics[0]`; `addAddressEventAction` does not touch the filter. -/
theorem registration_extends_filter (env : Env) (s : State) :
    (∀ contractAddress sig f s1,
      addAddressEventSigAction env contractAddress sig f s = .ok s1 →
        contractAddress ∈ s1.Options.FilterAddresses ∧
          env.Keccak256Hash sig ∈ topicSlot0 s1.Options) ∧
    (∀ sig f s1, addEventSigAction env sig f s = .ok s1 →
        env.Keccak256Hash sig ∈ topicSlot0 s1.Options) ∧
    (∀ contractAddress f, (addAddressEventAction contractAddress f s).Options = s.Options) := by
  refine ⟨?_, ?_, ?_⟩
  · intro contractAddress sig f s1 hrun
    have hA := run_FilterAddresses env (.addressEventSig contractAddress sig f) s s1 hrun
    have hT := run_topicSlot0 env (.addressEventSig contractAddress sig f) s s1 hrun
    rw [hA, hT, mem_addAllAbsent, mem_addAllAbsent]
    simp [RegCall.filterAddresses, RegCall.filterTopics]
  · intro sig f s1 hrun
    have hT := run_topicSlot0 env (.eventSig sig f) s s1 hrun
    rw [hT, mem_addAllAbsent]
    simp [RegCall.filterTopics]
  · intro contractAddress f
    unfold addAddressEventAction
    dsimp only
    split_ifs <;> rfl

/-- Witness for the amended C5: registering contract 7 for the signature "abc". -/
theorem registration_extends_filter_witness :
    ∃ s1, addAddressEventSigAction exampleEnv 7 "abc" exampleHandler exampleState = .ok s1 ∧
      7 ∈ s1.Options.FilterAddresses ∧ exampleEnv.Keccak256Hash "abc" ∈ topicSlot0 s1.Options :=
  ⟨_, rfl, (registration_extends_filter exampleEnv exampleState).1 7 "abc" exampleHandler _ rfl⟩

/-- C6: a registration call keeps `FilterAddresses` and `FilterEventTopics[0]` free of
repeats when they were so before, and the lists before the call are prefixes of the
lists after it: nothing is removed or reordered. -/
theorem filter_grows_without_repeats (env : Env) (c : RegCall) (s : State) :
    (s.Options.FilterAddresses.Nodup →
        (c.run env s).state.Options.FilterAddresses.Nodup) ∧
    ((topicSlot0 s.Options).Nodup → (topicSlot0 (c.run env s).state.Options).Nodup) ∧
    s.Options.FilterAddresses <+: (c.run env s).state.Options.FilterAddresses ∧
    topicSlot0 s.Options <+: topicSlot0 (c.run env s).state.Options := by
  cases hrun : c.run env s with
  | ok s1 =>
    simp only [Outcome.state]
    rw [run_FilterAddresses env c s s1 hrun, run_topicSlot0 env c s s1 hrun]
    exact ⟨addAllAbsent_nodup _ _, addAllAbsent_nodup _ _, addAllAbsent_prefix _ _,
      addAllAbsent_prefix _ _⟩
  | fatal a s1 =>
    simp only [Outcome.state]
    rw [run_fatal_state env c s s1 a hrun]
    exact ⟨id, id, List.prefix_refl _, List.prefix_refl _⟩

/-- Witness for C6: a first registration on the empty filter. -/
theorem filter_grows_without_repeats_witness :
    exampleState.Options.FilterAddresses.Nodup ∧
      ((RegCall.addressEventSig 7 "abc" exampleHandler).run exampleEnv
        exampleState).state.Options.FilterAddresses.Nodup :=
  ⟨by decide,
   (filter_grows_without_repeats exampleEnv (.addressEventSig 7 "abc" exampleHandler)
      exampleState).1 (by decide)⟩

/-! ## Realtime listeners: results -/

/-- C7: with `SwitchingToRealtime` set and an empty ledger, the logs (tx1,0), (tx1,0),
(tx2,0) passed through `handleEventGeneral` in this order reach `doEventPostProcessing`
as the first log followed by the third (the second is dropped; so is the third when tx2
is tx1, being then a repeat as well), so each pair is dispatched exactly once, and
`DupeDetected` is true afterwards. -/
theorem dedup_three_logs (env : Env) (s : State) (tx1 tx2 : Hash) (l1 l2 l3 : Log)
    (hswitch : s.SwitchingToRealtime = true) (hledger : s.AlreadyProcessed = [])
    (h1 : l1.TxHash = tx1 ∧ l1.Index = 0) (h2 : l2.TxHash = tx1 ∧ l2.Index = 0)
    (h3 : l3.TxHash = tx2 ∧ l3.Index = 0) :
    dispatched (handleEvents env [l1, l2, l3] s) =
        dispatched s ++ (if tx1 = tx2 then [l1] else [l1, l3]) ∧
      (handleEvents env [l1, l2, l3] s).DupeDetected = true := by
  obtain ⟨h1t, h1i⟩ := h1
  obtain ⟨h2t, h2i⟩ := h2
  obtain ⟨h3t, h3i⟩ := h3
  have step1 : handleEventGeneral env l1 s =
      doEventPostProcessing env l1
        { s with AlreadyProcessed := s.AlreadyProcessed.set l1.TxHash (eventRecord l1) } :=
    handleEventGeneral_fresh env l1 s hswitch (by simp [hledger, GoMap.get?])
  have hsw1 : (handleEventGeneral env l1 s).SwitchingToRealtime = true := by
    rw [step1, doEventPostProcessing_SwitchingToRealtime]
    exact hswitch
  have hled1 : (handleEventGeneral env l1 s).AlreadyProcessed = [(tx1, eventRecord l1)] := by
    rw [step1, doEventPostProcessing_AlreadyProcessed]
    simp [hledger, GoMap.set, h1t]
  have hdis1 : dispatched (handleEventGeneral env l1 s) = dispatched s ++ [l1] := by
    rw [step1, dispatched_doEventPostProcessing]
    rfl
  simp only [handleEvents, List.foldl_cons, List.foldl_nil]
  generalize handleEventGeneral env l1 s = s1 at hsw1 hled1 hdis1 ⊢
  have step2 : handleEventGeneral env l2 s1 = { s1 with DupeDetected := true } :=
    handleEventGeneral_duplicate env l2 s1 (eventRecord l1) hsw1
      (by simp [hled1, h2t, GoMap.get?]) (by simp [eventRecord, h1i, h2i])
  have hsw2 : (handleEventGeneral env l2 s1).SwitchingToRealtime = true := by
    rw [step2]
    exact hsw1
  have hled2 : (handleEventGeneral env l2 s1).AlreadyProcessed = [(tx1, eventRecord l1)] := by
    rw [step2]
    exact hled1
  have hdis2 : dispatched (handleEventGeneral env l2 s1) = dispatched s ++ [l1] := by
    rw [step2]
    exact hdis1
  have hdup2 : (handleEventGeneral env l2 s1).DupeDetected = true := by
    rw [step2]
  generalize handleEventGeneral env l2 s1 = s2 at hsw2 hled2 hdis2 hdup2 ⊢
  by_cases htx : tx1 = tx2
  · have step3 : handleEventGeneral env l3 s2 = { s2 with DupeDetected := true } :=
      handleEventGeneral_duplicate env l3 s2 (eventRecord l1) hsw2
        (by simp [hled2, h3t, htx, GoMap.get?]) (by simp [eventRecord, h1i, h3i])
    rw [step3]
    simp only [htx, if_true]
    exact ⟨hdis2, trivial⟩
  · have step3 : handleEventGeneral env l3 s2 =
        doEventPostProcessing env l3
          { s2 with AlreadyProcessed := s2.AlreadyProcessed.set l3.TxHash (eventRecord l3) } :=
      handleEventGeneral_fresh env l3 s2 hsw2 (by simp [hled2, h3t, htx, GoMap.get?])
    rw [step3, dispatched_doEventPostProcessing, doEventPostProcessing_DupeDetected]
    simp only [htx, if_false]
    refine ⟨?_, hdup2⟩
    show dispatched s2 ++ [l3] = _
    rw [hdis2]
    simp

/-- Witness for C7 with tx1 = 1 and tx2 = 2. -/
theorem dedup_three_logs_witness :
    dispatched (handleEvents exampleEnv [exampleLog 1 0, exampleLog 1 0, exampleLog 2 0]
        exampleState) = [exampleLog 1 0, exampleLog 2 0] ∧
      (handleEvents exampleEnv [exampleLog 1 0, exampleLog 1 0, exampleLog 2 0]
        exampleState).DupeDetected = true :=
  dedup_three_logs exampleEnv exampleState 1 2 (exampleLog 1 0) (exampleLog 1 0)
    (exampleLog 2 0) rfl rfl ⟨rfl, rfl⟩ ⟨rfl, rfl⟩ ⟨rfl, rfl⟩

/-- C8, counterexample: with `SwitchingToRealtime` set and an empty ledger, the logs (1,0),
(1,1), (1,0) of one transaction are all three handed to `doEventPostProcessing`; the pair
(1,0) is dispatched twice, because the record of transaction 1 holds only the index of its
latest log. -/
theorem repeated_event_dispatched_twice :
    dispatched (handleEvents exampleEnv [exampleLog 1 0, exampleLog 1 1, exampleLog 1 0]
        exampleState) = [exampleLog 1 0, exampleLog 1 1, exampleLog 1 0] ∧
      (handleEvents exampleEnv [exampleLog 1 0, exampleLog 1 1, exampleLog 1 0]
        exampleState).DupeDetected = false := by
  decide

/-- C8 (amended): while `SwitchingToRealtime` is set, the ledger keeps one record per
transaction hash and `handleEventGeneral` suppresses a log exactly when that record holds
the index of the log; otherwise it writes the index of the log over the record and
dispatches the log.  So a log that was passed before is suppressed, and not dispatched
again, when every log of its transaction passed in between has the same index (logs of
other transactions in between do not matter). -/
theorem repeat_suppressed_until_overwritten (env : Env) (s : State) (vLog : Log)
    (mid : List Log) (hswitch : s.SwitchingToRealtime = true)
    (hmid : ∀ l ∈ mid, l.TxHash = vLog.TxHash → l.Index = vLog.Index) :
    (∀ entity, s.AlreadyProcessed.get? vLog.TxHash = some entity →
        vLog.Index = entity.EventIndex →
        handleEventGeneral env vLog s = { s with DupeDetected := true }) ∧
    ((∀ entity, s.AlreadyProcessed.get? vLog.TxHash = some entity →
        vLog.Index ≠ entity.EventIndex) →
      handleEventGeneral env vLog s =
        doEventPostProcessing env vLog
          { s with AlreadyProcessed :=
              s.AlreadyProcessed.set vLog.TxHash (eventRecord vLog) }) ∧
    handleEvents env (vLog :: mid ++ [vLog]) s =
      { handleEvents env (vLog :: mid) s with DupeDetected := true } ∧
    dispatched (handleEvents env (vLog :: mid ++ [vLog]) s) =
      dispatched (handleEvents env (vLog :: mid) s) := by
  have hfirst := handleEventGeneral_records env vLog s hswitch
  have hkept := handleEvents_keeps_record env mid (handleEventGeneral env vLog s) vLog.TxHash
    vLog.Index hfirst.1 hmid hfirst.2
  have hcons : handleEvents env (vLog :: mid) s =
      handleEvents env mid (handleEventGeneral env vLog s) := rfl
  obtain ⟨hsw, entity, hget, hindex⟩ := hkept
  have hlast : handleEvents env (vLog :: mid ++ [vLog]) s =
      { handleEvents env (vLog :: mid) s with DupeDetected := true } := by
    have happ : handleEvents env (vLog :: mid ++ [vLog]) s =
        handleEventGeneral env vLog (handleEvents env (vLog :: mid) s) := by
      rw [show vLog :: mid ++ [vLog] = (vLog :: mid) ++ [vLog] from rfl, handleEvents_append]
      rfl
    rw [happ, hcons]
    exact handleEventGeneral_duplicate env vLog _ entity hsw hget hindex.symm
  refine ⟨fun entity hget hindex => handleEventGeneral_duplicate env vLog s entity hswitch
    hget hindex, fun hfresh => handleEventGeneral_fresh env vLog s hswitch hfresh, hlast, ?_⟩
  rw [hlast]
  rfl

/-- Witness for C8: the log (1,0), then logs of the transactions 2 and 3, then (1,0) again:
the second (1,0) is suppressed. -/
theorem repeat_suppressed_until_overwritten_witness :
    dispatched (handleEvents exampleEnv
        (exampleLog 1 0 :: [exampleLog 2 0, exampleLog 3 5] ++ [exampleLog 1 0])
        exampleState) =
      dispatched (handleEvents exampleEnv (exampleLog 1 0 :: [exampleLog 2 0, exampleLog 3 5])
        exampleState) :=
  (repeat_suppressed_until_overwritten exampleEnv exampleState (exampleLog 1 0)
    [exampleLog 2 0, exampleLog 3 5] rfl (by decide)).2.2.2

/-- C9: with `SwitchingToRealtime` set, `HandleHeader` on a header whose hash is in the
ledger with an equal block number only sets `DupeDetected` (the trace is unchanged: no
block fetch, no handler).  On a header whose hash is not in the ledger, or is in it with
a different block number, it records hash -> block number and runs the fetch-and-handle
part on that state: the first new effect is the block fetch, and the block the fetch
returns is passed to `handleBlock`. -/
theorem HandleHeader_dedup (env : Env) (header : Header) (s : State)
    (hswitch : s.SwitchingToRealtime = true) :
    (∀ entity, s.AlreadyProcessed.get? header.Hash = some entity →
        entity.BlockNumber = some header.Number →
        HandleHeader env header s = .ok { s with DupeDetected := true }) ∧
    ((s.AlreadyProcessed.get? header.Hash = none ∨
        ∃ entity blockNumber, s.AlreadyProcessed.get? header.Hash = some entity ∧
          entity.BlockNumber = some blockNumber ∧ blockNumber ≠ header.Number) →
      HandleHeader env header s =
          fetchAndHandleBlock env header
            { s with AlreadyProcessed :=
                s.AlreadyProcessed.set header.Hash (headerRecord header) } ∧
        ∃ rest, (HandleHeader env header s).state.trace =
          s.trace ++ (if s.Options.IsL2Chain = true
            then Effect.rpcL2BlockByHexNumber header.Number
            else Effect.rpcBlockByHash header.Hash) :: rest) ∧
    (∀ s1 block, s1.Options.IsL2Chain = false →
        (env.BlockByHash header.Hash = some block →
          fetchAndHandleBlock env header s1 =
            handleBlock env block
              { s1 with trace := s1.trace ++ [Effect.rpcBlockByHash header.Hash] }) ∧
        (env.BlockByHash header.Hash = none → env.BlockByNumber header.Number = some block →
          fetchAndHandleBlock env header s1 =
            handleBlock env block
              { s1 with trace := s1.trace ++ [Effect.rpcBlockByHash header.Hash]
                  ++ [Effect.rpcBlockByNumber header.Number] })) ∧
    (∀ s1 block, s1.Options.IsL2Chain = true →
        env.GetL2BlockByHexNumber header.Number = .block block →
        fetchAndHandleBlock env header s1 =
          handleBlock env block
            { s1 with trace := s1.trace ++ [Effect.rpcL2BlockByHexNumber header.Number] }) := by
  refine ⟨?_, ?_, ?_, ?_⟩
  · intro entity hget hnum
    simp [HandleHeader, hswitch, hget, hnum]
  · intro hother
    have heq : HandleHeader env header s =
        fetchAndHandleBlock env header
          { s with AlreadyProcessed :=
              s.AlreadyProcessed.set header.Hash (headerRecord header) } := by
      rcases hother with hnone | ⟨entity, blockNumber, hget, hnum, hne⟩
      · simp [HandleHeader, hswitch, hnone]
      · simp [HandleHeader, hswitch, hget, hnum, hne]
    refine ⟨heq, ?_⟩
    rw [heq]
    exact fetchAndHandleBlock_trace env header _
  · intro s1 block hl2
    constructor
    · intro hhash
      simp [fetchAndHandleBlock, hl2, hhash]
    · intro hhash hnumber
      simp [fetchAndHandleBlock, hl2, hhash, hnumber]
  · intro s1 block hl2 hanswer
    simp [fetchAndHandleBlock, hl2, hanswer]

/-- Witness for C9: a header already recorded with its number is dropped, and the same
header on an empty ledger is recorded and its block is requested by hash. -/
theorem HandleHeader_dedup_witness :
    HandleHeader exampleEnv exampleHeader exampleStateSeenHeader =
        .ok { exampleStateSeenHeader with DupeDetected := true } ∧
      HandleHeader exampleEnv exampleHeader exampleState =
        fetchAndHandleBlock exampleEnv exampleHeader
          { exampleState with AlreadyProcessed := [(50, headerRecord exampleHeader)] } :=
  ⟨(HandleHeader_dedup exampleEnv exampleHeader exampleStateSeenHeader rfl).1
      (headerRecord exampleHeader) rfl rfl,
   ((HandleHeader_dedup exampleEnv exampleHeader exampleState rfl).2.1 (Or.inl rfl)).1⟩

/-- C10: a log marked `removed` that the loop of `ListenToEventsSingle` receives leaves
the whole state as it was (no handler launched, no ledger record, `DupeDetected`
untouched), and the listener behaves on any message sequence as on that sequence with
the removed logs deleted. -/
theorem removed_log_is_dropped (env : Env) (s : State) :
    (∀ vLog, vLog.Removed = true → listenToEventsSingleStep env (.log vLog) s = .ok s) ∧
    (∀ msgs, ListenToEventsSingle env msgs s =
      ListenToEventsSingle env (msgs.filter (fun msg => !msg.isRemovedLog)) s) := by
  constructor
  · intro vLog hremoved
    simp [listenToEventsSingleStep, hremoved]
  · have hloop : ∀ (msgs : List LogsMsg) (st : State),
        listenToEventsSingleLoop env msgs st =
          listenToEventsSingleLoop env (msgs.filter (fun msg => !msg.isRemovedLog)) st := by
      intro msgs
      induction msgs with
      | nil => intro st; rfl
      | cons msg rest ih =>
        intro st
        cases msg with
        | err => simp [List.filter, LogsMsg.isRemovedLog, listenToEventsSingleLoop,
            listenToEventsSingleStep, Outcome.andThen]
        | log vLog =>
          by_cases hremoved : vLog.Removed = true
          · simp [List.filter, LogsMsg.isRemovedLog, listenToEventsSingleLoop,
              listenToEventsSingleStep, Outcome.andThen, hremoved, ih st]
          · simp [List.filter, LogsMsg.isRemovedLog, listenToEventsSingleLoop,
              listenToEventsSingleStep, Outcome.andThen, hremoved,
              ih (handleEventGeneral env vLog st)]
    intro msgs
    exact hloop msgs _

/-- Witness for C10: a removed copy of the example log leaves the example state as it is. -/
theorem removed_log_is_dropped_witness :
    listenToEventsSingleStep exampleEnv (.log { exampleLog 1 0 with Removed := true })
      exampleState = .ok exampleState :=
  (removed_log_is_dropped exampleEnv exampleState).1 { exampleLog 1 0 with Removed := true } rfl

/-! ## Historical backfill and dispatch: results -/

/-- C14: with `BatchFetchBlocks` and `LoopBackwards` both set, `ProcessHistoricalBlocks`
ends the process at once, for every `fromBlock` and `toBlock` (and before any loop
iteration): the state at termination is the state of the call, so no block was fetched and
no handler launched. -/
theorem batched_backwards_is_fatal (env : Env) (fuel : Nat) (fromBlock toBlock : Int)
    (s : State) (hbatch : s.Options.HistoricalOptions.BatchFetchBlocks = true)
    (hback : s.Options.HistoricalOptions.LoopBackwards = true) :
    ProcessHistoricalBlocks env fuel fromBlock toBlock s = some (.fatal .unimplemented s) := by
  simp [ProcessHistoricalBlocks, hbatch, hback]

/-- Witness for C14: blocks 500 down to 480 with both options set. -/
theorem batched_backwards_is_fatal_witness :
    ProcessHistoricalBlocks exampleEnv 0 500 480 exampleBatchedBackwards =
      some (.fatal .unimplemented exampleBatchedBackwards) :=
  batched_backwards_is_fatal exampleEnv 0 500 480 exampleBatchedBackwards rfl rfl

/-- C15, counterexample: handlers are registered for the sender 1 and for the recipient 2
of the example transaction, and `doTxPostProcessing` launches the sender's handler only. -/
theorem recipient_handler_skipped :
    (exampleTxState.TxAddressToAction.get? 2 = some [exampleHandler2]) ∧
      (doTxPostProcessing exampleEnv exampleBlock exampleTxState).state.trace =
        [Effect.spawnTx exampleHandler
          { Transaction := exampleTx, From := 1, To := some 2, Block := exampleBlock }] := by
  decide

/-- C15, amended: when the sender of every transaction of the block resolves,
`doTxPostProcessing` returns having launched, for the transactions of the block in their
order, the handlers of each transaction with the envelope of that transaction, and nothing
else.  The handlers of a transaction are every handler registered for its sender when the
sender has an entry in the table; otherwise, when the transaction has a recipient, every
handler registered for the recipient; otherwise none.  A transaction whose sender and
recipient both have no entry launches none. -/
theorem tx_handlers_sender_else_recipient (env : Env) (block : Block)
    (senderOf : Transaction → Address) (s : State)
    (hsenders : ∀ tx ∈ block.Transactions, env.GetTxSender tx = some (senderOf tx)) :
    doTxPostProcessing env block s =
      .ok { s with trace := s.trace ++ block.Transactions.flatMap (fun tx =>
        (txHandlers s.TxAddressToAction (senderOf tx) tx.To).map (fun f =>
          Effect.spawnTx f
            { Transaction := tx, From := senderOf tx, To := tx.To, Block := block })) } ∧
    (∀ sender recipient functions, s.TxAddressToAction.get? sender = some functions →
      txHandlers s.TxAddressToAction sender recipient = functions) ∧
    (∀ sender recipient, s.TxAddressToAction.get? sender = none →
      txHandlers s.TxAddressToAction sender (some recipient) =
        (s.TxAddressToAction.get? recipient).getD []) ∧
    (∀ sender, s.TxAddressToAction.get? sender = none →
      txHandlers s.TxAddressToAction sender none = []) ∧
    (∀ sender recipient, s.TxAddressToAction.get? sender = none →
      s.TxAddressToAction.get? recipient = none →
      txHandlers s.TxAddressToAction sender (some recipient) = []) := by
  refine ⟨?_, ?_, ?_, ?_, ?_⟩
  · exact doTxPostProcessingLoop_eq env block senderOf block.Transactions s hsenders
  · intro sender recipient functions hget
    simp [txHandlers, hget]
  · intro sender recipient hget
    simp [txHandlers, hget]
  · intro sender hget
    simp [txHandlers, hget]
  · intro sender recipient hget hrec
    simp [txHandlers, hget, hrec]

/-- Witness for the amended C15: a block of three transactions.  The first is sent by
address 1 to address 2 and launches the handler of 1 only; the second is sent by address 3,
which has no handler, to address 2 and launches the handler of 2; the third is sent by
address 4 and has no recipient: it launches nothing. -/
theorem tx_handlers_sender_else_recipient_witness :
    doTxPostProcessing exampleEnv exampleBlock3 exampleTxState =
      .ok { exampleTxState with trace :=
        [Effect.spawnTx exampleHandler
          { Transaction := exampleTx, From := 1, To := some 2, Block := exampleBlock3 },
         Effect.spawnTx exampleHandler2
          { Transaction := exampleTx2, From := 3, To := some 2, Block := exampleBlock3 }] } :=
  ((tx_handlers_sender_else_recipient exampleEnv exampleBlock3 (fun tx => tx.Hash)
    exampleTxState (fun _ _ => rfl)).1).trans (by decide)

/-- C16, counterexample: the first topic of the log has a schema entry that is not of the
shape the decoder asserts.  One handler is registered for the topic, and the call panics
with no handler launched. -/
theorem malformed_schema_entry_panics :
    (((runCalls exampleMalformedEnv exampleCalls exampleState).state.ContractToEventSigToAction.get?
        7).getD []).get? 3 = some [exampleHandler] ∧
      doEventPostProcessingOrPanic exampleMalformedEnv (exampleLog 1 0)
          (runCalls exampleMalformedEnv exampleCalls exampleState).state =
        .fatal .malformedSchema
          { (runCalls exampleMalformedEnv exampleCalls exampleState).state with
            trace := [Effect.postProcessEvent (exampleLog 1 0)] } := by
  decide

/-- C16 (amended): for a log with at least one topic whose schema entry, when there is
one, has the shape the decoder asserts, `doEventPostProcessing` returns having launched
the entries of `EventSigToAction[topic0]`, then those of
`ContractToEventSigToAction[address][topic0]`, then those of
`ContractToEventAction[address]`, one launch per entry, all with the same envelope, and
nothing else; the number of launches is the sum of the three list lengths.  On a schema
entry of another shape the call panics before any launch. -/
theorem event_dispatch_fanout (env : Env) (vLog : Log) (s : State) (topic0 : Hash)
    (rest : List Hash) (htopics : vLog.Topics = topic0 :: rest) :
    ((∀ event, s.EventSigs.get? topic0 = some event → env.SchemaWellFormed event = true) →
      ∃ r, doEventPostProcessingOrPanic env vLog s = .ok r ∧
        r.trace =
          s.trace ++ Effect.postProcessEvent vLog ::
            (((s.EventSigToAction.get? topic0).getD []
              ++ (((s.ContractToEventSigToAction.get? vLog.Address).getD []).get?
                  topic0).getD []
              ++ (s.ContractToEventAction.get? vLog.Address).getD []).map
                (fun f => Effect.spawnEvent f (actionEventDataOf env s vLog))) ∧
        (r.trace.filter Effect.isSpawn).length =
          (s.trace.filter Effect.isSpawn).length
            + ((s.EventSigToAction.get? topic0).getD []).length
            + ((((s.ContractToEventSigToAction.get? vLog.Address).getD []).get? topic0).getD
                []).length
            + ((s.ContractToEventAction.get? vLog.Address).getD []).length) ∧
    (∀ event, s.EventSigs.get? topic0 = some event → env.SchemaWellFormed event = false →
      doEventPostProcessingOrPanic env vLog s =
        .fatal .malformedSchema
          { s with trace := s.trace ++ [Effect.postProcessEvent vLog] }) := by
  constructor
  · intro hshape
    have hrun := doEventPostProcessingOrPanic_of_wellFormed env vLog s
      (by rw [htopics]; exact hshape)
    have htrace := doEventPostProcessing_trace_eq env vLog s topic0 rest htopics
    refine ⟨_, hrun, htrace, ?_⟩
    have hall : ∀ (l : List ActionFunc) (p : ActionEventData),
        (l.map (fun f => Effect.spawnEvent f p)).filter Effect.isSpawn =
          l.map (fun f => Effect.spawnEvent f p) := by
      intro l p
      rw [List.filter_eq_self]
      intro e he
      simp only [List.mem_map] at he
      obtain ⟨f, _, hf⟩ := he
      rw [← hf]
      rfl
    rw [htrace, List.filter_append, List.filter_cons]
    simp only [Effect.isSpawn, Bool.false_eq_true, if_false, hall, List.length_append,
      List.length_map]
    omega
  · intro event hget hshape
    simp [doEventPostProcessingOrPanic, htopics, hget, hshape]

/-- Witness for C16: the example log in the state reached by the example registrations
reaches the handler registered for contract 7 and topic 3. -/
theorem event_dispatch_fanout_witness :
    ∃ r, doEventPostProcessingOrPanic exampleEnv (exampleLog 1 0)
        (runCalls exampleEnv exampleCalls exampleState).state = .ok r ∧
      r.trace =
        [Effect.postProcessEvent (exampleLog 1 0),
         Effect.spawnEvent exampleHandler
           { EventLog := exampleLog 1 0, EventFields := [], DecodedTopics := [],
             DecodedData := [] }] := by
  obtain ⟨r, hrun, htrace, _⟩ := (event_dispatch_fanout exampleEnv (exampleLog 1 0)
    (runCalls exampleEnv exampleCalls exampleState).state 3 [] rfl).1 (fun _ _ => rfl)
  exact ⟨r, hrun, htrace.trans (by decide)⟩

/-- C17: for a log whose first topic has no entry in `EventSigs`, the envelope built by
`doEventPostProcessing` holds the log as received and no decoded topic or data key, and
every handler launch the call adds carries that envelope. -/
theorem unknown_schema_envelope (env : Env) (vLog : Log) (s : State) (topic0 : Hash)
    (rest : List Hash) (htopics : vLog.Topics = topic0 :: rest)
    (hunknown : s.EventSigs.get? topic0 = none) :
    actionEventDataOf env s vLog =
        { EventLog := vLog, EventFields := [], DecodedTopics := [], DecodedData := [] } ∧
      ∀ f p, Effect.spawnEvent f p ∈ (doEventPostProcessing env vLog s).trace →
        Effect.spawnEvent f p ∈ s.trace ∨
          (p.EventLog = vLog ∧ p.DecodedTopics = [] ∧ p.DecodedData = []) := by
  have henv : actionEventDataOf env s vLog =
      { EventLog := vLog, EventFields := [], DecodedTopics := [], DecodedData := [] } := by
    simp [actionEventDataOf, htopics, hunknown]
  refine ⟨henv, ?_⟩
  intro f p hmem
  rw [doEventPostProcessing_trace_eq env vLog s topic0 rest htopics, henv] at hmem
  rcases List.mem_append.mp hmem with h | h
  · exact Or.inl h
  · right
    rcases List.mem_cons.mp h with h1 | h1
    · cases h1
    · simp only [List.mem_map] at h1
      obtain ⟨g, _, hg⟩ := h1
      cases hg
      exact ⟨rfl, rfl, rfl⟩

/-- Witness for C17: a log of contract 7 with the unknown topic 9, with a handler registered
for every event of contract 7. -/
theorem unknown_schema_envelope_witness :
    (doEventPostProcessing exampleEnv { exampleLog 1 0 with Topics := [9] }
        (addAddressEventAction 7 exampleHandler exampleState)).trace =
      [Effect.postProcessEvent { exampleLog 1 0 with Topics := [9] },
       Effect.spawnEvent exampleHandler
         { EventLog := { exampleLog 1 0 with Topics := [9] }, EventFields := [],
           DecodedTopics := [], DecodedData := [] }] ∧
      actionEventDataOf exampleEnv (addAddressEventAction 7 exampleHandler exampleState)
          { exampleLog 1 0 with Topics := [9] } =
        { EventLog := { exampleLog 1 0 with Topics := [9] }, EventFields := [],
          DecodedTopics := [], DecodedData := [] } :=
  ⟨by decide,
   (unknown_schema_envelope exampleEnv { exampleLog 1 0 with Topics := [9] }
      (addAddressEventAction 7 exampleHandler exampleState) 9 [] rfl rfl).1⟩

/-- C19: `getPendingBlock` skips a fetched pending block whose number is marked in
`processedBlock`, changing nothing but the trace, and otherwise marks the number and passes
the block to `handleBlock`; in both cases it neither consults nor changes
`AlreadyProcessed` and `DupeDetected` itself.  Over the polls of one
`ListenToPendingBlocks` run (with a provider that answers and an idle completion group) the
blocks passed to `handleBlock` are exactly those whose number no earlier poll of the run
returned, so no block number is handled twice. -/
theorem pending_block_handled_once (env : Env) (henv : ProviderAnswers env) :
    (∀ block s, (s.processedBlock.get? block.Number).getD false = true →
      getPendingBlock env (.block block) s =
        .ok { s with trace := s.trace ++ [Effect.rpcPendingBlock] }) ∧
    (∀ block s, (s.processedBlock.get? block.Number).getD false = false →
      getPendingBlock env (.block block) s =
        handleBlock env block
          { s with trace := s.trace ++ [Effect.rpcPendingBlock],
                   processedBlock := s.processedBlock.set block.Number true }) ∧
    (∀ blocks s, s.BlockWaitGroup = 0 →
      ∃ r, ListenToPendingBlocks env (blocks.map L2Answer.block) s = .ok r ∧
        r.trace.filter Effect.isHandleBlock =
          s.trace.filter Effect.isHandleBlock ++
            (unseenBlocks [] blocks).map Effect.handleBlock ∧
        ((unseenBlocks [] blocks).map Block.Number).Nodup) := by
  refine ⟨?_, ?_, ?_⟩
  · intro block s hseen
    simp [getPendingBlock, hseen]
  · intro block s hnew
    simp [getPendingBlock, hnew]
  · intro blocks s hidle
    obtain ⟨r, hr, hfilter⟩ := listenToPendingBlocksLoop_handled env henv blocks []
      { s with processedBlock := [] } hidle (by intro n; simp [GoMap.get?])
    exact ⟨r, hr, hfilter, unseenBlocks_nodup [] blocks⟩

/-- Witness for C19: polls answered with blocks 5, 5 and 6 hand block 5 and block 6 to
`handleBlock`, once each. -/
theorem pending_block_handled_once_witness :
    ∃ r, ListenToPendingBlocks exampleEnv
        ([exampleEmptyBlock 5, exampleEmptyBlock 5, exampleEmptyBlock 6].map L2Answer.block)
        exampleState = .ok r ∧
      r.trace.filter Effect.isHandleBlock =
        [Effect.handleBlock (exampleEmptyBlock 5), Effect.handleBlock (exampleEmptyBlock 6)] :=
  have henv : ProviderAnswers exampleEnv := ⟨fun _ => ⟨[], rfl⟩, fun tx => ⟨tx.Hash, rfl⟩⟩
  have h := (pending_block_handled_once exampleEnv henv).2.2
    [exampleEmptyBlock 5, exampleEmptyBlock 5, exampleEmptyBlock 6] exampleState rfl
  h.imp (fun _ hr => ⟨hr.1, hr.2.1⟩)

/-- C12: in sequential mode with `LoopBackwards` set and `toBlock <= fromBlock`, with a
provider that answers and an idle completion group, `ProcessHistoricalBlocks` returns, and
its block steps are, for the numbers `fromBlock, fromBlock - 1, ..., toBlock` in this
order, the fetch of the number followed by `handleBlock` on the fetched block.  The list
of numbers has `fromBlock - toBlock + 1` entries, the `k`-th being `fromBlock - k`, and is
strictly decreasing, so each number occurs once. -/
theorem backward_blocks_in_order (env : Env) (henv : ProviderAnswers env)
    (hblocks : ∀ number, ∃ block, env.BlockByNumber number = some block)
    (fromBlock toBlock : Int) (s : State) (fuel : Nat)
    (hseq : s.Options.HistoricalOptions.BatchFetchBlocks = false)
    (hback : s.Options.HistoricalOptions.LoopBackwards = true)
    (hle : toBlock ≤ fromBlock) (hidle : s.BlockWaitGroup = 0)
    (hfuel : (fromBlock - toBlock).toNat + 1 < fuel) :
    (∃ r, ProcessHistoricalBlocks env fuel fromBlock toBlock s = some (.ok r) ∧
      r.trace.filter Effect.isBlockStep =
        s.trace.filter Effect.isBlockStep ++
          blockSteps env (downFrom fromBlock ((fromBlock - toBlock).toNat + 1))) ∧
    (downFrom fromBlock ((fromBlock - toBlock).toNat + 1)).length =
      (fromBlock - toBlock).toNat + 1 ∧
    (∀ k : Nat, k < (fromBlock - toBlock).toNat + 1 →
      (downFrom fromBlock ((fromBlock - toBlock).toNat + 1))[k]? = some (fromBlock - k)) ∧
    (downFrom fromBlock ((fromBlock - toBlock).toNat + 1)).Pairwise (fun a b => b < a) := by
  refine ⟨?_, downFrom_length _ _, fun k hk => downFrom_get _ _ k hk, downFrom_decreasing _ _⟩
  have hrun := processBlocksBackwards_ok env henv hblocks toBlock
    ((fromBlock - toBlock).toNat + 1) fromBlock s fuel (by omega) hfuel hidle
  simpa [ProcessHistoricalBlocks, hseq, hback] using hrun

/-- Witness for C12: blocks 500 down to 480. -/
theorem backward_blocks_in_order_witness :
    (∃ r, ProcessHistoricalBlocks exampleBlockEnv 23 500 480 exampleBackwards = some (.ok r) ∧
      r.trace.filter Effect.isBlockStep = blockSteps exampleBlockEnv (downFrom 500 21)) ∧
    downFrom 500 21 = [500, 499, 498, 497, 496, 495, 494, 493, 492, 491, 490, 489, 488, 487,
      486, 485, 484, 483, 482, 481, 480] :=
  ⟨(backward_blocks_in_order exampleBlockEnv
      ⟨fun _ => ⟨[], rfl⟩, fun tx => ⟨tx.Hash, rfl⟩⟩ (fun number => ⟨_, rfl⟩) 500 480
      exampleBackwards 23 rfl rfl (by decide) rfl (by decide)).1,
   by decide⟩

/-- C13: in sequential mode without `LoopBackwards` and with `fromBlock <= toBlock`, with a
provider that answers and an idle completion group, `ProcessHistoricalBlocks` returns, and
its block steps are, for the numbers `fromBlock, fromBlock + 1, ..., toBlock` in this
order, the fetch of the number, then `handleBlock` on the fetched block, then the return of
the final wait of `handleBlock`; so the fetch of a number comes after `handleBlock` has
finished with the number before it.  The list of numbers has `toBlock - fromBlock + 1`
entries, the `k`-th being `fromBlock + k`, and is strictly increasing. -/
theorem forward_blocks_in_order (env : Env) (henv : ProviderAnswers env)
    (hblocks : ∀ number, ∃ block, env.BlockByNumber number = some block)
    (fromBlock toBlock : Int) (s : State) (fuel : Nat)
    (hseq : s.Options.HistoricalOptions.BatchFetchBlocks = false)
    (hforward : s.Options.HistoricalOptions.LoopBackwards = false)
    (hle : fromBlock ≤ toBlock) (hidle : s.BlockWaitGroup = 0)
    (hfuel : (toBlock - fromBlock).toNat + 1 < fuel) :
    (∃ r, ProcessHistoricalBlocks env fuel fromBlock toBlock s = some (.ok r) ∧
      r.trace.filter Effect.isBlockStep =
        s.trace.filter Effect.isBlockStep ++
          blockSteps env (upFrom fromBlock ((toBlock - fromBlock).toNat + 1))) ∧
    (upFrom fromBlock ((toBlock - fromBlock).toNat + 1)).length =
      (toBlock - fromBlock).toNat + 1 ∧
    (∀ k : Nat, k < (toBlock - fromBlock).toNat + 1 →
      (upFrom fromBlock ((toBlock - fromBlock).toNat + 1))[k]? = some (fromBlock + k)) ∧
    (upFrom fromBlock ((toBlock - fromBlock).toNat + 1)).Pairwise (fun a b => a < b) := by
  refine ⟨?_, upFrom_length _ _, fun k hk => upFrom_get _ _ k hk, upFrom_increasing _ _⟩
  have hrun := processBlocksForwards_ok env henv hblocks toBlock
    ((toBlock - fromBlock).toNat + 1) fromBlock s fuel (by omega) hfuel hidle
  simpa [ProcessHistoricalBlocks, hseq, hforward] using hrun

/-- Witness for C13: blocks 7, 8 and 9. -/
theorem forward_blocks_in_order_witness :
    ∃ r, ProcessHistoricalBlocks exampleBlockEnv 4 7 9 exampleForwards = some (.ok r) ∧
      r.trace.filter Effect.isBlockStep =
        [Effect.rpcBlockByNumber 7, Effect.handleBlock (exampleEmptyBlock 7),
         Effect.blockWaitGroupWait,
         Effect.rpcBlockByNumber 8, Effect.handleBlock (exampleEmptyBlock 8),
         Effect.blockWaitGroupWait,
         Effect.rpcBlockByNumber 9, Effect.handleBlock (exampleEmptyBlock 9),
         Effect.blockWaitGroupWait] :=
  (forward_blocks_in_order exampleBlockEnv
    ⟨fun _ => ⟨[], rfl⟩, fun tx => ⟨tx.Hash, rfl⟩⟩ (fun number => ⟨_, rfl⟩) 7 9
    exampleForwards 4 rfl rfl (by decide) rfl (by decide)).1

/-- C11: for `fromBlock <= toBlock` and `stepBlocks >= 1`, with a provider that answers
every log query, `ProcessHistoricalEventsSingle` returns, and the log queries it issued
are, in this order, those for the ranges
`[fromBlock + k*step, min(fromBlock + (k+1)*step - 1, toBlock)]`, `k = 0, 1, ...`
(`stepRanges`).  A block lies in `[fromBlock, toBlock]` exactly when it lies in one of the
ranges, and each range ends below the start of every later one: no gap and no overlap. -/
theorem historical_event_ranges (env : Env)
    (hlogs : ∀ query, ∃ logs, env.FilterLogs query = some logs)
    (fromBlock toBlock : Int) (eventTopics : List (List Hash)) (s : State) (fuel : Nat)
    (hle : fromBlock ≤ toBlock) (hstep : 1 ≤ s.stepBlocks)
    (hfuel : ((toBlock - fromBlock) / s.stepBlocks + 1).toNat < fuel) :
    (∃ r, ProcessHistoricalEventsSingle env fuel fromBlock toBlock eventTopics s =
        some (.ok r) ∧
      r.trace.filter Effect.isFilterLogs =
        s.trace.filter Effect.isFilterLogs ++
          (stepRanges fromBlock toBlock s.stepBlocks).map (rangeQuery s eventTopics)) ∧
    (∀ b : Int, (fromBlock ≤ b ∧ b ≤ toBlock) ↔
      ∃ range ∈ stepRanges fromBlock toBlock s.stepBlocks, range.1 ≤ b ∧ b ≤ range.2) ∧
    (stepRanges fromBlock toBlock s.stepBlocks).Pairwise (fun a b => a.2 < b.1) := by
  obtain ⟨hhi, hlo⟩ := stepRanges_count fromBlock toBlock s.stepBlocks hle hstep
  have hranges : stepRanges fromBlock toBlock s.stepBlocks =
      rangesFrom fromBlock s.stepBlocks toBlock
        ((toBlock - fromBlock) / s.stepBlocks + 1).toNat := by
    rw [rangesFrom_eq_map]
    rfl
  rw [hranges]
  refine ⟨?_, fun b => rangesFrom_cover _ _ _ _ hstep hhi hlo b,
    rangesFrom_pairwise _ _ _ _ hstep⟩
  have hne : ¬ s.stepBlocks = 0 := by omega
  simp only [ProcessHistoricalEventsSingle, hne, if_false]
  exact processHistoricalEventsLoop_ok env hlogs eventTopics toBlock _ fromBlock s fuel hstep
    hhi hlo hfuel

/-- Witness for C11: `fromBlock` 100, `toBlock` 250 and a step of 100 give the two queries
for [100,199] and [200,250]. -/
theorem historical_event_ranges_witness :
    ∃ r, ProcessHistoricalEventsSingle exampleEnv 3 100 250 [[3]] exampleForwards =
        some (.ok r) ∧
      r.trace.filter Effect.isFilterLogs =
        [Effect.rpcFilterLogs
          { FromBlock := some 100, ToBlock := some 199, Addresses := [], Topics := [[3]] },
         Effect.rpcFilterLogs
          { FromBlock := some 200, ToBlock := some 250, Addresses := [], Topics := [[3]] }] :=
  (historical_event_ranges exampleEnv (fun _ => ⟨[], rfl⟩) 100 250 [[3]] exampleForwards 3
    (by decide) (by decide) (by decide)).1

/-- C18: let a log be dispatched in the log loop of `ProcessHistoricalEventsSingle` after
the logs `pre` and before the logs `post`, and let the admission counter read at or above
`MaxRequestsPerSecond` right after that dispatch.  Then whatever the loop does next comes
after a one-second sleep and the return of `RpcWaitGroup.Wait()` (which `sync.WaitGroup`
grants only at a zero counter): this holds for the dispatch of the remaining logs and for
every later query of the range loop. -/
theorem throttle_waits_before_next (env : Env) (eventTopics : List (List Hash))
    (toBlock : Int) (pre post : List Log) (vLog : Log) (s : State)
    (hfull : (handleEventGeneral env vLog (handleHistoricalLogs env pre s)).MaxRequestsPerSecond
      ≤ env.RpcWaitGroupGetCount
          (handleEventGeneral env vLog (handleHistoricalLogs env pre s)).trace) :
    (∃ rest, (handleHistoricalLogs env (pre ++ vLog :: post) s).trace =
      (handleEventGeneral env vLog (handleHistoricalLogs env pre s)).trace ++
        Effect.sleepSecond :: Effect.rpcWaitGroupWait :: rest) ∧
    (∀ fuel currentBlock o,
      processHistoricalEventsLoop env eventTopics toBlock fuel currentBlock
          (handleHistoricalLogs env (pre ++ vLog :: post) s) = some o →
        ∃ rest, o.state.trace =
          (handleEventGeneral env vLog (handleHistoricalLogs env pre s)).trace ++
            Effect.sleepSecond :: Effect.rpcWaitGroupWait :: rest) := by
  have hstep : handleHistoricalLogs env (pre ++ vLog :: post) s =
      handleHistoricalLogs env post
        (throttle env (handleEventGeneral env vLog (handleHistoricalLogs env pre s))) := by
    rw [handleHistoricalLogs_append]
    rfl
  have hthrottle : (throttle env
      (handleEventGeneral env vLog (handleHistoricalLogs env pre s))).trace =
      (handleEventGeneral env vLog (handleHistoricalLogs env pre s)).trace ++
        [Effect.sleepSecond, Effect.rpcWaitGroupWait] := by
    simp [throttle, hfull]
  have hinner : ∃ rest, (handleHistoricalLogs env (pre ++ vLog :: post) s).trace =
      (handleEventGeneral env vLog (handleHistoricalLogs env pre s)).trace ++
        Effect.sleepSecond :: Effect.rpcWaitGroupWait :: rest := by
    obtain ⟨t, ht⟩ := handleHistoricalLogs_trace env post
      (throttle env (handleEventGeneral env vLog (handleHistoricalLogs env pre s)))
    exact ⟨t, by rw [hstep, ht, hthrottle]; simp⟩
  refine ⟨hinner, ?_⟩
  intro fuel currentBlock o hrun
  obtain ⟨rest, hrest⟩ := hinner
  obtain ⟨t, ht⟩ := processHistoricalEventsLoop_trace env eventTopics toBlock fuel currentBlock
    _ o hrun
  exact ⟨rest ++ t, by rw [ht, hrest]; simp⟩

/-- Witness for C18: with the counter at 30 and the maximum at 30, the dispatch of the one
log of a query is followed by the sleep and the wait. -/
theorem throttle_waits_before_next_witness :
    ∃ rest, (handleHistoricalLogs exampleBusyEnv ([] ++ exampleLog 1 0 :: []) exampleForwards).trace
      = (handleEventGeneral exampleBusyEnv (exampleLog 1 0)
          (handleHistoricalLogs exampleBusyEnv [] exampleForwards)).trace ++
        Effect.sleepSecond :: Effect.rpcWaitGroupWait :: rest :=
  (throttle_waits_before_next exampleBusyEnv [[3]] 250 [] [] (exampleLog 1 0) exampleForwards
    (by decide)).1

/-- C20, counterexample: batched mode over the blocks 100 and 101 with a provider that
returns every block.  The task of block 100 is launched and its block handed to
`handleBlock`, the counter of `shared.BlockWaitGroup` stands at 1, and the driver is
parked in the wait at block 100: block 101 is never fetched. -/
theorem batched_wait_never_returns :
    ∃ r, ProcessHistoricalBlocks exampleBlockEnv 5 100 101 exampleBatched =
        some (.fatal .waitsForever r) ∧
      r.BlockWaitGroup = 1 ∧
      r.trace = [Effect.rpcBlockByNumber 100, Effect.handleBlock (exampleEmptyBlock 100)] :=
  ⟨_, rfl, rfl, rfl⟩

/-- C20 (amended): in batched mode every iteration of the loop leaves the counter of
`shared.BlockWaitGroup` one higher than it found it (the increment made at the launch of
the block task is matched by no decrement), and a range that holds a multiple of the batch
size is never completed: whatever the number of iterations allowed, the loop does not
return. -/
theorem batched_counter_never_drains (env : Env) (fromBlock toBlock : Int) (s : State)
    (hbatched : s.Options.HistoricalOptions.BatchFetchBlocks = true)
    (hforwards : s.Options.HistoricalOptions.LoopBackwards = false) :
    (∀ currentBlock st,
      (batchStep env currentBlock st).state.BlockWaitGroup = st.BlockWaitGroup + 1) ∧
    (∀ currentBlock st r, currentBlock % batchCount = 0 →
      batchStep env currentBlock st ≠ .ok r) ∧
    (∀ m, fromBlock ≤ m → m ≤ toBlock → m % batchCount = 0 →
      ∀ fuel r, ProcessHistoricalBlocks env fuel fromBlock toBlock s ≠ some (.ok r)) := by
  refine ⟨fun currentBlock st => (batchStep_counter env currentBlock st).1,
    fun currentBlock st r hzero => (batchStep_counter env currentBlock st).2 hzero r, ?_⟩
  intro m hlo hhi hzero fuel r hrun
  simp only [ProcessHistoricalBlocks, hbatched, hforwards, if_true] at hrun
  exact processBlocksBatched_ok_of_no_multiple env toBlock fuel fromBlock s r
    (by simpa using hrun) m hlo hhi hzero

/-- Witness for C20: the range 100 to 101 in batched mode is not completed within seven
iterations, and the iteration at block 100 leaves the counter one higher. -/
theorem batched_counter_never_drains_witness :
    (batchStep exampleBlockEnv 100 exampleBatched).state.BlockWaitGroup =
        exampleBatched.BlockWaitGroup + 1 ∧
      ¬ ∃ r, ProcessHistoricalBlocks exampleBlockEnv 7 100 101 exampleBatched = some (.ok r) :=
  ⟨(batched_counter_never_drains exampleBlockEnv 100 101 exampleBatched rfl rfl).1 100
      exampleBatched,
   fun ⟨r, hrun⟩ =>
    (batched_counter_never_drains exampleBlockEnv 100 101 exampleBatched rfl rfl).2.2 100
      (by decide) (by decide) (by decide) 7 r hrun⟩

/-! ## Block mode, any-event handlers and failed fetches: results -/

/-- C21 (the code differs): `handleBlock` decides on the log query from two of the three
event tables.  When the table by event signature and the table by contract and event
signature are empty, it issues no log query and dispatches no log, whatever the table of
any-event handlers holds: with no transaction handler and no pending block task it
launches the block handlers, waits, and returns. -/
theorem handleBlock_skips_any_event_table (env : Env) (block : Block) (s : State)
    (hsig : s.EventSigToAction = []) (hcontractSig : s.ContractToEventSigToAction = [])
    (htx : s.TxAddressToAction = []) (hidle : s.BlockWaitGroup = 0) :
    handleBlock env block s =
      .ok { s with trace := s.trace ++ [Effect.handleBlock block]
              ++ s.BlockActions.map (fun f => Effect.spawnBlock f { Block := block })
              ++ [Effect.blockWaitGroupWait] } := by
  simp [handleBlock, handleBlockBody, doBlocksPostProcessing, hsig, hcontractSig, htx,
    Outcome.andThen, blockWaitGroupWait, hidle]

/-- Witness for C21: a handler is registered for every event of contract 7 and the provider
holds a log of contract 7 for the block, yet `handleBlock` asks for no logs and launches
the block handler only; the query it skips would have launched the event handler. -/
theorem handleBlock_skips_any_event_table_witness :
    exampleAnyEventState.ContractToEventAction = [(7, [exampleHandler])] ∧
      handleBlock exampleLogEnv (exampleEmptyBlock 5) exampleAnyEventState =
        .ok { exampleAnyEventState with
          trace := [Effect.handleBlock (exampleEmptyBlock 5),
            Effect.spawnBlock exampleHandler2 { Block := exampleEmptyBlock 5 },
            Effect.blockWaitGroupWait] } ∧
      (handleEventsFromBlock exampleLogEnv (exampleEmptyBlock 5) []
          exampleAnyEventState).state.trace.filter Effect.isSpawn =
        [Effect.spawnEvent exampleHandler
          { EventLog := exampleLog 1 0, EventFields := [], DecodedTopics := [],
            DecodedData := [] }] :=
  ⟨rfl,
   handleBlock_skips_any_event_table exampleLogEnv (exampleEmptyBlock 5) exampleAnyEventState
     rfl rfl rfl rfl,
   by decide⟩

/-- C22, counterexample: after `addAddressEventAction` registered a handler for contract 7,
a log of contract 7 without topics launches nothing. -/
theorem bare_log_not_delivered :
    (addAddressEventAction 7 exampleHandler exampleState).ContractToEventAction =
        [(7, [exampleHandler])] ∧
      exampleBareLog.Address = 7 ∧
      doEventPostProcessingOrPanic exampleEnv exampleBareLog
          (addAddressEventAction 7 exampleHandler exampleState) =
        .ok { addAddressEventAction 7 exampleHandler exampleState with
          trace := [Effect.postProcessEvent exampleBareLog] } := by
  decide

/-- C22 (amended): `addAddressEventAction` leaves a handler with the identity of the one it
is given in the list of the contract.  For every log of the contract that has at least one
topic, and whose schema entry, when there is one, has the shape the decoder asserts,
`doEventPostProcessing` launches every handler of that list with the envelope of the log,
whatever the event signature.  A log without topics is dropped before any table is read:
nothing is launched. -/
theorem topic_logs_reach_contract_handlers (env : Env) (contract : Address) (f : ActionFunc)
    (vLog : Log) (s : State) (haddress : vLog.Address = contract) :
    (∃ g ∈ ((addAddressEventAction contract f s).ContractToEventAction.get? contract).getD [],
      g.Pointer = f.Pointer) ∧
    (∀ topic0 rest, vLog.Topics = topic0 :: rest →
      (∀ event, s.EventSigs.get? topic0 = some event → env.SchemaWellFormed event = true) →
      ∃ added, doEventPostProcessingOrPanic env vLog (addAddressEventAction contract f s) =
          .ok { addAddressEventAction contract f s with
            trace := (addAddressEventAction contract f s).trace ++ added } ∧
        ∀ g ∈ ((addAddressEventAction contract f s).ContractToEventAction.get? contract).getD [],
          Effect.spawnEvent g (actionEventDataOf env (addAddressEventAction contract f s) vLog)
            ∈ added) ∧
    (vLog.Topics = [] →
      doEventPostProcessingOrPanic env vLog (addAddressEventAction contract f s) =
        .ok { addAddressEventAction contract f s with
          trace := (addAddressEventAction contract f s).trace ++
            [Effect.postProcessEvent vLog] }) := by
  subst haddress
  have hsigs : (addAddressEventAction vLog.Address f s).EventSigs = s.EventSigs := by
    by_cases hcontains :
        containsActionEventFunc ((s.ContractToEventAction.get? vLog.Address).getD []) f = true
    · simp [addAddressEventAction, hcontains]
    · simp [addAddressEventAction, hcontains]
  refine ⟨?_, ?_, ?_⟩
  · by_cases hcontains :
        containsActionEventFunc ((s.ContractToEventAction.get? vLog.Address).getD []) f = true
    · have hmem := (containsActionEventFunc_iff _ _).mp hcontains
      simp only [List.mem_map] at hmem
      obtain ⟨g, hg, hptr⟩ := hmem
      exact ⟨g, by simpa [addAddressEventAction, hcontains] using hg, hptr⟩
    · exact ⟨f, by simp [addAddressEventAction, hcontains, GoMap.get?_set_self], rfl⟩
  · intro topic0 rest htopics hshape
    have hrun := doEventPostProcessingOrPanic_of_wellFormed env vLog
      (addAddressEventAction vLog.Address f s)
      (by rw [htopics, hsigs]; exact hshape)
    have heq := doEventPostProcessing_eq env vLog (addAddressEventAction vLog.Address f s)
    refine ⟨_, by rw [hrun, heq], ?_⟩
    intro g hg
    simp only [eventSpawns, htopics, spawnEvents, List.mem_cons, List.mem_append, List.mem_map]
    exact Or.inr (Or.inr ⟨g, hg, rfl⟩)
  · intro htopics
    simp [doEventPostProcessingOrPanic, doEventPostProcessing, htopics]

/-- Witness for C22: the handler registered for contract 7 is launched by a log of
contract 7 with topic 3. -/
theorem topic_logs_reach_contract_handlers_witness :
    ∃ added, doEventPostProcessingOrPanic exampleEnv (exampleLog 1 0)
        (addAddressEventAction 7 exampleHandler exampleState) =
        .ok { addAddressEventAction 7 exampleHandler exampleState with
          trace := (addAddressEventAction 7 exampleHandler exampleState).trace ++ added } ∧
      ∀ g ∈ ((addAddressEventAction 7 exampleHandler exampleState).ContractToEventAction.get?
          7).getD [],
        Effect.spawnEvent g
          (actionEventDataOf exampleEnv (addAddressEventAction 7 exampleHandler exampleState)
            (exampleLog 1 0)) ∈ added :=
  (topic_logs_reach_contract_handlers exampleEnv 7 exampleHandler (exampleLog 1 0) exampleState
    rfl).2.1 3 [] rfl (fun _ _ => rfl)

/-- C23: on a chain that is not an L2 chain, `HandleHeader` on a header it has not recorded
asks for the block by hash and handles it; when that request fails it asks by number and
handles that block; when both requests fail it returns normally having made the two
requests and nothing else (no call of `handleBlock`, no handler launched), and the loop of
`ListenToBlocks` goes on with the next message. -/
theorem unfetchable_block_is_skipped (env : Env) (header : Header) (s : State)
    (msgs : List HeadMsg) (hl2 : s.Options.IsL2Chain = false)
    (hnew : s.SwitchingToRealtime = true → s.AlreadyProcessed.get? header.Hash = none) :
    (∀ block, env.BlockByHash header.Hash = some block →
        HandleHeader env header s =
          handleBlock env block
            { admitHeader header s with
              trace := s.trace ++ [Effect.rpcBlockByHash header.Hash] }) ∧
    (∀ block, env.BlockByHash header.Hash = none →
        env.BlockByNumber header.Number = some block →
        HandleHeader env header s =
          handleBlock env block
            { admitHeader header s with
              trace := s.trace ++ [Effect.rpcBlockByHash header.Hash,
                Effect.rpcBlockByNumber header.Number] }) ∧
    (env.BlockByHash header.Hash = none → env.BlockByNumber header.Number = none →
        HandleHeader env header s =
            .ok { admitHeader header s with
              trace := s.trace ++ [Effect.rpcBlockByHash header.Hash,
                Effect.rpcBlockByNumber header.Number] } ∧
          listenToBlocksLoop env (.header header :: msgs) s =
            listenToBlocksLoop env msgs
              { admitHeader header s with
                trace := s.trace ++ [Effect.rpcBlockByHash header.Hash,
                  Effect.rpcBlockByNumber header.Number] }) := by
  cases hsw : s.SwitchingToRealtime with
  | false =>
    refine ⟨?_, ?_, ?_⟩
    · intro block hhash
      simp [HandleHeader, admitHeader, hsw, fetchAndHandleBlock, hl2, hhash]
    · intro block hhash hnumber
      simp [HandleHeader, admitHeader, hsw, fetchAndHandleBlock, hl2, hhash, hnumber]
    · intro hhash hnumber
      simp [listenToBlocksLoop, HandleHeader, admitHeader, hsw, fetchAndHandleBlock, hl2,
        hhash, hnumber, Outcome.andThen]
  | true =>
    have hnone := hnew hsw
    refine ⟨?_, ?_, ?_⟩
    · intro block hhash
      simp [HandleHeader, admitHeader, hsw, hnone, fetchAndHandleBlock, hl2, hhash]
    · intro block hhash hnumber
      simp [HandleHeader, admitHeader, hsw, hnone, fetchAndHandleBlock, hl2, hhash, hnumber]
    · intro hhash hnumber
      simp [listenToBlocksLoop, HandleHeader, admitHeader, hsw, hnone, fetchAndHandleBlock,
        hl2, hhash, hnumber, Outcome.andThen]

/-- Witness for C23: the example provider has no block; the listener gets a header and an
error of the subscription after it.  The header costs two requests and the loop goes on
to the error. -/
theorem unfetchable_block_is_skipped_witness :
    HandleHeader exampleEnv exampleHeader exampleBackwards =
        .ok { exampleBackwards with
          trace := [Effect.rpcBlockByHash 50, Effect.rpcBlockByNumber 5] } ∧
      listenToBlocksLoop exampleEnv [.header exampleHeader, .err] exampleBackwards =
        .fatal .subscriptionError
          { exampleBackwards with
            trace := [Effect.rpcBlockByHash 50, Effect.rpcBlockByNumber 5] } :=
  ⟨((unfetchable_block_is_skipped exampleEnv exampleHeader exampleBackwards [.err] rfl
      (fun h => by cases h)).2.2 rfl rfl).1,
   by decide⟩

/-- C24: when `SwitchingToRealtime` is false, `handleEventGeneral` is
`doEventPostProcessing`; a run of logs through it dispatches every log, in order, and
leaves the ledger and `DupeDetected` as they were; `HandleHeader` is its fetch-and-handle
half and also leaves the ledger and `DupeDetected` as they were. -/
theorem no_dedup_outside_handoff (env : Env) (s : State)
    (hswitch : s.SwitchingToRealtime = false) :
    (∀ vLog, handleEventGeneral env vLog s = doEventPostProcessing env vLog s) ∧
    (∀ logs, dispatched (handleEvents env logs s) = dispatched s ++ logs ∧
        (handleEvents env logs s).AlreadyProcessed = s.AlreadyProcessed ∧
        (handleEvents env logs s).DupeDetected = s.DupeDetected) ∧
    (∀ header, HandleHeader env header s = fetchAndHandleBlock env header s ∧
        (HandleHeader env header s).state.AlreadyProcessed = s.AlreadyProcessed ∧
        (HandleHeader env header s).state.DupeDetected = s.DupeDetected) := by
  refine ⟨fun vLog => handleEventGeneral_of_not_switching env vLog s hswitch, ?_, ?_⟩
  · intro logs
    have h := TraceGrows_handleEvents env logs s hswitch
    exact ⟨h.2, h.1.AlreadyProcessed, h.1.DupeDetected⟩
  · intro header
    have heq : HandleHeader env header s = fetchAndHandleBlock env header s := by
      simp [HandleHeader, hswitch]
    have h := TraceGrows_fetchAndHandleBlock env header s hswitch
    rw [heq]
    exact ⟨rfl, h.AlreadyProcessed, h.DupeDetected⟩

/-- Witness for C24: outside the handoff the same log passed three times is dispatched
three times and the ledger stays empty. -/
theorem no_dedup_outside_handoff_witness :
    exampleBackwards.SwitchingToRealtime = false ∧
      dispatched (handleEvents exampleEnv [exampleLog 1 0, exampleLog 1 0, exampleLog 1 0]
          exampleBackwards) = [exampleLog 1 0, exampleLog 1 0, exampleLog 1 0] ∧
      (handleEvents exampleEnv [exampleLog 1 0, exampleLog 1 0, exampleLog 1 0]
          exampleBackwards).AlreadyProcessed = [] :=
  ⟨rfl,
   ((no_dedup_outside_handoff exampleEnv exampleBackwards rfl).2.1
      [exampleLog 1 0, exampleLog 1 0, exampleLog 1 0]).1,
   ((no_dedup_outside_handoff exampleEnv exampleBackwards rfl).2.1
      [exampleLog 1 0, exampleLog 1 0, exampleLog 1 0]).2.1⟩

/-! ## Range loop and handoff: results -/

/-- C28: `ProcessHistoricalEventsSingle` on a range with `fromBlock > toBlock` and a step of
at least 1 returns at once in the state it was called in: no query was issued and no log
dispatched. -/
theorem descending_range_is_noop (env : Env) (fuel : Nat) (fromBlock toBlock : Int)
    (eventTopics : List (List Hash)) (s : State) (hdesc : toBlock < fromBlock)
    (hstep : 1 ≤ s.stepBlocks) :
    ProcessHistoricalEventsSingle env (fuel + 1) fromBlock toBlock eventTopics s =
      some (.ok s) := by
  have hne : ¬ s.stepBlocks = 0 := by omega
  have hgt : ¬ fromBlock ≤ toBlock := by omega
  simp [ProcessHistoricalEventsSingle, processHistoricalEventsLoop, hne, hgt]

/-- Witness for C28: the range from 250 down to 100 with a step of 100. -/
theorem descending_range_is_noop_witness :
    ProcessHistoricalEventsSingle exampleLogEnv 1 250 100 [[3]] exampleForwards =
      some (.ok exampleForwards) :=
  descending_range_is_noop exampleLogEnv 0 250 100 [[3]] exampleForwards (by decide)
    (by decide)

/-- C29, counterexample: with a step of 0, which `SetupHistorical` stores as given,
`ProcessHistoricalEventsSingle` over the range 100 to 250 ends in the division by zero that
sizes its progress bar; it has issued no query. -/
theorem zero_step_panics_before_loop :
    SetupHistorical exampleEnv exampleZeroStepOptions = .ok exampleZeroStep ∧
      ProcessHistoricalEventsSingle exampleEnv 5 100 250 [[3]] exampleZeroStep =
        some (.fatal .divisionByZero exampleZeroStep) ∧
      exampleZeroStep.trace = [] := by
  decide

/-- C29 (amended): for `fromBlock ≤ toBlock` and a provider that answers every log query,
`ProcessHistoricalEventsSingle` returns normally if and only if `stepBlocks ≥ 1`.  With
`stepBlocks ≥ 1` it returns after exactly `⌈(toBlock - fromBlock + 1) / stepBlocks⌉`
queries (that many iterations and no fewer).  With `stepBlocks = 0`, which
`SetupHistorical` stores without a check, it ends before the loop in the division by zero
that sizes the progress bar and issues no query.  With `stepBlocks < 0` the loop never
ends. -/
theorem range_loop_termination (env : Env)
    (hlogs : ∀ query, ∃ logs, env.FilterLogs query = some logs)
    (fromBlock toBlock : Int) (eventTopics : List (List Hash)) (s : State)
    (hle : fromBlock ≤ toBlock) :
    (1 ≤ s.stepBlocks →
      ∃ (n : Nat) (r : State),
        (n : Int) = ⌈((toBlock - fromBlock + 1 : Int) : ℚ) / (s.stepBlocks : ℚ)⌉ ∧
        (∀ fuel, n < fuel →
          ProcessHistoricalEventsSingle env fuel fromBlock toBlock eventTopics s =
            some (.ok r)) ∧
        (∀ fuel, fuel ≤ n →
          ProcessHistoricalEventsSingle env fuel fromBlock toBlock eventTopics s = none) ∧
        (r.trace.filter Effect.isFilterLogs).length =
          (s.trace.filter Effect.isFilterLogs).length + n) ∧
    (s.stepBlocks = 0 → ∀ fuel,
      ProcessHistoricalEventsSingle env fuel fromBlock toBlock eventTopics s =
        some (.fatal .divisionByZero s)) ∧
    (s.stepBlocks < 0 → ∀ fuel,
      ProcessHistoricalEventsSingle env fuel fromBlock toBlock eventTopics s = none) ∧
    (∀ s0 first last, s0.Options.HistoricalOptions.StepBlocks = some 0 →
      s0.Options.HistoricalOptions.FromBlock = some first →
      s0.Options.HistoricalOptions.ToBlock = some last →
      ∃ r, SetupHistorical env s0 = .ok r ∧ r.stepBlocks = 0) := by
  refine ⟨?_, ?_, ?_, ?_⟩
  · intro hstep
    obtain ⟨hhi, hlo⟩ := stepRanges_count fromBlock toBlock s.stepBlocks hle hstep
    have hne : ¬ s.stepBlocks = 0 := by omega
    obtain ⟨r, hr, hf⟩ := processHistoricalEventsLoop_ok env hlogs eventTopics toBlock
      ((toBlock - fromBlock) / s.stepBlocks + 1).toNat fromBlock s
      (((toBlock - fromBlock) / s.stepBlocks + 1).toNat + 1) hstep hhi hlo (by omega)
    refine ⟨((toBlock - fromBlock) / s.stepBlocks + 1).toNat, r, ?_, ?_, ?_, ?_⟩
    · have hceil := ceil_div_eq (toBlock - fromBlock) s.stepBlocks hstep
      have hnonneg : 0 ≤ (toBlock - fromBlock) / s.stepBlocks :=
        Int.ediv_nonneg (by omega) (by omega)
      rw [hceil, Int.toNat_of_nonneg (by omega)]
    · intro fuel hfuel
      obtain ⟨extra, rfl⟩ : ∃ extra,
          fuel = ((toBlock - fromBlock) / s.stepBlocks + 1).toNat + 1 + extra :=
        ⟨fuel - (((toBlock - fromBlock) / s.stepBlocks + 1).toNat + 1), by omega⟩
      simp only [ProcessHistoricalEventsSingle, hne, if_false]
      exact processHistoricalEventsLoop_more_fuel env eventTopics toBlock _ extra fromBlock s
        _ hr
    · intro fuel hfuel
      simp only [ProcessHistoricalEventsSingle, hne, if_false]
      exact processHistoricalEventsLoop_needs_fuel env hlogs eventTopics toBlock _ fromBlock s
        fuel hstep hlo hfuel
    · rw [hf]
      simp [rangesFrom_length]
  · intro hzero fuel
    simp [ProcessHistoricalEventsSingle, hzero]
  · intro hneg fuel
    have hne : ¬ s.stepBlocks = 0 := by omega
    simp only [ProcessHistoricalEventsSingle, hne, if_false]
    exact processHistoricalEventsLoop_still_running env hlogs eventTopics toBlock fuel fromBlock
      s (by omega) hle
  · intro s0 first last hstep hfirst hlast
    by_cases hmax : s0.Options.MaxRequestsPerSecond = 0
    · exact ⟨{ s0 with stepBlocks := 0 },
        by simp [SetupHistorical, hstep, hfirst, hlast, hmax], rfl⟩
    · exact ⟨{ s0 with
          stepBlocks := 0
          MaxRequestsPerSecond := s0.Options.MaxRequestsPerSecond },
        by simp [SetupHistorical, hstep, hfirst, hlast, hmax], rfl⟩

/-- Witness for C29: the range 100 to 250 with a step of 100 takes the two queries that
`⌈151 / 100⌉` counts. -/
theorem range_loop_termination_witness :
    ∃ (n : Nat) (r : State),
      (n : Int) = ⌈((250 - 100 + 1 : Int) : ℚ) / (exampleForwards.stepBlocks : ℚ)⌉ ∧
      (∀ fuel, n < fuel →
        ProcessHistoricalEventsSingle exampleEnv fuel 100 250 [[3]] exampleForwards =
          some (.ok r)) ∧
      (∀ fuel, fuel ≤ n →
        ProcessHistoricalEventsSingle exampleEnv fuel 100 250 [[3]] exampleForwards = none) ∧
      (r.trace.filter Effect.isFilterLogs).length =
        (exampleForwards.trace.filter Effect.isFilterLogs).length + n :=
  (range_loop_termination exampleEnv (fun _ => ⟨[], rfl⟩) 100 250 [[3]] exampleForwards
    (by decide)).1 (by decide)

/-- C30: in handoff mode `HandleHeader` runs its fetch-and-handle half in a state that
already holds the record of the header.  When the header was not recorded before and both
requests for its block fail, the call returns with the record written and nothing handled,
and a second delivery of the same header is dropped as a duplicate whatever the provider
would answer by then: no request is made and `handleBlock` is not called. -/
theorem redelivered_header_is_suppressed (env : Env) (header : Header) (s : State)
    (hswitch : s.SwitchingToRealtime = true) (hl2 : s.Options.IsL2Chain = false)
    (hnew : s.AlreadyProcessed.get? header.Hash = none)
    (hhash : env.BlockByHash header.Hash = none)
    (hnumber : env.BlockByNumber header.Number = none) :
    HandleHeader env header s =
        fetchAndHandleBlock env header
          { s with AlreadyProcessed := s.AlreadyProcessed.set header.Hash (headerRecord header) } ∧
    ∃ s1, HandleHeader env header s = .ok s1 ∧
      s1.AlreadyProcessed.get? header.Hash = some (headerRecord header) ∧
      s1.trace = s.trace ++ [Effect.rpcBlockByHash header.Hash,
        Effect.rpcBlockByNumber header.Number] ∧
      (∀ env2, HandleHeader env2 header s1 = .ok { s1 with DupeDetected := true }) ∧
      (∀ env2, (HandleHeader env header s).andThen (HandleHeader env2 header) =
        .ok { s1 with DupeDetected := true }) := by
  have hfirst : HandleHeader env header s =
      .ok { s with
        AlreadyProcessed := s.AlreadyProcessed.set header.Hash (headerRecord header)
        trace := s.trace ++ [Effect.rpcBlockByHash header.Hash,
          Effect.rpcBlockByNumber header.Number] } := by
    simp [HandleHeader, hswitch, hnew, fetchAndHandleBlock, hl2, hhash, hnumber]
  have hsecond : ∀ env2, HandleHeader env2 header
      { s with
        AlreadyProcessed := s.AlreadyProcessed.set header.Hash (headerRecord header)
        trace := s.trace ++ [Effect.rpcBlockByHash header.Hash,
          Effect.rpcBlockByNumber header.Number] } =
      .ok { s with
        AlreadyProcessed := s.AlreadyProcessed.set header.Hash (headerRecord header)
        trace := s.trace ++ [Effect.rpcBlockByHash header.Hash,
          Effect.rpcBlockByNumber header.Number]
        DupeDetected := true } := by
    intro env2
    simp [HandleHeader, hswitch, GoMap.get?_set_self, headerRecord]
  refine ⟨by simp [HandleHeader, hswitch, hnew], _, hfirst, ?_, rfl, hsecond, ?_⟩
  · exact GoMap.get?_set_self _ _ _
  · intro env2
    rw [hfirst]
    exact hsecond env2

/-- Witness for C30: the example provider has no block; the header is delivered twice and
the second delivery is dropped, also by a provider that holds every block. -/
theorem redelivered_header_is_suppressed_witness :
    (HandleHeader exampleEnv exampleHeader exampleState).andThen
        (HandleHeader exampleBlockEnv exampleHeader) =
      .ok { exampleState with
        AlreadyProcessed := [(50, headerRecord exampleHeader)]
        trace := [Effect.rpcBlockByHash 50, Effect.rpcBlockByNumber 5]
        DupeDetected := true } := by
  obtain ⟨_, s1, h1, _, _, _, h2⟩ :=
    redelivered_header_is_suppressed exampleEnv exampleHeader exampleState rfl rfl rfl rfl rfl
  have hs1 : s1 = { exampleState with
      AlreadyProcessed := [(50, headerRecord exampleHeader)]
      trace := [Effect.rpcBlockByHash 50, Effect.rpcBlockByNumber 5] } := by
    have h : HandleHeader exampleEnv exampleHeader exampleState =
        .ok { exampleState with
          AlreadyProcessed := [(50, headerRecord exampleHeader)]
          trace := [Effect.rpcBlockByHash 50, Effect.rpcBlockByNumber 5] } := by decide
    rw [h] at h1
    injection h1 with h1
    exact h1.symm
  rw [h2 exampleBlockEnv, hs1]

/-! ## Admission counter, header cache and number formatting: results -/

/-- C25, counterexample: `Add(2^32)` on a fresh `WaitGroupCount` returns normally; the
delta does not fit the 32-bit counter of the embedded wait group, which stays at zero (no
outstanding work), while `GetCount` returns `2^32`. -/
theorem wide_delta_leaves_group_idle :
    runWaitGroupCalls [.add 4294967296] { count := 0, waitGroup := 0 } =
        .ok { count := 4294967296, waitGroup := 0 } ∧
      (WaitGroupCount.mk 4294967296 0).GetCount ≠ 0 ∧
      (WaitGroupCount.mk 4294967296 0).waitGroup = 0 := by
  decide

/-- C25 (amended): take a sequence of `Add(d)` and `Done()` calls on a fresh
`WaitGroupCount` whose running total (the deltas so far minus the `Done` calls so far)
stays between 0 and `2^31 - 1` after every call: the range in which the embedded wait
group neither panics on a negative counter nor wraps its 32-bit counter.  The sequence runs
to its end, `GetCount` then returns the sum of the deltas minus the number of `Done` calls,
and it is zero exactly when the counter of the embedded wait group is zero. -/
theorem admission_counter_is_faithful (calls : List WaitGroupCall)
    (hrange : ∀ k, k ≤ calls.length →
      0 ≤ sumOfDeltas (calls.take k) - doneCalls (calls.take k) ∧
        sumOfDeltas (calls.take k) - doneCalls (calls.take k) < 2 ^ 31) :
    ∃ wg, runWaitGroupCalls calls { count := 0, waitGroup := 0 } = .ok wg ∧
      wg.GetCount = sumOfDeltas calls - doneCalls calls ∧
      (wg.GetCount = 0 ↔ wg.waitGroup = 0) := by
  have hrun := runWaitGroupCalls_in_range calls { count := 0, waitGroup := 0 } rfl
    (by
      intro k hk
      have h := hrange k hk
      dsimp only
      omega)
  refine ⟨_, hrun, ?_, ?_⟩
  · simp [WaitGroupCount.GetCount]
  · simp [WaitGroupCount.GetCount]

/-- Witness for C25: two tasks start, one finishes, a third starts, all finish. -/
theorem admission_counter_is_faithful_witness :
    ∃ wg, runWaitGroupCalls [.add 1, .add 1, .done, .add 1, .done, .done]
        { count := 0, waitGroup := 0 } = .ok wg ∧
      wg.GetCount =
        sumOfDeltas [.add 1, .add 1, .done, .add 1, .done, .done] -
          doneCalls [.add 1, .add 1, .done, .add 1, .done, .done] ∧
      (wg.GetCount = 0 ↔ wg.waitGroup = 0) :=
  admission_counter_is_faithful [.add 1, .add 1, .done, .add 1, .done, .done]
    (by
      intro k hk
      have hk6 : k ≤ 6 := hk
      interval_cases k <;> decide)

/-- C26 (the code differs): the cache of `GetBlockHeader` is read and written at the
pointer it is given.  Two calls with equal block numbers held in two `big.Int` objects,
neither of them a key of the cache, both request the header from the provider; only a
call with a pointer used before is answered from the cache. -/
theorem equal_numbers_fetched_twice (env : Env) (first second : BigIntPtr) (s : State)
    (header : Header) (hvalue : first.value = second.value)
    (hdistinct : first.pointer ≠ second.pointer)
    (hfirst : s.CachedBlocks.get? first.pointer = none)
    (hsecond : s.CachedBlocks.get? second.pointer = none)
    (hanswer : env.HeaderByNumber (some first.value) = some header) :
    ∃ s1 s2, GetBlockHeader env first s = (some header, .ok s1) ∧
      GetBlockHeader env second s1 = (some header, .ok s2) ∧
      headerFetches s2 = headerFetches s ++ [some first.value, some second.value] ∧
      GetBlockHeader env first s2 = (some header, .ok s2) := by
  have hanswer2 : env.HeaderByNumber (some second.value) = some header := by
    rw [← hvalue]
    exact hanswer
  refine ⟨{ s with
      trace := s.trace ++ [Effect.rpcHeaderByNumber (some first.value)]
      CachedBlocks := s.CachedBlocks.set first.pointer header },
    { s with
      trace := s.trace ++ [Effect.rpcHeaderByNumber (some first.value)]
        ++ [Effect.rpcHeaderByNumber (some second.value)]
      CachedBlocks := (s.CachedBlocks.set first.pointer header).set second.pointer header },
    ?_, ?_, ?_, ?_⟩
  · simp [GetBlockHeader, hfirst, hanswer]
  · simp [GetBlockHeader, GoMap.get?_set_of_ne _ _ _ _ hdistinct, hsecond, hanswer2]
  · simp [headerFetches, List.filterMap_append]
  · have hkept : ((s.CachedBlocks.set first.pointer header).set second.pointer header).get?
        first.pointer = some header := by
      rw [GoMap.get?_set_of_ne _ _ _ _ (Ne.symm hdistinct), GoMap.get?_set_self]
    simp [GetBlockHeader, hkept]

/-- Witness for C26: two `big.Int` objects at the addresses 1 and 2 both hold the number 5;
the header of block 5 is requested twice. -/
theorem equal_numbers_fetched_twice_witness :
    ∃ s1 s2,
      GetBlockHeader exampleHeaderEnv { pointer := 1, value := 5 } exampleState =
        (some { Number := 5, Hash := 1005 }, .ok s1) ∧
      GetBlockHeader exampleHeaderEnv { pointer := 2, value := 5 } s1 =
        (some { Number := 5, Hash := 1005 }, .ok s2) ∧
      headerFetches s2 = headerFetches exampleState ++ [some 5, some 5] ∧
      GetBlockHeader exampleHeaderEnv { pointer := 1, value := 5 } s2 =
        (some { Number := 5, Hash := 1005 }, .ok s2) :=
  equal_numbers_fetched_twice exampleHeaderEnv { pointer := 1, value := 5 }
    { pointer := 2, value := 5 } exampleState { Number := 5, Hash := 1005 } rfl (by decide)
    rfl rfl rfl

/-- C27, counterexample: 123 with 18 decimals is smaller than one; the result is the full
expansion with 18 digits after the point, not the text cut after two decimal places. -/
theorem small_value_keeps_all_digits :
    FormatDecimals (some 123) 18 = "0.000000000000000123" ∧
      String.mk (truncatedDecimal 123 18 2) = "0.00" := by
  decide

/-- C27 (amended): `FormatDecimals` returns "0" for the number 0.  For `decimals > 0` and
`n ≥ 10 ^ decimals` (a value of at least one) it returns the decimal text of
`n / 10 ^ decimals` cut, without rounding, after two decimal places (after `decimals`
places when `decimals` is 1 or 2).  For `0 < n < 10 ^ decimals` (a value below one) it
returns the exact expansion with all `decimals` places, trailing zeros removed. -/
theorem FormatDecimals_meaning (n decimals : Nat) (hdecimals : 0 < decimals) :
    FormatDecimals (some 0) decimals = "0" ∧
    (10 ^ decimals ≤ n →
      FormatDecimals (some (Int.ofNat n)) decimals =
        String.mk (truncatedDecimal n decimals (min decimals 2))) ∧
    (0 < n → n < 10 ^ decimals →
      FormatDecimals (some (Int.ofNat n)) decimals =
        String.mk (trimRightZeros (truncatedDecimal n decimals decimals))) := by
  have hdec : ¬ decimals = 0 := by omega
  refine ⟨by simp [FormatDecimals, hdec]; rfl, ?_, ?_⟩
  · intro hge
    have hpos : 0 < 10 ^ decimals := pow_pos (by decide) _
    have hn : ¬ Int.ofNat n = 0 := by
      simp only [Int.ofNat_eq_coe, Int.natCast_eq_zero]
      omega
    have hsplit := toDigits_split decimals n hge
    have hlen : (Nat.toDigits 10 n).length =
        (Nat.toDigits 10 (n / 10 ^ decimals)).length + decimals := by
      rw [hsplit, List.length_append, fixedDigits_length]
    have hhead := toDigits_length_pos (n / 10 ^ decimals)
    have hgt : (Nat.toDigits 10 n).length > decimals := by omega
    have hposEq : (Nat.toDigits 10 n).length - decimals =
        (Nat.toDigits 10 (n / 10 ^ decimals)).length := by omega
    have htake : (Nat.toDigits 10 n).take ((Nat.toDigits 10 n).length - decimals) =
        Nat.toDigits 10 (n / 10 ^ decimals) := by
      rw [hposEq, hsplit, List.take_left']
      rfl
    have hdrop : (Nat.toDigits 10 n).drop ((Nat.toDigits 10 n).length - decimals) =
        fixedDigits decimals n := by
      rw [hposEq, hsplit, List.drop_left']
      rfl
    simp only [FormatDecimals, bigIntString, hdec, hn, false_or, if_false, hgt, if_true,
      htake, hdrop, reduceCtorEq, Option.some.injEq]
    by_cases htwo : decimals > 2
    · have hmin : min decimals 2 = 2 := by omega
      have hfrac : (fixedDigits decimals n).take 2 =
          fixedDigits 2 (n * 10 ^ 2 / 10 ^ decimals) := by
        have hd : decimals = 2 + (decimals - 2) := by omega
        have hpow : 10 ^ decimals = 10 ^ (decimals - 2) * 10 ^ 2 := by
          rw [← pow_add]
          congr 1
          omega
        have hquot : n * 10 ^ 2 / 10 ^ decimals = n / 10 ^ (decimals - 2) := by
          rw [hpow, Nat.mul_div_mul_right _ _ (by decide)]
        rw [hquot]
        conv_lhs => rw [hd, fixedDigits_split 2 (decimals - 2) n]
        rw [List.take_left']
        exact fixedDigits_length 2 _
      simp only [htwo, if_true, hfrac, truncatedDecimal, hmin]
    · have hmin : min decimals 2 = decimals := by omega
      have hquot : n * 10 ^ decimals / 10 ^ decimals = n := Nat.mul_div_cancel _ hpos
      simp only [htwo, if_false, truncatedDecimal, hmin, hquot]
  · intro hn0 hlt
    have hpos : 0 < 10 ^ decimals := pow_pos (by decide) _
    have hn : ¬ Int.ofNat n = 0 := by
      simp only [Int.ofNat_eq_coe, Int.natCast_eq_zero]
      omega
    have hle := toDigits_length_le decimals n hdecimals hlt
    have hgt : ¬ (Nat.toDigits 10 n).length > decimals := by omega
    have hquot : n * 10 ^ decimals / 10 ^ decimals = n := Nat.mul_div_cancel _ hpos
    have hzero : n / 10 ^ decimals = 0 := Nat.div_eq_of_lt hlt
    have hpad := fixedDigits_eq_padded decimals n hn0 hlt
    simp only [FormatDecimals, bigIntString, hdec, hn, false_or, if_false, hgt,
      truncatedDecimal, hquot, hzero, hpad, reduceCtorEq, Option.some.injEq]
    rfl

/-- Witness for C27: 1234567 with 3 decimals is cut to "1234.56"; 100 with 5 decimals is
written in full as "0.001". -/
theorem FormatDecimals_meaning_witness :
    FormatDecimals (some (Int.ofNat 1234567)) 3 = "1234.56" ∧
      FormatDecimals (some (Int.ofNat 100)) 5 = "0.001" :=
  ⟨((FormatDecimals_meaning 1234567 3 (by decide)).2.1 (by decide)).trans (by decide),
   ((FormatDecimals_meaning 100 5 (by decide)).2.2 (by decide) (by decide)).trans
     (by decide)⟩

end Trackooor
